import Mathlib

attribute [local semireducible] Rat.add Rat.sub Rat.mul Rat.inv

/-!
Verification development for the `more_iced_aw` widget library.

This file contains a shallow embedding, over exact rational arithmetic, of:

* the grid layout algorithm of `src/grid.rs` (`Grid::layout` and the
  geometry primitives of the host toolkit it calls into), and
* the validated-input state machine of `src/parsed_input.rs`
  (`Content`, `Parsed`, the `BorrowMut` drop finalizer, and the
  `*_maybe` builder methods of `ParsedInput`).

The `f32` quantities of the source are modelled as rationals (`ℚ`); the
`u16` fill factors as naturals.  Child widgets are modelled by the exact
interface `Grid::layout` uses: a `Size<Length>` (`size()`) plus a layout
function from the maximum size of the limits to a resolved node size
(every child layout call in `grid.rs` passes `Limits::new(Size::ZERO, max)`,
so the maximum determines the limits).
-/

namespace MoreIcedAw

/-- Size with an arbitrary payload, mirroring iced's `Size<T>`. -/
structure Size (α : Type) where
  width : α
  height : α
deriving DecidableEq

/-- Rectangle, mirroring iced's `Rectangle<f32>` (node bounds). -/
structure Rect where
  x : ℚ
  y : ℚ
  width : ℚ
  height : ℚ
deriving DecidableEq

/-- Four-sided padding, mirroring iced's `Padding`. -/
structure Padding where
  top : ℚ
  right : ℚ
  bottom : ℚ
  left : ℚ
deriving DecidableEq

/-- The sum of the left and right padding (iced `Padding::horizontal`). -/
def Padding.horizontal (p : Padding) : ℚ := p.left + p.right

/-- The sum of the top and bottom padding (iced `Padding::vertical`). -/
def Padding.vertical (p : Padding) : ℚ := p.top + p.bottom

/-- A padding of zero on all sides (iced `Padding::ZERO`). -/
def Padding.zero : Padding := ⟨0, 0, 0, 0⟩

/-- iced's `Length` sizing strategy. -/
inductive Length where
  | fill : Length
  | fillPortion : ℕ → Length
  | shrink : Length
  | fixed : ℚ → Length
deriving DecidableEq

/-- iced `Length::fill_factor`: `Fill ⇒ 1`, `FillPortion(f) ⇒ f`,
`Shrink`/`Fixed` ⇒ 0. -/
def Length.fillFactor : Length → ℕ
  | .fill => 1
  | .fillPortion f => f
  | .shrink => 0
  | .fixed _ => 0

/-- iced `Alignment` (`Horizontal`/`Vertical` convert into it:
Left/Top ⇒ Start, Center ⇒ Center, Right/Bottom ⇒ End). -/
inductive Alignment where
  | Start : Alignment
  | Center : Alignment
  | End : Alignment
deriving DecidableEq

/-- The offset iced's `Node::align` adds along one axis, as a function of
`space extent - node extent`. -/
def alignOffset : Alignment → ℚ → ℚ
  | .Start, _ => 0
  | .Center, d => d / 2
  | .End, d => d

/-- iced layout `Limits`: a minimum and a maximum size. -/
structure Limits where
  minWidth : ℚ
  minHeight : ℚ
  maxWidth : ℚ
  maxHeight : ℚ
deriving DecidableEq

/-- iced `Limits::width`: a `Fixed` width clamps both bounds to the fixed
amount (clamped into the current bounds); other lengths leave the limits
unchanged. -/
def Limits.widthL (l : Limits) (w : Length) : Limits :=
  match w with
  | .fixed amount =>
    let a := max (min amount l.maxWidth) l.minWidth
    { l with minWidth := a, maxWidth := a }
  | _ => l

/-- iced `Limits::height`, analogous to `Limits::width`. -/
def Limits.heightL (l : Limits) (h : Length) : Limits :=
  match h with
  | .fixed amount =>
    let a := max (min amount l.maxHeight) l.minHeight
    { l with minHeight := a, maxHeight := a }
  | _ => l

/-- iced `Limits::shrink`: subtracts a size (here a padding, converted via
`Size::from(Padding)` = (horizontal, vertical)) from both bounds, clamping
each component at zero. -/
def Limits.shrinkP (l : Limits) (p : Padding) : Limits :=
  { minWidth := max (l.minWidth - p.horizontal) 0
    minHeight := max (l.minHeight - p.vertical) 0
    maxWidth := max (l.maxWidth - p.horizontal) 0
    maxHeight := max (l.maxHeight - p.vertical) 0 }

/-- iced `Limits::resolve`: Fill/FillPortion take the maximum, Fixed clamps
the amount into the bounds, Shrink clamps the intrinsic size into the
bounds. -/
def Limits.resolve (l : Limits) (w h : Length) (intrinsic : Size ℚ) : Size ℚ :=
  { width :=
      match w with
      | .fill => l.maxWidth
      | .fillPortion _ => l.maxWidth
      | .fixed amount => max (min amount l.maxWidth) l.minWidth
      | .shrink => max (min intrinsic.width l.maxWidth) l.minWidth
    height :=
      match h with
      | .fill => l.maxHeight
      | .fillPortion _ => l.maxHeight
      | .fixed amount => max (min amount l.maxHeight) l.minHeight
      | .shrink => max (min intrinsic.height l.maxHeight) l.minHeight }

/-- The main axis of a `Grid` (`Axis` in `grid.rs`). -/
inductive Axis where
  | horizontal : Axis
  | vertical : Axis
deriving DecidableEq

/-- `Axis::main`: the component of a size along the main axis. -/
def Axis.main {α : Type} : Axis → Size α → α
  | .horizontal, s => s.width
  | .vertical, s => s.height

/-- `Axis::cross`: the component of a size along the cross axis. -/
def Axis.cross {α : Type} : Axis → Size α → α
  | .horizontal, s => s.height
  | .vertical, s => s.width

/-- `Axis::pack`: swaps the pair for the vertical axis.  The source uses it
both to pack `(main, cross)` into `(width, height)` and, being an
involution, to unpack again. -/
def Axis.pack {α : Type} : Axis → α → α → α × α
  | .horizontal, w, h => (w, h)
  | .vertical, w, h => (h, w)

/-- `Axis::size_pack`: `pack` applied to a size's components. -/
def Axis.sizePack {α : Type} (ax : Axis) (s : Size α) : α × α :=
  ax.pack s.width s.height

/-- A child widget, seen through the interface `Grid::layout` uses:
`size()` reporting a `Size<Length>`, and a layout function.  Since every
child layout call in `grid.rs` builds `Limits::new(Size::ZERO, max)`, the
layout function takes the maximum width and height of those limits and
returns the size of the node the child produced. -/
structure Child where
  widthLen : Length
  heightLen : Length
  layoutFn : ℚ → ℚ → Size ℚ

/-- `Child`'s reported `Size<Length>` (the widget's `size()`). -/
def Child.sizeLen (c : Child) : Size Length := ⟨c.widthLen, c.heightLen⟩

/-- The `Grid` widget's layout-relevant fields (`grid.rs`). -/
structure GridW where
  rows : List (List Child)
  width : Length
  height : Length
  padding : Padding
  horizontalAlign : Alignment
  verticalAlign : Alignment
  columnSpacing : ℚ
  rowSpacing : ℚ
  axis : Axis

/-- The cell of the grid at row `a`, column `b`
(`elts_trees.get_mut(a).and_then(|vec| vec.get_mut(b))`). -/
def GridW.cellAt (g : GridW) (a b : ℕ) : Option Child :=
  (g.rows.get? a).bind fun r => r.get? b

/-!
First sizing pass of `Grid::layout` (lines 231-271 of `grid.rs`): record the
maximal fill factors per track and, for children with a zero main fill
factor, lay them out against the running main budget and the full cross
budget, recording the maximal main extent per secondary track; after each
secondary track the running budget is decremented by that track's size.
-/

/-- State of the first sizing pass: the running main budget, the per-sec
main minima, and the per-track maximal fill factors. -/
structure Phase1State where
  main : ℚ
  secMain : List ℚ
  secMainFactor : List ℕ
  primCrossFactor : List ℕ
deriving DecidableEq

/-- Body of the first pass for a single cell `(i, j)` (prim, sec). -/
def phase1Cell (g : GridW) (crossAvail : ℚ) (j : ℕ) (st : Phase1State) (i : ℕ) :
    Phase1State :=
  match g.cellAt (g.axis.pack i j).1 (g.axis.pack i j).2 with
  | none => st
  | some elt =>
    let mc := g.axis.sizePack elt.sizeLen
    let mainFactor := mc.1.fillFactor
    let crossFactor := mc.2.fillFactor
    let st := { st with
      primCrossFactor :=
        st.primCrossFactor.set i (max (st.primCrossFactor.getD i 0) crossFactor)
      secMainFactor :=
        st.secMainFactor.set j (max (st.secMainFactor.getD j 0) mainFactor) }
    if mainFactor = 0 then
      let wh := g.axis.pack st.main crossAvail
      let sz := elt.layoutFn wh.1 wh.2
      { st with secMain := st.secMain.set j (max (st.secMain.getD j 0) (g.axis.main sz)) }
    else st

/-- First pass over one secondary track `j`: all primary indices, then
`main -= sec_main[j]`. -/
def phase1Col (g : GridW) (crossAvail : ℚ) (nbPrim : ℕ) (st : Phase1State) (j : ℕ) :
    Phase1State :=
  let st := (List.range nbPrim).foldl (phase1Cell g crossAvail j) st
  { st with main := st.main - st.secMain.getD j 0 }

/-- The whole first sizing pass. -/
def phase1 (g : GridW) (mainAvail crossAvail : ℚ) (nbPrim nbSec : ℕ) : Phase1State :=
  (List.range nbSec).foldl (phase1Col g crossAvail nbPrim)
    { main := mainAvail
      secMain := List.replicate nbSec 0
      secMainFactor := List.replicate nbSec 0
      primCrossFactor := List.replicate nbPrim 0 }

/-!
Clamped redistribution (lines 274-305 and 357-389 of `grid.rs`): repeatedly
sweep the not-yet-clamped tracks; a track whose proportional share of the
remaining budget is below its recorded minimum is clamped (removed from the
weighted pool, its factor zeroed, its minimum charged to the budget), until
a sweep clamps nothing or the pool empties.  The sweep order comes from
iterating a `HashSet`, so it is abstracted as an `oracle` listing the
elements of the current set; the source's deterministic behaviour despite
this is proved below.
-/

/-- State of the redistribution loop: `not_clamped`, the (partly zeroed)
factor array, `fill_sum`, and the remaining budget `main`. -/
structure RState where
  notClamped : Finset ℕ
  factors : List ℕ
  fillSum : ℕ
  main : ℚ
deriving DecidableEq

/-- The condition under which the loop body clamps track `j`.  The source
computes `factor as f32 / fill_sum as f32 * main < sec_main[j]`; when
`fill_sum == 0` the division yields NaN (the factor is 0 for any track
still in the pool) and the comparison is false, hence the `fillSum ≠ 0`
conjunct.  The `j ∈ notClamped` conjunct holds for every index the source
iterates (the sweep list is a snapshot of the set and each element occurs
once). -/
def ClampCond (mins : List ℚ) (st : RState) (j : ℕ) : Prop :=
  j ∈ st.notClamped ∧ st.fillSum ≠ 0 ∧
    (st.factors.getD j 0 : ℚ) / (st.fillSum : ℚ) * st.main < mins.getD j 0

instance (mins : List ℚ) (st : RState) (j : ℕ) : Decidable (ClampCond mins st j) := by
  unfold ClampCond
  infer_instance

/-- Effect of clamping track `j`: `fill_sum -= factor`,
`not_clamped.remove(&j)`, `sec_main_factor[j] = 0`, `main -= sec_size`. -/
def clampApply (mins : List ℚ) (st : RState) (j : ℕ) : RState :=
  { notClamped := st.notClamped.erase j
    factors := st.factors.set j 0
    fillSum := st.fillSum - st.factors.getD j 0
    main := st.main - mins.getD j 0 }

/-- One iteration of the inner `for` loop; the boolean records whether the
track was clamped. -/
def clampStep (mins : List ℚ) (st : RState) (j : ℕ) : RState × Bool :=
  if ClampCond mins st j then (clampApply mins st j, true) else (st, false)

/-- One sweep of the inner `for` loop over the snapshot `idxs`; the boolean
is the source's `finished` flag (true iff no track clamped). -/
def clampPass (mins : List ℚ) : RState → List ℕ → RState × Bool
  | st, [] => (st, true)
  | st, j :: rest =>
    let p := clampStep mins st j
    let q := clampPass mins p.1 rest
    (q.1, q.2 && !p.2)

/-- The `while !finished && fill_sum > 0` loop.  Each sweep that is not
final removes at least one element from `notClamped`, so the fuel
`notClamped.card + 1` supplied by `redistState` always suffices (proved
below). -/
def clampLoop (mins : List ℚ) (oracle : Finset ℕ → List ℕ) : ℕ → RState → RState
  | 0, st => st
  | fuel + 1, st =>
    if st.fillSum = 0 then st
    else
      let p := clampPass mins st (oracle st.notClamped)
      if p.2 then p.1 else clampLoop mins oracle fuel p.1

/-- The state after the clamping loop, starting from the full pool. -/
def redistState (oracle : Finset ℕ → List ℕ) (budget : ℚ) (factors : List ℕ)
    (mins : List ℚ) (n : ℕ) : RState :=
  clampLoop mins oracle (n + 1)
    { notClamped := Finset.range n
      factors := factors
      fillSum := factors.sum
      main := budget }

/-- The final track sizes read off a loop state:
`sec_main[j].max(if fill_sum > 0 { factor/fill_sum*main } else { 0. })`. -/
def redistOut (st : RState) (mins : List ℚ) (n : ℕ) : List ℚ :=
  (List.range n).map fun j =>
    max (mins.getD j 0)
      (if 0 < st.fillSum then (st.factors.getD j 0 : ℚ) / (st.fillSum : ℚ) * st.main else 0)

/-- The whole redistribution of a budget over `n` tracks. -/
def redistribute (oracle : Finset ℕ → List ℕ) (budget : ℚ) (factors : List ℕ)
    (mins : List ℚ) (n : ℕ) : List ℚ :=
  redistOut (redistState oracle budget factors mins n) mins n

/-!
Cross resolution (lines 307-353), final layout of fill-cross children
(lines 391-421) and positioning (lines 423-455).
-/

/-- Replaces entry `(a, b)` of a list of lists. -/
def setCell {α : Type} (nss : List (List α)) (a b : ℕ) (v : α) : List (List α) :=
  nss.set a ((nss.getD a []).set b v)

/-- State of the cross minimum pass: running cross budget, per-prim cross
minima, and the node sizes stored so far (`Node::default()` is zero). -/
structure CrossState where
  cross : ℚ
  primCross : List ℚ
  nodes : List (List (Size ℚ))
deriving DecidableEq

/-- Body of the cross pass for a single cell `(i, j)`: children with zero
cross fill factor are laid out against their final main track size and the
running cross budget; the result is stored as the cell's node. -/
def crossCell (g : GridW) (secMain : List ℚ) (i : ℕ) (st : CrossState) (j : ℕ) :
    CrossState :=
  match g.cellAt (g.axis.pack i j).1 (g.axis.pack i j).2 with
  | none => st
  | some elt =>
    let crossFactor := (g.axis.cross elt.sizeLen).fillFactor
    if crossFactor = 0 then
      let wh := g.axis.pack (secMain.getD j 0) st.cross
      let sz := elt.layoutFn wh.1 wh.2
      { st with
        primCross := st.primCross.set i (max (st.primCross.getD i 0) (g.axis.cross sz))
        nodes := setCell st.nodes (g.axis.pack i j).1 (g.axis.pack i j).2 sz }
    else st

/-- Cross pass over one primary track `i`, then `cross -= prim_cross[i]`. -/
def crossRow (g : GridW) (secMain : List ℚ) (nbSec : ℕ) (st : CrossState) (i : ℕ) :
    CrossState :=
  let st := (List.range nbSec).foldl (crossCell g secMain i) st
  { st with cross := st.cross - st.primCross.getD i 0 }

/-- The whole cross minimum pass.  Note the running budget starts at the
raw `max_cross`, not at `max_cross - cross_total_spacing`. -/
def phaseCross (g : GridW) (secMain : List ℚ) (maxCross : ℚ) (nbPrim nbSec : ℕ) :
    CrossState :=
  (List.range nbPrim).foldl (crossRow g secMain nbSec)
    { cross := maxCross
      primCross := List.replicate nbPrim 0
      nodes := g.rows.map fun r => r.map fun _ => (⟨0, 0⟩ : Size ℚ) }

/-- Final layout of a child with non-zero cross fill factor, against its
fully resolved cell. -/
def fillCell (g : GridW) (secMain primCross : List ℚ) (i : ℕ)
    (nodes : List (List (Size ℚ))) (j : ℕ) : List (List (Size ℚ)) :=
  match g.cellAt (g.axis.pack i j).1 (g.axis.pack i j).2 with
  | none => nodes
  | some elt =>
    let crossFactor := (g.axis.cross elt.sizeLen).fillFactor
    if crossFactor ≠ 0 then
      let wh := g.axis.pack (secMain.getD j 0) (primCross.getD i 0)
      setCell nodes (g.axis.pack i j).1 (g.axis.pack i j).2 (elt.layoutFn wh.1 wh.2)
    else nodes

/-- The pass computing all remaining nodes (`// Compute all nodes`). -/
def phaseFill (g : GridW) (secMain primCross : List ℚ) (nbPrim nbSec : ℕ)
    (nodes : List (List (Size ℚ))) : List (List (Size ℚ)) :=
  (List.range nbPrim).foldl
    (fun nodes i => (List.range nbSec).foldl (fillCell g secMain primCross i) nodes)
    nodes

/-- Positioning of the nodes of one stored row `a`: cursor `x` advances by
`width + column_spacing` per cell, where `(width, height)` is the packed
`(sec_main[j], prim_cross[i])` with `(i, j) = axis.pack(a, b)`; each node
is moved to the cursor then aligned within its cell box. -/
def placeCells (g : GridW) (secMain primCross : List ℚ) (a : ℕ) (y : ℚ) :
    ℕ → ℚ → List (Size ℚ) → List Rect
  | _, _, [] => []
  | b, x, sz :: rest =>
    let ij := g.axis.pack a b
    let wh := g.axis.pack (secMain.getD ij.2 0) (primCross.getD ij.1 0)
    { x := x + alignOffset g.horizontalAlign (wh.1 - sz.width)
      y := y + alignOffset g.verticalAlign (wh.2 - sz.height)
      width := sz.width
      height := sz.height } ::
      placeCells g secMain primCross a y (b + 1) (x + wh.1 + g.columnSpacing) rest

/-- Positioning of all stored rows: `y` advances by the row extent
(`prim_cross[a]` for a horizontal axis, `sec_main[a]` for a vertical one)
plus `row_spacing`; `x` restarts at `padding.left` for every row. -/
def placeRows (g : GridW) (secMain primCross : List ℚ) :
    ℕ → ℚ → List (List (Size ℚ)) → List (List Rect)
  | _, _, [] => []
  | a, y, row :: rest =>
    placeCells g secMain primCross a y 0 g.padding.left row ::
      placeRows g secMain primCross (a + 1)
        (y + (match g.axis with
              | .horizontal => primCross.getD a 0
              | .vertical => secMain.getD a 0) + g.rowSpacing) rest

/-!
The successive quantities `Grid::layout` computes, as named definitions in
source order (each mirrors one of the function's local variables).
-/

/-- `nb_columns`: the maximal row length. -/
def GridW.nbColumns (g : GridW) : ℕ :=
  g.rows.foldl (fun len r => max len r.length) 0

/-- `nb_rows`. -/
def GridW.nbRows (g : GridW) : ℕ := g.rows.length

/-- `nb_prim`: rows for a horizontal axis, columns for a vertical one. -/
def GridW.nbPrim (g : GridW) : ℕ := (g.axis.pack g.nbRows g.nbColumns).1

/-- `nb_sec`. -/
def GridW.nbSec (g : GridW) : ℕ := (g.axis.pack g.nbRows g.nbColumns).2

/-- `main_length`. -/
def GridW.mainLength (g : GridW) : Length := (g.axis.pack g.width g.height).1

/-- `cross_length`. -/
def GridW.crossLength (g : GridW) : Length := (g.axis.pack g.width g.height).2

/-- The limits constrained by the grid's width/height and shrunk by its
padding (the block at lines 191-198). -/
def GridW.shrunkLimits (g : GridW) (limits : Limits) : Limits :=
  ((limits.heightL g.height).widthL g.width).shrinkP g.padding

/-- `max_main`. -/
def GridW.maxMain (g : GridW) (limits : Limits) : ℚ :=
  (g.axis.pack (g.shrunkLimits limits).maxWidth (g.shrunkLimits limits).maxHeight).1

/-- `max_cross`. -/
def GridW.maxCross (g : GridW) (limits : Limits) : ℚ :=
  (g.axis.pack (g.shrunkLimits limits).maxWidth (g.shrunkLimits limits).maxHeight).2

/-- `main_spacing`. -/
def GridW.mainSpacing (g : GridW) : ℚ := (g.axis.pack g.columnSpacing g.rowSpacing).1

/-- `cross_spacing`. -/
def GridW.crossSpacing (g : GridW) : ℚ := (g.axis.pack g.columnSpacing g.rowSpacing).2

/-- `main_total_spacing = main_spacing * (nb_sec.saturating_sub(1))`. -/
def GridW.mainTotalSpacing (g : GridW) : ℚ :=
  g.mainSpacing * ((g.nbSec - 1 : ℕ) : ℚ)

/-- `cross_total_spacing`. -/
def GridW.crossTotalSpacing (g : GridW) : ℚ :=
  g.crossSpacing * ((g.nbPrim - 1 : ℕ) : ℚ)

/-- `main_max = max_main - main_total_spacing`. -/
def GridW.mainAvail (g : GridW) (limits : Limits) : ℚ :=
  g.maxMain limits - g.mainTotalSpacing

/-- `cross_max = max_cross - cross_total_spacing`. -/
def GridW.crossAvail (g : GridW) (limits : Limits) : ℚ :=
  g.maxCross limits - g.crossTotalSpacing

/-- The state after the first sizing pass. -/
def GridW.phase1Data (g : GridW) (limits : Limits) : Phase1State :=
  phase1 g (g.mainAvail limits) (g.crossAvail limits) g.nbPrim g.nbSec

/-- The intrinsic per-sec main minima (`sec_main` before redistribution). -/
def GridW.secMainMin (g : GridW) (limits : Limits) : List ℚ :=
  (g.phase1Data limits).secMain

/-- `sec_main_factor` after the first pass. -/
def GridW.secMainFactorL (g : GridW) (limits : Limits) : List ℕ :=
  (g.phase1Data limits).secMainFactor

/-- `prim_cross_factor` after the first pass. -/
def GridW.primCrossFactorL (g : GridW) (limits : Limits) : List ℕ :=
  (g.phase1Data limits).primCrossFactor

/-- The state of the main-axis clamping loop (reached by the algorithm
exactly when the main length is not `Shrink`). -/
def GridW.mainRState (g : GridW) (limits : Limits) (oracle : Finset ℕ → List ℕ) :
    RState :=
  redistState oracle (g.mainAvail limits) (g.secMainFactorL limits)
    (g.secMainMin limits) g.nbSec

/-- The final main sizes of the secondary tracks. -/
def GridW.secMain (g : GridW) (limits : Limits) (oracle : Finset ℕ → List ℕ) :
    List ℚ :=
  if g.mainLength ≠ Length.shrink
  then redistOut (g.mainRState limits oracle) (g.secMainMin limits) g.nbSec
  else g.secMainMin limits

/-- The state after the cross minimum pass. -/
def GridW.crossData (g : GridW) (limits : Limits) (oracle : Finset ℕ → List ℕ) :
    CrossState :=
  phaseCross g (g.secMain limits oracle) (g.maxCross limits) g.nbPrim g.nbSec

/-- The intrinsic per-prim cross minima (`prim_cross` before
redistribution). -/
def GridW.primCrossMin (g : GridW) (limits : Limits) (oracle : Finset ℕ → List ℕ) :
    List ℚ :=
  (g.crossData limits oracle).primCross

/-- The state of the cross-axis clamping loop (reached exactly when the
cross length is not `Shrink`). -/
def GridW.crossRState (g : GridW) (limits : Limits) (oracle : Finset ℕ → List ℕ) :
    RState :=
  redistState oracle (g.crossAvail limits) (g.primCrossFactorL limits)
    (g.primCrossMin limits oracle) g.nbPrim

/-- The final cross sizes of the primary tracks. -/
def GridW.primCross (g : GridW) (limits : Limits) (oracle : Finset ℕ → List ℕ) :
    List ℚ :=
  if g.crossLength ≠ Length.shrink
  then redistOut (g.crossRState limits oracle) (g.primCrossMin limits oracle) g.nbPrim
  else g.primCrossMin limits oracle

/-- All node sizes, after the final fill-cross layout pass. -/
def GridW.nodeSizes (g : GridW) (limits : Limits) (oracle : Finset ℕ → List ℕ) :
    List (List (Size ℚ)) :=
  phaseFill g (g.secMain limits oracle) (g.primCross limits oracle) g.nbPrim g.nbSec
    (g.crossData limits oracle).nodes

/-- The positioned node rectangles, row by row. -/
def GridW.cells (g : GridW) (limits : Limits) (oracle : Finset ℕ → List ℕ) :
    List (List Rect) :=
  placeRows g (g.secMain limits oracle) (g.primCross limits oracle) 0 g.padding.top
    (g.nodeSizes limits oracle)

/-- `intrinsic_width` (sum of tracks plus spacing, packed back). -/
def GridW.intrinsicWidth (g : GridW) (limits : Limits) (oracle : Finset ℕ → List ℕ) :
    ℚ :=
  (g.axis.pack ((g.secMain limits oracle).sum + g.mainTotalSpacing)
    ((g.primCross limits oracle).sum + g.crossTotalSpacing)).1

/-- `intrinsic_height`. -/
def GridW.intrinsicHeight (g : GridW) (limits : Limits) (oracle : Finset ℕ → List ℕ) :
    ℚ :=
  (g.axis.pack ((g.secMain limits oracle).sum + g.mainTotalSpacing)
    ((g.primCross limits oracle).sum + g.crossTotalSpacing)).2

/-- The size of the grid's own node:
`limits.resolve(width, height, intrinsic.expand(padding))`. -/
def GridW.totalSize (g : GridW) (limits : Limits) (oracle : Finset ℕ → List ℕ) :
    Size ℚ :=
  limits.resolve g.width g.height
    ⟨g.intrinsicWidth limits oracle + g.padding.horizontal,
     g.intrinsicHeight limits oracle + g.padding.vertical⟩

/-- The widths of the column cell boxes used during positioning. -/
def GridW.colWidths (g : GridW) (limits : Limits) (oracle : Finset ℕ → List ℕ) :
    List ℚ :=
  match g.axis with
  | .horizontal => g.secMain limits oracle
  | .vertical => g.primCross limits oracle

/-- The heights of the row cell boxes used during positioning. -/
def GridW.rowHeights (g : GridW) (limits : Limits) (oracle : Finset ℕ → List ℕ) :
    List ℚ :=
  match g.axis with
  | .horizontal => g.primCross limits oracle
  | .vertical => g.secMain limits oracle

/-- The observable result of `Grid::layout`: the node's size and the bounds
of all child nodes. -/
structure LayoutResult where
  size : Size ℚ
  cells : List (List Rect)
deriving DecidableEq

/-- `Grid::layout` with an explicit sweep-order oracle for the `HashSet`
iterations. -/
def GridW.layoutWith (g : GridW) (limits : Limits) (oracle : Finset ℕ → List ℕ) :
    LayoutResult :=
  { size := g.totalSize limits oracle, cells := g.cells limits oracle }

/-- A canonical sweep order: ascending enumeration of the elements. -/
def defaultOracle (s : Finset ℕ) : List ℕ :=
  (List.range ((∑ j ∈ s, j) + 1)).filter fun j => j ∈ s

/-- `Grid::layout` with the canonical sweep order. -/
def GridW.layout (g : GridW) (limits : Limits) : LayoutResult :=
  g.layoutWith limits defaultOracle

/-- A second sweep order: descending enumeration of the elements, standing
in for a `HashSet` iteration whose hasher visits the pool differently. -/
def revOracle (s : Finset ℕ) : List ℕ :=
  (defaultOracle s).reverse

/-!
Predicates about grids and layout results used by the theorems below.
-/

/-- A child respects its limits: the node it returns has non-negative
extents no larger than the (zero-clamped) maxima it was given.  This is
the layout contract of the host toolkit's widgets; `Grid::layout` itself
passes `Limits::new(Size::ZERO, max)` to every child. -/
def WellBehaved (c : Child) : Prop :=
  ∀ mw mh : ℚ,
    0 ≤ (c.layoutFn mw mh).width ∧ (c.layoutFn mw mh).width ≤ max mw 0 ∧
    0 ≤ (c.layoutFn mw mh).height ∧ (c.layoutFn mw mh).height ≤ max mh 0

/-- All children of a grid respect their limits. -/
def GridW.AllWellBehaved (g : GridW) : Prop :=
  ∀ r ∈ g.rows, ∀ c ∈ r, WellBehaved c

/-- A child whose layout response does not depend on the limits it is
offered. -/
def ConstChild (c : Child) : Prop :=
  ∀ mw mh : ℚ, c.layoutFn mw mh = c.layoutFn 0 0

/-- All children of a grid have limit-independent layout responses. -/
def GridW.AllConst (g : GridW) : Prop :=
  ∀ r ∈ g.rows, ∀ c ∈ r, ConstChild c

/-- Two rectangles do not intersect (their interiors are disjoint): they
are separated along one of the axes. -/
def Rect.Disjoint (r s : Rect) : Prop :=
  r.x + r.width ≤ s.x ∨ s.x + s.width ≤ r.x ∨
  r.y + r.height ≤ s.y ∨ s.y + s.height ≤ r.y

/-- `r` lies within `box`. -/
def Rect.ContainedIn (r box : Rect) : Prop :=
  box.x ≤ r.x ∧ box.y ≤ r.y ∧
  r.x + r.width ≤ box.x + box.width ∧ r.y + r.height ≤ box.y + box.height

/-- The grid's content box: its resolved bounds inset by its padding. -/
def GridW.paddedBox (g : GridW) (limits : Limits) (oracle : Finset ℕ → List ℕ) :
    Rect :=
  { x := g.padding.left
    y := g.padding.top
    width := (g.totalSize limits oracle).width - g.padding.horizontal
    height := (g.totalSize limits oracle).height - g.padding.vertical }

/-- The cell rectangle the positioning loop produced for row `a`, cell `b`. -/
def GridW.rectAt (g : GridW) (limits : Limits) (oracle : Finset ℕ → List ℕ)
    (a b : ℕ) : Rect :=
  ((g.cells limits oracle).getD a []).getD b ⟨0, 0, 0, 0⟩

/-- Distance from the content origin to the start of track `k`, for track
extents `sizes` and a per-gap `spacing`. -/
def trackOffset (sizes : List ℚ) (spacing : ℚ) (k : ℕ) : ℚ :=
  ∑ t ∈ Finset.range k, (sizes.getD t 0 + spacing)

/-- The extent by which the positioning loop advances `y` past stored row
`a` (the `match` in the source's outer positioning loop). -/
def rowExtent (g : GridW) (secMain primCross : List ℚ) (a : ℕ) : ℚ :=
  match g.axis with
  | .horizontal => primCross.getD a 0
  | .vertical => secMain.getD a 0

/-- The width of the cell box the positioning loop uses at row `a`,
column `b` (the packed `(sec_main[j], prim_cross[i])`). -/
def cellBoxW (g : GridW) (secMain primCross : List ℚ) (a b : ℕ) : ℚ :=
  (g.axis.pack (secMain.getD (g.axis.pack a b).2 0)
    (primCross.getD (g.axis.pack a b).1 0)).1

/-- The height of the cell box the positioning loop uses at row `a`,
column `b`. -/
def cellBoxH (g : GridW) (secMain primCross : List ℚ) (a b : ℕ) : ℚ :=
  (g.axis.pack (secMain.getD (g.axis.pack a b).2 0)
    (primCross.getD (g.axis.pack a b).1 0)).2

/-- The cell box of row `a`, column `b`: the column/row track offsets from
the content origin and the track extents.  Its width depends only on the
column and its height only on the row, which is the uniform-track-size
invariant. -/
def GridW.cellBox (g : GridW) (limits : Limits) (oracle : Finset ℕ → List ℕ)
    (a b : ℕ) : Rect :=
  { x := g.padding.left + trackOffset (g.colWidths limits oracle) g.columnSpacing b
    y := g.padding.top + trackOffset (g.rowHeights limits oracle) g.rowSpacing a
    width := (g.colWidths limits oracle).getD b 0
    height := (g.rowHeights limits oracle).getD a 0 }

/-- The grid with its axis replaced and every other field kept. -/
def GridW.withAxis (g : GridW) (ax : Axis) : GridW :=
  { g with axis := ax }

/-- One accumulation step of the intrinsic minimum of main track `j`: the
maximal main extent of the zero-main-fill children of the track, for
limit-independent children. -/
def mainMinStep (g : GridW) (j : ℕ) (m : ℚ) (i : ℕ) : ℚ :=
  match g.cellAt (g.axis.pack i j).1 (g.axis.pack i j).2 with
  | none => m
  | some c => if (g.axis.sizePack c.sizeLen).1.fillFactor = 0
      then max m (g.axis.main (c.layoutFn 0 0)) else m

/-- One accumulation step of the fill factor of main track `j`. -/
def mainFacStep (g : GridW) (j : ℕ) (m : ℕ) (i : ℕ) : ℕ :=
  match g.cellAt (g.axis.pack i j).1 (g.axis.pack i j).2 with
  | none => m
  | some c => max m (g.axis.sizePack c.sizeLen).1.fillFactor

/-- One accumulation step of the intrinsic minimum of cross track `i`, for
limit-independent children. -/
def crossMinStep (g : GridW) (i : ℕ) (m : ℚ) (j : ℕ) : ℚ :=
  match g.cellAt (g.axis.pack i j).1 (g.axis.pack i j).2 with
  | none => m
  | some c => if (g.axis.cross c.sizeLen).fillFactor = 0
      then max m (g.axis.cross (c.layoutFn 0 0)) else m

/-- One accumulation step of the fill factor of cross track `i`. -/
def crossFacStep (g : GridW) (i : ℕ) (m : ℕ) (j : ℕ) : ℕ :=
  match g.cellAt (g.axis.pack i j).1 (g.axis.pack i j).2 with
  | none => m
  | some c => max m (g.axis.sizePack c.sizeLen).2.fillFactor

/-- Bounds on a stored node matrix: every entry is non-negative and no
larger, along each axis, than the track extents `sm`/`pc` it was laid out
against. -/
def NodesBounded (g : GridW) (sm pc : List ℚ) (nodes : List (List (Size ℚ))) :
    Prop :=
  ∀ a b : ℕ,
    0 ≤ g.axis.main ((nodes.getD a []).getD b ⟨0, 0⟩) ∧
    0 ≤ g.axis.cross ((nodes.getD a []).getD b ⟨0, 0⟩) ∧
    g.axis.main ((nodes.getD a []).getD b ⟨0, 0⟩)
      ≤ max (sm.getD (g.axis.pack a b).2 0) 0 ∧
    g.axis.cross ((nodes.getD a []).getD b ⟨0, 0⟩)
      ≤ max (pc.getD (g.axis.pack a b).1 0) 0

/-- An oracle that, for any set, lists at least all of its elements — true
of any iteration of a `HashSet` whatever order the hasher induces. -/
def OracleComplete (oracle : Finset ℕ → List ℕ) : Prop :=
  ∀ s : Finset ℕ, ∀ j ∈ s, j ∈ oracle s

/-- No secondary track was clamped during the main-axis redistribution. -/
def GridW.NoClampMain (g : GridW) (limits : Limits) (oracle : Finset ℕ → List ℕ) :
    Prop :=
  (g.mainRState limits oracle).notClamped = Finset.range g.nbSec

/-!
Abstract view of the clamping loop used to prove its sweep-order
independence: a loop state is determined by the set of still-unclamped
tracks together with the static data (initial factors, minima, budget).
-/

/-- The fill sum determined by an unclamped set. -/
def fillOf (factors : List ℕ) (nc : Finset ℕ) : ℕ :=
  ∑ j ∈ nc, factors.getD j 0

/-- The remaining budget determined by an unclamped set. -/
def mainOf (mins : List ℚ) (budget : ℚ) (n : ℕ) (nc : Finset ℕ) : ℚ :=
  budget - ∑ j ∈ Finset.range n \ nc, mins.getD j 0

/-- The clamping condition expressed on the unclamped set. -/
def CondOf (factors : List ℕ) (mins : List ℚ) (budget : ℚ) (n : ℕ)
    (nc : Finset ℕ) (j : ℕ) : Prop :=
  j ∈ nc ∧ fillOf factors nc ≠ 0 ∧
    (factors.getD j 0 : ℚ) / (fillOf factors nc : ℚ) * mainOf mins budget n nc
      < mins.getD j 0

/-- One clamp at the level of unclamped sets. -/
def AStep (factors : List ℕ) (mins : List ℚ) (budget : ℚ) (n : ℕ)
    (nc nc' : Finset ℕ) : Prop :=
  ∃ j, CondOf factors mins budget n nc j ∧ nc' = nc.erase j

/-- A concrete loop state realizes an unclamped set. -/
def Realizes (factors₀ : List ℕ) (mins : List ℚ) (budget : ℚ) (n : ℕ)
    (st : RState) (nc : Finset ℕ) : Prop :=
  st.notClamped = nc ∧ nc ⊆ Finset.range n ∧
  st.factors.length = factors₀.length ∧
  (∀ j, st.factors.getD j 0 = if j ∈ nc then factors₀.getD j 0 else 0) ∧
  st.fillSum = fillOf factors₀ nc ∧
  st.main = mainOf mins budget n nc

/-- The final track sizes determined by an unclamped set: the abstract
counterpart of `redistOut`, fully determined by the static data and the
set. -/
def aout (factors : List ℕ) (mins : List ℚ) (budget : ℚ) (n : ℕ)
    (nc : Finset ℕ) : List ℚ :=
  (List.range n).map fun j =>
    max (mins.getD j 0)
      (if 0 < fillOf factors nc
       then ((if j ∈ nc then factors.getD j 0 else 0 : ℕ) : ℚ) /
         (fillOf factors nc : ℚ) * mainOf mins budget n nc
       else 0)

/-!
Model of the validated-input state machine of `src/parsed_input.rs`.
Strings are Lean strings; the value and error types are arbitrary;
`to_string` is an explicit function (`T: ToString` in the source).
-/

/-- `Content<T, E>`: the value, the displayed string, and the parse error. -/
structure Content (T E : Type) where
  value : T
  string : String
  error : Option E
deriving DecidableEq

/-- `Content::new`: the string is derived from the initial value, no error. -/
def Content.new {T E : Type} (toStr : T → String) (value : T) : Content T E :=
  { value := value, string := toStr value, error := none }

/-- `Content::is_valid`. -/
def Content.isValid {T E : Type} (c : Content T E) : Bool :=
  c.error.isNone

/-- `Content::get_error`. -/
def Content.getError {T E : Type} (c : Content T E) : Option E :=
  c.error

/-- `Parsed<T, E>`: a string together with its parse outcome. -/
structure Parsed (T E : Type) where
  string : String
  parsed : Except E T

/-- `Parsed::from_string`, for an explicit parser (`T: FromStr`). -/
def Parsed.fromString {T E : Type} (parse : String → Except E T) (s : String) :
    Parsed T E :=
  { string := s, parsed := parse s }

/-- `Parsed::from_value`. -/
def Parsed.fromValue {T E : Type} (toStr : T → String) (v : T) : Parsed T E :=
  { string := toStr v, parsed := .ok v }

/-- `Content::update`: always overwrite the string; on `Ok` clear the error
and overwrite the value, on `Err` only set the error. -/
def Content.update {T E : Type} (c : Content T E) (p : Parsed T E) : Content T E :=
  let c := { c with string := p.string }
  match p.parsed with
  | .ok val => { c with error := none, value := val }
  | .error err => { c with error := some err }

/-- `Drop for BorrowMut` (lines 640-645): re-stringify the value into the
string and clear the error. -/
def BorrowMut.drop {T E : Type} (toStr : T → String) (c : Content T E) :
    Content T E :=
  { c with string := toStr c.value, error := none }

/-- A scoped mutation through `Content::borrow_mut`.  The mutation `f`
returns the final value together with a boolean modelling whether the scope
exited normally (`true`) or through an abnormal unwind (`false`).  Rust
runs `Drop::drop` on the `BorrowMut` guard on either exit path, so the
drop finalizer is applied to the mutated content unconditionally. -/
def Content.borrowMutScope {T E : Type} (toStr : T → String) (c : Content T E)
    (f : T → T × Bool) : Content T E :=
  BorrowMut.drop toStr { c with value := (f c.value).1 }

/-- The wiring of the inner `TextInput` that `ParsedInput`'s builder
methods can change. -/
structure TextInputModel where
  onInputWired : Bool
  onSubmitWired : Bool
  onPasteWired : Bool
deriving DecidableEq

/-- The handler-carrying fields of `ParsedInput`. -/
structure ParsedInputModel (T E Message : Type) where
  textInput : TextInputModel
  onInput : Option (Parsed T E → Message)
  onPaste : Option (Parsed T E → Message)
  onSubmit : Option Message

/-- `ParsedInput::on_input`. -/
def ParsedInputModel.on_input {T E M : Type} (p : ParsedInputModel T E M)
    (f : Parsed T E → M) : ParsedInputModel T E M :=
  { p with
    textInput := { p.textInput with onInputWired := true }
    onInput := some f }

/-- `ParsedInput::on_input_maybe`: `None` returns `self` unchanged. -/
def ParsedInputModel.on_input_maybe {T E M : Type} (p : ParsedInputModel T E M)
    (f : Option (Parsed T E → M)) : ParsedInputModel T E M :=
  match f with
  | some f => p.on_input f
  | none => p

/-- `ParsedInput::on_paste`. -/
def ParsedInputModel.on_paste {T E M : Type} (p : ParsedInputModel T E M)
    (f : Parsed T E → M) : ParsedInputModel T E M :=
  { p with
    textInput := { p.textInput with onPasteWired := true }
    onPaste := some f }

/-- `ParsedInput::on_paste_maybe`: `None` returns `self` unchanged. -/
def ParsedInputModel.on_paste_maybe {T E M : Type} (p : ParsedInputModel T E M)
    (f : Option (Parsed T E → M)) : ParsedInputModel T E M :=
  match f with
  | some f => p.on_paste f
  | none => p

/-- `ParsedInput::on_submit`. -/
def ParsedInputModel.on_submit {T E M : Type} (p : ParsedInputModel T E M)
    (m : M) : ParsedInputModel T E M :=
  { p with
    textInput := { p.textInput with onSubmitWired := true }
    onSubmit := some m }

/-- `ParsedInput::on_submit_maybe` (lines 297-302): the `None` arm is
`todo!()`, which panics; a panic is modelled as `Except.error ()`. -/
def ParsedInputModel.on_submit_maybe {T E M : Type} (p : ParsedInputModel T E M)
    (m : Option M) : Except Unit (ParsedInputModel T E M) :=
  match m with
  | some m => .ok (p.on_submit m)
  | none => .error ()

/-!
Concrete children, grids and limits used to instantiate the theorems.
-/

/-- A well-behaved child wanting `w × h`, clamped into its limits. -/
def clampedChild (w h : ℚ) : Child :=
  ⟨.shrink, .shrink, fun mw mh => ⟨max (min w mw) 0, max (min h mh) 0⟩⟩

/-- A child reporting a constant node size, ignoring its limits. -/
def constChild (wl hl : Length) (w h : ℚ) : Child :=
  ⟨wl, hl, fun _ _ => ⟨w, h⟩⟩

/-- A well-behaved child with a clamped fixed width that greedily takes all
offered height. -/
def greedyHeightChild (w : ℚ) : Child :=
  ⟨.shrink, .shrink, fun mw mh => ⟨max (min w mw) 0, max mh 0⟩⟩

/-- A well-behaved fill-width child. -/
def fillWidthChild : Child :=
  ⟨.fill, .shrink, fun mw mh => ⟨max mw 0, max (min 10 mh) 0⟩⟩

/-- Example limits: a 100 × 100 box with no minimum. -/
def limitsEx : Limits := ⟨0, 0, 100, 100⟩

/-- A grid with one row of two fill-width children. -/
def gridTwoFill : GridW :=
  { rows := [[fillWidthChild, fillWidthChild]]
    width := .fill
    height := .shrink
    padding := Padding.zero
    horizontalAlign := .Start
    verticalAlign := .Start
    columnSpacing := 0
    rowSpacing := 0
    axis := .horizontal }

/-- A grid with one row of two well-behaved fixed-size children and a
filling width. -/
def gridFillRow : GridW :=
  { rows := [[clampedChild 30 10, clampedChild 20 10]]
    width := .fill
    height := .shrink
    padding := Padding.zero
    horizontalAlign := .Start
    verticalAlign := .Start
    columnSpacing := 0
    rowSpacing := 0
    axis := .horizontal }

/-- A grid with no rows and a filling width. -/
def gridEmptyFill : GridW :=
  { rows := []
    width := .fill
    height := .shrink
    padding := Padding.zero
    horizontalAlign := .Start
    verticalAlign := .Start
    columnSpacing := 0
    rowSpacing := 0
    axis := .horizontal }

/-- A shrink-sized grid of two empty rows separated by row spacing. -/
def gridTwoEmptyRows : GridW :=
  { rows := [[], []]
    width := .shrink
    height := .shrink
    padding := Padding.zero
    horizontalAlign := .Start
    verticalAlign := .Start
    columnSpacing := 0
    rowSpacing := 5
    axis := .horizontal }

/-- A grid with no rows and non-trivial padding. -/
def gridEmptyPadded : GridW :=
  { rows := []
    width := .shrink
    height := .shrink
    padding := ⟨1, 2, 3, 4⟩
    horizontalAlign := .Start
    verticalAlign := .Start
    columnSpacing := 7
    rowSpacing := 5
    axis := .vertical }

/-- A shrink × shrink single-column grid of two greedy-height children with
row spacing, exhibiting the cross-budget overflow. -/
def gridGreedyRows : GridW :=
  { rows := [[greedyHeightChild 10], [greedyHeightChild 10]]
    width := .shrink
    height := .shrink
    padding := Padding.zero
    horizontalAlign := .Start
    verticalAlign := .Start
    columnSpacing := 0
    rowSpacing := 10
    axis := .horizontal }

/-- A ragged grid of constant-size children with mixed fill factors, used
to instantiate the axis-equivalence theorem. -/
def gridConstCells : GridW :=
  { rows := [[constChild .shrink .shrink 7 3, constChild .fill .shrink 9 4],
             [constChild .shrink (.fillPortion 2) 5 6]]
    width := .fill
    height := .shrink
    padding := ⟨1, 1, 1, 1⟩
    horizontalAlign := .Start
    verticalAlign := .Center
    columnSpacing := 2
    rowSpacing := 3
    axis := .horizontal }

/-!
## Theorems

The claims about the validated-input state machine.
-/

/-- C6: for every `Content` state and every parsed event, `Content::update`
always overwrites the stored string with the event's string; when the parse
outcome is `Ok v` it sets the value to `v` and clears the error; when it is
`Err e` it sets the error to `e` and leaves the value unchanged, so
afterwards `is_valid()` is false, `get_error()` is `Some`, and reading the
value returns the pre-update value. -/
theorem content_update_spec (T E : Type) (c : Content T E) (p : Parsed T E) :
    (c.update p).string = p.string ∧
    (∀ v : T, p.parsed = .ok v → (c.update p).value = v ∧ (c.update p).error = none) ∧
    (∀ e : E, p.parsed = .error e →
      (c.update p).error = some e ∧ (c.update p).value = c.value ∧
      (c.update p).isValid = false ∧ (c.update p).getError = some e) := by
  obtain ⟨s, pr⟩ := p
  cases pr with
  | ok v => simp [Content.update, Content.isValid, Content.getError]
  | error e => simp [Content.update, Content.isValid, Content.getError]

/-- Witness for C6: a concrete integer content fed a failed parse keeps its
value, stores the raw string and reports the error. -/
theorem content_update_spec_witness :
    ((Content.new (E := String) (fun n : ℤ => toString n) 5).update
        ⟨"abc", Except.error "bad"⟩).string = "abc" ∧
    ((Content.new (E := String) (fun n : ℤ => toString n) 5).update
        ⟨"abc", Except.error "bad"⟩).error = some "bad" ∧
    ((Content.new (E := String) (fun n : ℤ => toString n) 5).update
        ⟨"abc", Except.error "bad"⟩).value = 5 ∧
    ((Content.new (E := String) (fun n : ℤ => toString n) 5).update
        ⟨"abc", Except.error "bad"⟩).isValid = false := by
  have h := content_update_spec ℤ String (Content.new (fun n : ℤ => toString n) 5)
    ⟨"abc", Except.error "bad"⟩
  have he := h.2.2 "bad" rfl
  exact ⟨h.1, he.1, he.2.1.trans rfl, he.2.2.1⟩

/-- C7: when a scoped mutation through `Content::borrow_mut` releases its
handle — on any exit path, including an abnormal unwind modelled by the
boolean outcome of the mutation — the string equals the stringification of
the (possibly mutated) value and the error is cleared; the result does not
depend on how the scope exited. -/
theorem borrowMut_drop_resync (T E : Type) (toStr : T → String) (c : Content T E)
    (f : T → T × Bool) :
    (c.borrowMutScope toStr f).value = (f c.value).1 ∧
    (c.borrowMutScope toStr f).string = toStr (f c.value).1 ∧
    (c.borrowMutScope toStr f).error = none ∧
    (c.borrowMutScope toStr f).isValid = true ∧
    c.borrowMutScope toStr f = c.borrowMutScope toStr (fun t => ((f t).1, true)) := by
  simp [Content.borrowMutScope, BorrowMut.drop, Content.isValid]

/-- C10: `on_submit_maybe(None)` hits the `todo!()` branch and panics
(modelled as `Except.error ()`), while `on_input_maybe(None)` and
`on_paste_maybe(None)` return the widget unchanged. -/
theorem on_submit_maybe_none_panics (T E M : Type) (p : ParsedInputModel T E M) :
    p.on_submit_maybe none = Except.error () ∧
    p.on_input_maybe none = p ∧
    p.on_paste_maybe none = p :=
  ⟨rfl, rfl, rfl⟩

/-!
Helper lemmas about lists and folds.
-/

theorem foldl_invariant {α β : Type} (P : α → Prop) (step : α → β → α)
    (h : ∀ s x, P s → P (step s x)) :
    ∀ (l : List β) (s : α), P s → P (l.foldl step s)
  | [], _, hs => hs
  | x :: l, s, hs => foldl_invariant P step h l (step s x) (h s x hs)

theorem getD_map_range {α : Type} (f : ℕ → α) (n j : ℕ) (d : α) (h : j < n) :
    ((List.range n).map f).getD j d = f j := by
  rw [List.getD_eq_getElem?_getD, List.getElem?_map, List.getElem?_range h]
  rfl

theorem getD_map_range_ge {α : Type} (f : ℕ → α) (n j : ℕ) (d : α) (h : n ≤ j) :
    ((List.range n).map f).getD j d = d := by
  rw [List.getD_eq_getElem?_getD, List.getElem?_map, List.getElem?_eq_none (by simpa using h)]
  rfl

theorem length_map_range {α : Type} (f : ℕ → α) (n : ℕ) :
    ((List.range n).map f).length = n := by
  simp

theorem set_oob {α : Type} : ∀ (l : List α) (i : ℕ) (v : α), l.length ≤ i → l.set i v = l
  | [], _, _, _ => rfl
  | _ :: _, 0, _, h => absurd h (by simp)
  | a :: l, i + 1, v, h => by
    simpa [List.set] using set_oob l i v (by simpa using h)

theorem getD_set_self {α : Type} : ∀ (l : List α) (i : ℕ) (v d : α), i < l.length →
    (l.set i v).getD i d = v
  | [], _, _, _, h => absurd h (by simp)
  | _ :: _, 0, _, _, _ => rfl
  | _ :: l, i + 1, v, d, h => getD_set_self l i v d (by simpa using h)

theorem getD_set_ne {α : Type} : ∀ (l : List α) (i j : ℕ) (v d : α), i ≠ j →
    (l.set i v).getD j d = l.getD j d
  | [], _, _, _, _, _ => rfl
  | _ :: _, 0, 0, _, _, h => absurd rfl h
  | _ :: _, 0, _ + 1, _, _, _ => rfl
  | _ :: _, _ + 1, 0, _, _, _ => rfl
  | _ :: l, i + 1, j + 1, v, d, h => getD_set_ne l i j v d (fun e => h (by rw [e]))

theorem getD_set_cases {α : Type} (l : List α) (i j : ℕ) (v d : α) :
    ((l.set i v).getD j d = v ∧ i = j ∧ i < l.length) ∨
      (l.set i v).getD j d = l.getD j d := by
  by_cases h1 : i = j
  · subst h1
    by_cases h2 : i < l.length
    · exact .inl ⟨getD_set_self l i v d h2, rfl, h2⟩
    · right
      rw [set_oob l i v (le_of_not_lt h2)]
  · right
    exact getD_set_ne l i j v d h1

theorem getD_replicate {α : Type} : ∀ (n k : ℕ) (d : α), (List.replicate n d).getD k d = d
  | 0, _, _ => rfl
  | _ + 1, 0, _ => rfl
  | n + 1, k + 1, d => getD_replicate n k d

theorem sum_eq_sum_getD {α : Type} [AddCommMonoid α] (l : List α) :
    l.sum = ∑ j ∈ Finset.range l.length, l.getD j 0 := by
  induction l with
  | nil => simp
  | cons a l ih =>
    rw [List.sum_cons, List.length_cons, Finset.sum_range_succ', ih]
    simp only [List.getD_cons_succ, List.getD_cons_zero]
    exact add_comm a _

theorem list_sum_range {α : Type} [AddCommMonoid α] (f : ℕ → α) (n : ℕ) :
    ((List.range n).map f).sum = ∑ j ∈ Finset.range n, f j := by
  induction n with
  | zero => simp
  | succ n ih =>
    rw [List.range_succ, Finset.sum_range_succ, List.map_append, List.sum_append, ih]
    simp

theorem sum_getD_of_length {α : Type} [AddCommMonoid α] (l : List α) (n : ℕ)
    (h : l.length = n) :
    ∑ j ∈ Finset.range n, l.getD j 0 = l.sum := by
  rw [sum_eq_sum_getD, h]

/-!
Structural facts about the first sizing pass.
-/

theorem phase1Cell_main (g : GridW) (ca : ℚ) (j : ℕ) (st : Phase1State) (i : ℕ) :
    (phase1Cell g ca j st i).main = st.main := by
  unfold phase1Cell
  cases hc : g.cellAt (g.axis.pack i j).1 (g.axis.pack i j).2 with
  | none => rfl
  | some elt =>
    dsimp only
    split <;> rfl

theorem phase1Cell_secMain_length (g : GridW) (ca : ℚ) (j : ℕ) (st : Phase1State)
    (i : ℕ) :
    (phase1Cell g ca j st i).secMain.length = st.secMain.length := by
  unfold phase1Cell
  cases hc : g.cellAt (g.axis.pack i j).1 (g.axis.pack i j).2 with
  | none => rfl
  | some elt =>
    dsimp only
    split
    · simp
    · rfl

theorem phase1Cell_secMainFactor_length (g : GridW) (ca : ℚ) (j : ℕ) (st : Phase1State)
    (i : ℕ) :
    (phase1Cell g ca j st i).secMainFactor.length = st.secMainFactor.length := by
  unfold phase1Cell
  cases hc : g.cellAt (g.axis.pack i j).1 (g.axis.pack i j).2 with
  | none => rfl
  | some elt =>
    dsimp only
    split <;> simp

theorem phase1Cell_primCrossFactor_length (g : GridW) (ca : ℚ) (j : ℕ) (st : Phase1State)
    (i : ℕ) :
    (phase1Cell g ca j st i).primCrossFactor.length = st.primCrossFactor.length := by
  unfold phase1Cell
  cases hc : g.cellAt (g.axis.pack i j).1 (g.axis.pack i j).2 with
  | none => rfl
  | some elt =>
    dsimp only
    split <;> simp

theorem phase1Cell_secMain_other (g : GridW) (ca : ℚ) (j : ℕ) (st : Phase1State)
    (i k : ℕ) (hk : k ≠ j) :
    (phase1Cell g ca j st i).secMain.getD k 0 = st.secMain.getD k 0 := by
  unfold phase1Cell
  cases hc : g.cellAt (g.axis.pack i j).1 (g.axis.pack i j).2 with
  | none => rfl
  | some elt =>
    dsimp only
    split
    · exact getD_set_ne _ j k _ 0 fun e => hk e.symm
    · rfl

theorem phase1Cell_secMain_nonneg (g : GridW) (ca : ℚ) (j : ℕ) (st : Phase1State)
    (i : ℕ) (h : ∀ k, 0 ≤ st.secMain.getD k 0) (k : ℕ) :
    0 ≤ (phase1Cell g ca j st i).secMain.getD k 0 := by
  unfold phase1Cell
  cases hc : g.cellAt (g.axis.pack i j).1 (g.axis.pack i j).2 with
  | none => exact h k
  | some elt =>
    dsimp only
    split
    · rcases getD_set_cases st.secMain j k
        (max (st.secMain.getD j 0)
          (g.axis.main (elt.layoutFn (g.axis.pack st.main ca).1 (g.axis.pack st.main ca).2)))
        0 with ⟨he, _, _⟩ | he
      · rw [he]
        exact le_trans (h j) (le_max_left _ _)
      · rw [he]
        exact h k
    · exact h k

theorem phase1Col_main_eq (g : GridW) (ca : ℚ) (np : ℕ) (st : Phase1State) (j : ℕ) :
    (phase1Col g ca np st j).main =
      st.main - (phase1Col g ca np st j).secMain.getD j 0 := by
  unfold phase1Col
  dsimp only
  congr 1
  exact foldl_invariant (fun s : Phase1State => s.main = st.main) (phase1Cell g ca j)
    (fun s i hs => (phase1Cell_main g ca j s i).trans hs) (List.range np) st rfl

theorem phase1Col_secMain_other (g : GridW) (ca : ℚ) (np : ℕ) (st : Phase1State)
    (j k : ℕ) (hk : k ≠ j) :
    (phase1Col g ca np st j).secMain.getD k 0 = st.secMain.getD k 0 := by
  unfold phase1Col
  dsimp only
  exact foldl_invariant
    (fun s : Phase1State => s.secMain.getD k 0 = st.secMain.getD k 0) (phase1Cell g ca j)
    (fun s i hs => (phase1Cell_secMain_other g ca j s i k hk).trans hs)
    (List.range np) st rfl

theorem phase1Col_secMain_length (g : GridW) (ca : ℚ) (np : ℕ) (st : Phase1State)
    (j : ℕ) :
    (phase1Col g ca np st j).secMain.length = st.secMain.length := by
  unfold phase1Col
  dsimp only
  exact foldl_invariant
    (fun s : Phase1State => s.secMain.length = st.secMain.length) (phase1Cell g ca j)
    (fun s i hs => (phase1Cell_secMain_length g ca j s i).trans hs) (List.range np) st rfl

theorem phase1Col_secMain_nonneg (g : GridW) (ca : ℚ) (np : ℕ) (st : Phase1State)
    (j : ℕ) (h : ∀ k, 0 ≤ st.secMain.getD k 0) (k : ℕ) :
    0 ≤ (phase1Col g ca np st j).secMain.getD k 0 := by
  unfold phase1Col
  dsimp only
  exact foldl_invariant (fun s : Phase1State => ∀ k, 0 ≤ s.secMain.getD k 0)
    (phase1Cell g ca j) (fun s i hs => phase1Cell_secMain_nonneg g ca j s i hs)
    (List.range np) st h k

theorem phase1_secMain_nonneg (g : GridW) (ma ca : ℚ) (np ns : ℕ) (k : ℕ) :
    0 ≤ (phase1 g ma ca np ns).secMain.getD k 0 := by
  unfold phase1
  exact foldl_invariant (fun s : Phase1State => ∀ k, 0 ≤ s.secMain.getD k 0)
    (phase1Col g ca np) (fun s j hs => phase1Col_secMain_nonneg g ca np s j hs)
    (List.range ns) _ (fun k => by rw [getD_replicate]) k

theorem phase1_secMain_length (g : GridW) (ma ca : ℚ) (np ns : ℕ) :
    (phase1 g ma ca np ns).secMain.length = ns := by
  unfold phase1
  exact foldl_invariant (fun s : Phase1State => s.secMain.length = ns) (phase1Col g ca np)
    (fun s j hs => (phase1Col_secMain_length g ca np s j).trans hs) (List.range ns) _
    (by simp)

theorem phase1Col_secMainFactor_length (g : GridW) (ca : ℚ) (np : ℕ) (st : Phase1State)
    (j : ℕ) :
    (phase1Col g ca np st j).secMainFactor.length = st.secMainFactor.length := by
  unfold phase1Col
  dsimp only
  exact foldl_invariant
    (fun s : Phase1State => s.secMainFactor.length = st.secMainFactor.length)
    (phase1Cell g ca j)
    (fun s i hs => (phase1Cell_secMainFactor_length g ca j s i).trans hs)
    (List.range np) st rfl

theorem phase1Col_primCrossFactor_length (g : GridW) (ca : ℚ) (np : ℕ) (st : Phase1State)
    (j : ℕ) :
    (phase1Col g ca np st j).primCrossFactor.length = st.primCrossFactor.length := by
  unfold phase1Col
  dsimp only
  exact foldl_invariant
    (fun s : Phase1State => s.primCrossFactor.length = st.primCrossFactor.length)
    (phase1Cell g ca j)
    (fun s i hs => (phase1Cell_primCrossFactor_length g ca j s i).trans hs)
    (List.range np) st rfl

theorem phase1_secMainFactor_length (g : GridW) (ma ca : ℚ) (np ns : ℕ) :
    (phase1 g ma ca np ns).secMainFactor.length = ns := by
  unfold phase1
  exact foldl_invariant (fun s : Phase1State => s.secMainFactor.length = ns)
    (phase1Col g ca np)
    (fun s j hs => (phase1Col_secMainFactor_length g ca np s j).trans hs) (List.range ns) _
    (by simp)

theorem phase1_primCrossFactor_length (g : GridW) (ma ca : ℚ) (np ns : ℕ) :
    (phase1 g ma ca np ns).primCrossFactor.length = np := by
  unfold phase1
  exact foldl_invariant (fun s : Phase1State => s.primCrossFactor.length = np)
    (phase1Col g ca np)
    (fun s j hs => (phase1Col_primCrossFactor_length g ca np s j).trans hs) (List.range ns) _
    (by simp)

/-!
Bounds coming from well-behaved children, and the first pass's budget.
-/

theorem wellBehaved_main_bounds (ax : Axis) (c : Child) (h : WellBehaved c) (m cr : ℚ) :
    0 ≤ ax.main (c.layoutFn (ax.pack m cr).1 (ax.pack m cr).2) ∧
    ax.main (c.layoutFn (ax.pack m cr).1 (ax.pack m cr).2) ≤ max m 0 := by
  cases ax
  · exact ⟨(h m cr).1, (h m cr).2.1⟩
  · exact ⟨(h cr m).2.2.1, (h cr m).2.2.2⟩

theorem wellBehaved_cross_bounds (ax : Axis) (c : Child) (h : WellBehaved c) (m cr : ℚ) :
    0 ≤ ax.cross (c.layoutFn (ax.pack m cr).1 (ax.pack m cr).2) ∧
    ax.cross (c.layoutFn (ax.pack m cr).1 (ax.pack m cr).2) ≤ max cr 0 := by
  cases ax
  · exact ⟨(h m cr).2.2.1, (h m cr).2.2.2⟩
  · exact ⟨(h cr m).1, (h cr m).2.1⟩

theorem cellAt_mem (g : GridW) (a b : ℕ) (c : Child) (hc : g.cellAt a b = some c) :
    ∃ r ∈ g.rows, c ∈ r := by
  unfold GridW.cellAt at hc
  cases ho : g.rows.get? a with
  | none => rw [ho] at hc; cases hc
  | some r =>
    rw [ho] at hc
    simp only [Option.some_bind] at hc
    exact ⟨r, List.get?_mem ho, List.get?_mem hc⟩

theorem cellAt_wellBehaved (g : GridW) (hwb : g.AllWellBehaved) (a b : ℕ) (c : Child)
    (hc : g.cellAt a b = some c) : WellBehaved c := by
  obtain ⟨r, hr, hcr⟩ := cellAt_mem g a b c hc
  exact hwb r hr c hcr

theorem phase1Cell_secMain_self_bound (g : GridW) (ca : ℚ) (j : ℕ) (s : Phase1State)
    (i : ℕ) (hwb : g.AllWellBehaved) (B : ℚ) (hmain : s.main = B)
    (hj : s.secMain.getD j 0 ≤ max B 0) :
    (phase1Cell g ca j s i).secMain.getD j 0 ≤ max B 0 := by
  unfold phase1Cell
  cases hc : g.cellAt (g.axis.pack i j).1 (g.axis.pack i j).2 with
  | none => exact hj
  | some elt =>
    dsimp only
    split
    · rcases getD_set_cases s.secMain j j
        (max (s.secMain.getD j 0)
          (g.axis.main (elt.layoutFn (g.axis.pack s.main ca).1 (g.axis.pack s.main ca).2)))
        0 with ⟨he, _, _⟩ | he
      · rw [he, hmain]
        exact max_le hj ((wellBehaved_main_bounds g.axis elt
          (cellAt_wellBehaved g hwb _ _ elt hc) B ca).2)
      · rw [he]
        exact hj
    · exact hj

theorem phase1Col_secMain_self_bound (g : GridW) (ca : ℚ) (np : ℕ) (st : Phase1State)
    (j : ℕ) (hwb : g.AllWellBehaved) (h0 : st.secMain.getD j 0 ≤ max st.main 0) :
    (phase1Col g ca np st j).secMain.getD j 0 ≤ max st.main 0 := by
  unfold phase1Col
  dsimp only
  exact (foldl_invariant
    (fun s : Phase1State => s.main = st.main ∧ s.secMain.getD j 0 ≤ max st.main 0)
    (phase1Cell g ca j)
    (fun s i hs => ⟨(phase1Cell_main g ca j s i).trans hs.1,
      phase1Cell_secMain_self_bound g ca j s i hwb st.main hs.1 hs.2⟩)
    (List.range np) st ⟨rfl, h0⟩).2

theorem phase1Col_main_nonneg (g : GridW) (ca : ℚ) (np : ℕ) (st : Phase1State) (j : ℕ)
    (hwb : g.AllWellBehaved) (hm : 0 ≤ st.main) (h0 : st.secMain.getD j 0 = 0) :
    0 ≤ (phase1Col g ca np st j).main := by
  rw [phase1Col_main_eq]
  have hb := phase1Col_secMain_self_bound g ca np st j hwb
    (by rw [h0]; exact le_max_right _ _)
  rw [max_eq_left hm] at hb
  linarith

theorem foldl_invariant_mem {α β : Type} (P : α → Prop) (step : α → β → α) :
    ∀ (l : List β), (∀ s x, x ∈ l → P s → P (step s x)) →
      ∀ s, P s → P (l.foldl step s)
  | [], _, _, hs => hs
  | x :: l, h, s, hs =>
    foldl_invariant_mem P step l (fun s y hy => h s y (List.mem_cons_of_mem x hy))
      (step s x) (h s x (List.mem_cons_self x l) hs)

theorem phase1_fold_main (g : GridW) (ca : ℚ) (np : ℕ) (hwb : g.AllWellBehaved) :
    ∀ (l : List ℕ) (st : Phase1State), l.Nodup → 0 ≤ st.main →
      (∀ j ∈ l, st.secMain.getD j 0 = 0) →
      0 ≤ (l.foldl (phase1Col g ca np) st).main ∧
      (l.foldl (phase1Col g ca np) st).main =
        st.main - (l.map fun j => (l.foldl (phase1Col g ca np) st).secMain.getD j 0).sum
  | [], st, _, hm, _ => ⟨hm, by simp⟩
  | j :: t, st, hnd, hm, hz => by
    have hj0 : st.secMain.getD j 0 = 0 := hz j (List.mem_cons_self j t)
    have hcol0 : 0 ≤ (phase1Col g ca np st j).main :=
      phase1Col_main_nonneg g ca np st j hwb hm hj0
    have hnd' := List.nodup_cons.mp hnd
    have hzt : ∀ k ∈ t, (phase1Col g ca np st j).secMain.getD k 0 = 0 := by
      intro k hk
      have hkj : k ≠ j := fun e => hnd'.1 (e ▸ hk)
      rw [phase1Col_secMain_other g ca np st j k hkj]
      exact hz k (List.mem_cons_of_mem j hk)
    obtain ⟨ih1, ih2⟩ := phase1_fold_main g ca np hwb t (phase1Col g ca np st j)
      hnd'.2 hcol0 hzt
    have hfix : (t.foldl (phase1Col g ca np) (phase1Col g ca np st j)).secMain.getD j 0
        = (phase1Col g ca np st j).secMain.getD j 0 :=
      foldl_invariant_mem
        (fun s : Phase1State =>
          s.secMain.getD j 0 = (phase1Col g ca np st j).secMain.getD j 0)
        (phase1Col g ca np) t
        (fun s k hk hs =>
          (phase1Col_secMain_other g ca np s k j fun e => hnd'.1 (e ▸ hk)).trans hs)
        _ rfl
    refine ⟨by rw [List.foldl_cons]; exact ih1, ?_⟩
    rw [List.foldl_cons, List.map_cons, List.sum_cons, ih2, hfix, phase1Col_main_eq]
    ring

theorem phase1_main_final (g : GridW) (limits : Limits) (hwb : g.AllWellBehaved)
    (hm : 0 ≤ g.mainAvail limits) :
    0 ≤ (g.phase1Data limits).main ∧
    (g.phase1Data limits).main = g.mainAvail limits - (g.secMainMin limits).sum := by
  obtain ⟨h1, h2⟩ := phase1_fold_main g (g.crossAvail limits) g.nbPrim hwb
    (List.range g.nbSec)
    ⟨g.mainAvail limits, List.replicate g.nbSec 0, List.replicate g.nbSec 0,
      List.replicate g.nbPrim 0⟩
    (List.nodup_range _) hm (fun j _ => getD_replicate _ _ _)
  have h1' : 0 ≤ (g.phase1Data limits).main := h1
  have h2' : (g.phase1Data limits).main =
      g.mainAvail limits -
        ((List.range g.nbSec).map
          (fun j => (g.phase1Data limits).secMain.getD j 0)).sum := h2
  have hsum : ((List.range g.nbSec).map
      (fun j => (g.phase1Data limits).secMain.getD j 0)).sum =
        (g.secMainMin limits).sum := by
    rw [list_sum_range, sum_getD_of_length _ _
      (show (g.phase1Data limits).secMain.length = g.nbSec from
        phase1_secMain_length g (g.mainAvail limits) (g.crossAvail limits) g.nbPrim
          g.nbSec)]
    rfl
  exact ⟨h1', by rw [h2', hsum]⟩

theorem secMainMin_sum_le (g : GridW) (limits : Limits) (hwb : g.AllWellBehaved)
    (hm : 0 ≤ g.mainAvail limits) :
    (g.secMainMin limits).sum ≤ g.mainAvail limits := by
  obtain ⟨h1, h2⟩ := phase1_main_final g limits hwb hm
  rw [h2] at h1
  linarith

/-!
Structural facts about the cross pass and the redistribution output.
-/

theorem crossCell_primCross_nonneg (g : GridW) (sm : List ℚ) (i : ℕ) (st : CrossState)
    (j : ℕ) (h : ∀ k, 0 ≤ st.primCross.getD k 0) (k : ℕ) :
    0 ≤ (crossCell g sm i st j).primCross.getD k 0 := by
  unfold crossCell
  cases hc : g.cellAt (g.axis.pack i j).1 (g.axis.pack i j).2 with
  | none => exact h k
  | some elt =>
    dsimp only
    split
    · rcases getD_set_cases st.primCross i k
        (max (st.primCross.getD i 0)
          (g.axis.cross (elt.layoutFn (g.axis.pack (sm.getD j 0) st.cross).1
            (g.axis.pack (sm.getD j 0) st.cross).2))) 0 with ⟨he, _, _⟩ | he
      · rw [he]
        exact le_trans (h i) (le_max_left _ _)
      · rw [he]
        exact h k
    · exact h k

theorem crossCell_primCross_length (g : GridW) (sm : List ℚ) (i : ℕ) (st : CrossState)
    (j : ℕ) :
    (crossCell g sm i st j).primCross.length = st.primCross.length := by
  unfold crossCell
  cases hc : g.cellAt (g.axis.pack i j).1 (g.axis.pack i j).2 with
  | none => rfl
  | some elt =>
    dsimp only
    split
    · simp
    · rfl

theorem crossRow_primCross_nonneg (g : GridW) (sm : List ℚ) (ns : ℕ) (st : CrossState)
    (i : ℕ) (h : ∀ k, 0 ≤ st.primCross.getD k 0) (k : ℕ) :
    0 ≤ (crossRow g sm ns st i).primCross.getD k 0 := by
  unfold crossRow
  dsimp only
  exact foldl_invariant (fun s : CrossState => ∀ k, 0 ≤ s.primCross.getD k 0)
    (crossCell g sm i) (fun s j hs => crossCell_primCross_nonneg g sm i s j hs)
    (List.range ns) st h k

theorem crossRow_primCross_length (g : GridW) (sm : List ℚ) (ns : ℕ) (st : CrossState)
    (i : ℕ) :
    (crossRow g sm ns st i).primCross.length = st.primCross.length := by
  unfold crossRow
  dsimp only
  exact foldl_invariant
    (fun s : CrossState => s.primCross.length = st.primCross.length) (crossCell g sm i)
    (fun s j hs => (crossCell_primCross_length g sm i s j).trans hs) (List.range ns) st rfl

theorem phaseCross_primCross_nonneg (g : GridW) (sm : List ℚ) (mc : ℚ) (np ns : ℕ)
    (k : ℕ) :
    0 ≤ (phaseCross g sm mc np ns).primCross.getD k 0 := by
  unfold phaseCross
  exact foldl_invariant (fun s : CrossState => ∀ k, 0 ≤ s.primCross.getD k 0)
    (crossRow g sm ns) (fun s i hs => crossRow_primCross_nonneg g sm ns s i hs)
    (List.range np) _ (fun k => by rw [getD_replicate]) k

theorem phaseCross_primCross_length (g : GridW) (sm : List ℚ) (mc : ℚ) (np ns : ℕ) :
    (phaseCross g sm mc np ns).primCross.length = np := by
  unfold phaseCross
  exact foldl_invariant (fun s : CrossState => s.primCross.length = np) (crossRow g sm ns)
    (fun s i hs => (crossRow_primCross_length g sm ns s i).trans hs) (List.range np) _
    (by simp)

theorem redistOut_getD (st : RState) (mins : List ℚ) (n j : ℕ) (h : j < n) :
    (redistOut st mins n).getD j 0 =
      max (mins.getD j 0)
        (if 0 < st.fillSum then (st.factors.getD j 0 : ℚ) / (st.fillSum : ℚ) * st.main
         else 0) :=
  getD_map_range _ n j 0 h

theorem redistOut_min_le (st : RState) (mins : List ℚ) (n j : ℕ) (h : j < n) :
    mins.getD j 0 ≤ (redistOut st mins n).getD j 0 := by
  rw [redistOut_getD st mins n j h]
  exact le_max_left _ _

theorem redistOut_nonneg (st : RState) (mins : List ℚ) (n j : ℕ)
    (hm : ∀ k, 0 ≤ mins.getD k 0) :
    0 ≤ (redistOut st mins n).getD j 0 := by
  rcases lt_or_ge j n with h | h
  · exact le_trans (hm j) (redistOut_min_le st mins n j h)
  · unfold redistOut
    rw [getD_map_range_ge _ n j 0 h]

theorem redistOut_length (st : RState) (mins : List ℚ) (n : ℕ) :
    (redistOut st mins n).length = n :=
  length_map_range _ n

theorem getD_oob {α : Type} (l : List α) (i : ℕ) (d : α) (h : l.length ≤ i) :
    l.getD i d = d := by
  rw [List.getD_eq_getElem?_getD, List.getElem?_eq_none h]
  rfl

/-!
The clamping loop, abstractly: a loop state realizes the set of tracks not
yet clamped, and each clamp is a step of the `AStep` relation on such sets.
-/

theorem clampCond_iff (f₀ : List ℕ) (mins : List ℚ) (budget : ℚ) (n : ℕ)
    (st : RState) (nc : Finset ℕ) (j : ℕ)
    (hR : Realizes f₀ mins budget n st nc) :
    ClampCond mins st j ↔ CondOf f₀ mins budget n nc j := by
  obtain ⟨h1, _, _, h4, h5, h6⟩ := hR
  unfold ClampCond CondOf
  rw [h1, h5, h6]
  constructor
  · rintro ⟨hj, hf, hlt⟩
    refine ⟨hj, hf, ?_⟩
    rwa [h4 j, if_pos hj] at hlt
  · rintro ⟨hj, hf, hlt⟩
    refine ⟨hj, hf, ?_⟩
    rwa [h4 j, if_pos hj]

theorem clampApply_realizes (f₀ : List ℕ) (mins : List ℚ) (budget : ℚ) (n : ℕ)
    (hn : f₀.length = n) (st : RState) (nc : Finset ℕ) (j : ℕ)
    (hR : Realizes f₀ mins budget n st nc) (hj : j ∈ nc) :
    Realizes f₀ mins budget n (clampApply mins st j) (nc.erase j) := by
  obtain ⟨h1, h2, h3, h4, h5, h6⟩ := hR
  have hjr : j ∈ Finset.range n := h2 hj
  refine ⟨?_, ?_, ?_, ?_, ?_, ?_⟩
  · unfold clampApply
    rw [h1]
  · exact subset_trans (Finset.erase_subset j nc) h2
  · unfold clampApply
    dsimp only
    rw [List.length_set, h3]
  · intro k
    unfold clampApply
    dsimp only
    by_cases hkj : k = j
    · subst hkj
      rw [getD_set_self st.factors k 0 0 (by rw [h3, hn]; exact Finset.mem_range.mp hjr)]
      rw [if_neg (by simp)]
    · rw [getD_set_ne st.factors j k 0 0 fun e => hkj e.symm, h4 k]
      by_cases hknc : k ∈ nc
      · rw [if_pos hknc, if_pos (Finset.mem_erase.mpr ⟨hkj, hknc⟩)]
      · rw [if_neg hknc, if_neg fun hmem => hknc (Finset.mem_of_mem_erase hmem)]
  · unfold clampApply
    dsimp only
    rw [h5, h4 j, if_pos hj]
    unfold fillOf
    have h : f₀.getD j 0 + ∑ x ∈ nc.erase j, f₀.getD x 0 = ∑ x ∈ nc, f₀.getD x 0 :=
      Finset.add_sum_erase nc (fun k => f₀.getD k 0) hj
    omega
  · unfold clampApply
    dsimp only
    rw [h6]
    unfold mainOf
    rw [Finset.sdiff_erase hjr, Finset.sum_insert (by simp [hj])]
    ring

theorem AStep_shrinks (f₀ : List ℕ) (mins : List ℚ) (budget : ℚ) (n : ℕ)
    (nc nc' : Finset ℕ) (h : AStep f₀ mins budget n nc nc') :
    nc' ⊆ nc ∧ nc'.card < nc.card := by
  obtain ⟨j, hc, rfl⟩ := h
  exact ⟨Finset.erase_subset j nc, Finset.card_erase_lt_of_mem hc.1⟩

theorem rtg_subset (f₀ : List ℕ) (mins : List ℚ) (budget : ℚ) (n : ℕ)
    (nc nc' : Finset ℕ)
    (h : Relation.ReflTransGen (AStep f₀ mins budget n) nc nc') : nc' ⊆ nc := by
  induction h with
  | refl => exact subset_rfl
  | tail _ hstep ih =>
    exact subset_trans (AStep_shrinks f₀ mins budget n _ _ hstep).1 ih

theorem clampPass_spec (f₀ : List ℕ) (mins : List ℚ) (budget : ℚ) (n : ℕ)
    (hn : f₀.length = n) :
    ∀ (l : List ℕ) (st : RState) (nc : Finset ℕ), Realizes f₀ mins budget n st nc →
      ∃ nc', Realizes f₀ mins budget n (clampPass mins st l).1 nc' ∧
        Relation.ReflTransGen (AStep f₀ mins budget n) nc nc' ∧
        ((clampPass mins st l).2 = true → (clampPass mins st l).1 = st ∧ nc' = nc ∧
          ∀ j ∈ l, ¬ ClampCond mins st j) ∧
        ((clampPass mins st l).2 = false → nc'.card < nc.card)
  | [], st, nc, hR =>
    ⟨nc, hR, Relation.ReflTransGen.refl, fun _ => ⟨rfl, rfl, by simp⟩,
      by simp [clampPass]⟩
  | j :: rest, st, nc, hR => by
    by_cases hcond : ClampCond mins st j
    · have hjnc : j ∈ nc := by rw [← hR.1]; exact hcond.1
      have hR' := clampApply_realizes f₀ mins budget n hn st nc j hR hjnc
      have hstep : AStep f₀ mins budget n nc (nc.erase j) :=
        ⟨j, (clampCond_iff f₀ mins budget n st nc j hR).mp hcond, rfl⟩
      obtain ⟨nc', hRn, hrtg, _, _⟩ :=
        clampPass_spec f₀ mins budget n hn rest (clampApply mins st j) (nc.erase j) hR'
      have hpass1 : (clampPass mins st (j :: rest)).1 =
          (clampPass mins (clampApply mins st j) rest).1 := by
        simp [clampPass, clampStep, if_pos hcond]
      have hpass2 : (clampPass mins st (j :: rest)).2 = false := by
        simp [clampPass, clampStep, if_pos hcond]
      refine ⟨nc', by rw [hpass1]; exact hRn, Relation.ReflTransGen.head hstep hrtg,
        ?_, ?_⟩
      · intro ht
        rw [hpass2] at ht
        cases ht
      · intro _
        have hle : nc'.card ≤ (nc.erase j).card :=
          Finset.card_le_card (rtg_subset f₀ mins budget n _ _ hrtg)
        exact lt_of_le_of_lt hle (Finset.card_erase_lt_of_mem hjnc)
    · obtain ⟨nc', hRn, hrtg, htrue, hfalse⟩ :=
        clampPass_spec f₀ mins budget n hn rest st nc hR
      have hpass1 : (clampPass mins st (j :: rest)).1 = (clampPass mins st rest).1 := by
        simp [clampPass, clampStep, if_neg hcond]
      have hpass2 : (clampPass mins st (j :: rest)).2 = (clampPass mins st rest).2 := by
        simp [clampPass, clampStep, if_neg hcond]
      refine ⟨nc', by rw [hpass1]; exact hRn, hrtg, ?_, ?_⟩
      · intro ht
        rw [hpass2] at ht
        obtain ⟨he, hnc', hall⟩ := htrue ht
        refine ⟨by rw [hpass1, he], hnc', ?_⟩
        intro k hk
        rcases List.mem_cons.mp hk with rfl | hk'
        · exact hcond
        · exact hall k hk'
      · intro hf
        rw [hpass2] at hf
        exact hfalse hf

theorem clampLoop_succ (mins : List ℚ) (oracle : Finset ℕ → List ℕ) (fuel : ℕ)
    (st : RState) :
    clampLoop mins oracle (fuel + 1) st =
      if st.fillSum = 0 then st
      else if (clampPass mins st (oracle st.notClamped)).2
        then (clampPass mins st (oracle st.notClamped)).1
        else clampLoop mins oracle fuel (clampPass mins st (oracle st.notClamped)).1 := by
  rw [clampLoop]

theorem clampLoop_spec (f₀ : List ℕ) (mins : List ℚ) (budget : ℚ) (n : ℕ)
    (hn : f₀.length = n) (oracle : Finset ℕ → List ℕ) (hor : OracleComplete oracle) :
    ∀ (fuel : ℕ) (st : RState) (nc : Finset ℕ), Realizes f₀ mins budget n st nc →
      nc.card < fuel →
      ∃ nc', Realizes f₀ mins budget n (clampLoop mins oracle fuel st) nc' ∧
        Relation.ReflTransGen (AStep f₀ mins budget n) nc nc' ∧
        ∀ j, ¬ CondOf f₀ mins budget n nc' j
  | 0, st, nc, _, hcard => absurd hcard (by omega)
  | fuel + 1, st, nc, hR, hcard => by
    rw [clampLoop_succ]
    by_cases hfs : st.fillSum = 0
    · rw [if_pos hfs]
      refine ⟨nc, hR, Relation.ReflTransGen.refl, ?_⟩
      intro j hcond
      exact hcond.2.1 (by rw [← hR.2.2.2.2.1]; exact hfs)
    · rw [if_neg hfs]
      obtain ⟨nc1, hR1, hrtg1, htrue, hfalse⟩ :=
        clampPass_spec f₀ mins budget n hn (oracle st.notClamped) st nc hR
      cases hq : (clampPass mins st (oracle st.notClamped)).2 with
      | true =>
        rw [if_pos rfl]
        obtain ⟨hst, hnc1, hall⟩ := htrue hq
        rw [hst]
        refine ⟨nc, hR, Relation.ReflTransGen.refl, ?_⟩
        intro j hcond
        have hcc : ClampCond mins st j :=
          (clampCond_iff f₀ mins budget n st nc j hR).mpr hcond
        have hjo : j ∈ oracle st.notClamped := by
          apply hor st.notClamped j
          exact hcc.1
        exact hall j hjo hcc
      | false =>
        rw [if_neg Bool.false_ne_true]
        obtain ⟨nc', hR', hrtg', hterm⟩ := clampLoop_spec f₀ mins budget n hn oracle hor
          fuel (clampPass mins st (oracle st.notClamped)).1 nc1 hR1
          (lt_of_lt_of_le (hfalse hq) (Nat.lt_succ_iff.mp hcard))
        exact ⟨nc', hR', hrtg1.trans hrtg', hterm⟩

theorem redistState_spec (oracle : Finset ℕ → List ℕ) (hor : OracleComplete oracle)
    (budget : ℚ) (f₀ : List ℕ) (mins : List ℚ) (n : ℕ) (hn : f₀.length = n) :
    ∃ nc, Realizes f₀ mins budget n (redistState oracle budget f₀ mins n) nc ∧
      Relation.ReflTransGen (AStep f₀ mins budget n) (Finset.range n) nc ∧
      ∀ j, ¬ CondOf f₀ mins budget n nc j := by
  have hR0 : Realizes f₀ mins budget n
      ⟨Finset.range n, f₀, f₀.sum, budget⟩ (Finset.range n) := by
    refine ⟨rfl, subset_rfl, rfl, ?_, ?_, ?_⟩
    · intro k
      by_cases hk : k ∈ Finset.range n
      · rw [if_pos hk]
      · rw [if_neg hk]
        exact getD_oob f₀ k 0 (by rw [hn]; exact le_of_not_lt (by simpa using hk))
    · unfold fillOf
      rw [sum_getD_of_length f₀ n hn]
    · unfold mainOf
      simp
  obtain ⟨nc, hR, hrtg, hT⟩ := clampLoop_spec f₀ mins budget n hn oracle hor (n + 1)
    ⟨Finset.range n, f₀, f₀.sum, budget⟩ (Finset.range n) hR0 (by simp)
  exact ⟨nc, hR, hrtg, hT⟩

theorem redistOut_sum_spec (f₀ : List ℕ) (mins : List ℚ) (budget : ℚ) (n : ℕ)
    (st : RState) (nc : Finset ℕ)
    (hR : Realizes f₀ mins budget n st nc)
    (hT : ∀ j, ¬ CondOf f₀ mins budget n nc j)
    (hmins : ∀ k, 0 ≤ mins.getD k 0)
    (hminsum : ∑ j ∈ Finset.range n, mins.getD j 0 ≤ budget) :
    (redistOut st mins n).sum ≤ budget ∧
    (0 < st.fillSum → (redistOut st mins n).sum = budget) := by
  obtain ⟨h1, h2, h3, h4, h5, h6⟩ := hR
  have hsum : (redistOut st mins n).sum =
      ∑ j ∈ Finset.range n, max (mins.getD j 0)
        (if 0 < st.fillSum then (st.factors.getD j 0 : ℚ) / (st.fillSum : ℚ) * st.main
         else 0) := by
    unfold redistOut
    rw [list_sum_range]
  by_cases hfs : 0 < st.fillSum
  · have hclamped : ∀ j ∈ Finset.range n \ nc,
        max (mins.getD j 0)
          (if 0 < st.fillSum then (st.factors.getD j 0 : ℚ) / (st.fillSum : ℚ) * st.main
           else 0) = mins.getD j 0 := by
      intro j hj
      rw [if_pos hfs, h4 j, if_neg (Finset.mem_sdiff.mp hj).2]
      simp only [Nat.cast_zero, zero_div, zero_mul]
      exact max_eq_left (hmins j)
    have hunclamped : ∀ j ∈ nc,
        max (mins.getD j 0)
          (if 0 < st.fillSum then (st.factors.getD j 0 : ℚ) / (st.fillSum : ℚ) * st.main
           else 0) = (f₀.getD j 0 : ℚ) / (st.fillSum : ℚ) * st.main := by
      intro j hj
      rw [if_pos hfs, h4 j, if_pos hj]
      have hTj := hT j
      unfold CondOf at hTj
      push_neg at hTj
      have hge := hTj hj (by rw [← h5]; omega)
      rw [← h5, ← h6] at hge
      exact max_eq_right hge
    have hkey : (redistOut st mins n).sum = budget := by
      rw [hsum, ← Finset.sdiff_union_of_subset h2,
        Finset.sum_union Finset.sdiff_disjoint,
        Finset.sum_congr rfl hclamped, Finset.sum_congr rfl hunclamped]
      have hmain : ∑ j ∈ Finset.range n \ nc, mins.getD j 0 = budget - st.main := by
        rw [h6]
        unfold mainOf
        ring
      have hshare : ∑ j ∈ nc, (f₀.getD j 0 : ℚ) / (st.fillSum : ℚ) * st.main
          = st.main := by
        rw [← Finset.sum_mul, ← Finset.sum_div]
        have hcast : (∑ j ∈ nc, (f₀.getD j 0 : ℚ)) = (st.fillSum : ℚ) := by
          rw [h5]
          unfold fillOf
          exact (Nat.cast_sum nc fun k => f₀.getD k 0).symm
        rw [hcast, div_self (by positivity), one_mul]
      rw [hmain, hshare]
      ring
    exact ⟨le_of_eq hkey, fun _ => hkey⟩
  · have hall : ∀ j ∈ Finset.range n,
        max (mins.getD j 0)
          (if 0 < st.fillSum then (st.factors.getD j 0 : ℚ) / (st.fillSum : ℚ) * st.main
           else 0) = mins.getD j 0 := by
      intro j _
      rw [if_neg hfs]
      exact max_eq_left (hmins j)
    refine ⟨?_, fun h => absurd h hfs⟩
    rw [hsum, Finset.sum_congr rfl hall]
    exact hminsum

/-!
Wellformedness of the concrete example children, and completeness of the
canonical sweep order.
-/

theorem clampedChild_wellBehaved (w h : ℚ) : WellBehaved (clampedChild w h) := by
  intro mw mh
  refine ⟨le_max_right _ _, ?_, le_max_right _ _, ?_⟩
  · exact max_le (le_trans (min_le_right w mw) (le_max_left mw 0)) (le_max_right mw 0)
  · exact max_le (le_trans (min_le_right h mh) (le_max_left mh 0)) (le_max_right mh 0)

theorem greedyHeightChild_wellBehaved (w : ℚ) : WellBehaved (greedyHeightChild w) := by
  intro mw mh
  refine ⟨le_max_right _ _, ?_, le_max_right _ _, le_refl _⟩
  exact max_le (le_trans (min_le_right w mw) (le_max_left mw 0)) (le_max_right mw 0)

theorem fillWidthChild_wellBehaved : WellBehaved fillWidthChild := by
  intro mw mh
  refine ⟨le_max_right _ _, le_refl _, le_max_right _ _, ?_⟩
  exact max_le (le_trans (min_le_right 10 mh) (le_max_left mh 0)) (le_max_right mh 0)

theorem gridFillRow_wellBehaved : gridFillRow.AllWellBehaved := by
  intro r hr c hc
  rcases List.mem_singleton.mp hr with rfl
  rcases List.mem_cons.mp hc with rfl | hc'
  · exact clampedChild_wellBehaved 30 10
  · rcases List.mem_singleton.mp hc' with rfl
    exact clampedChild_wellBehaved 20 10

theorem gridTwoFill_wellBehaved : gridTwoFill.AllWellBehaved := by
  intro r hr c hc
  rcases List.mem_singleton.mp hr with rfl
  rcases List.mem_cons.mp hc with rfl | hc'
  · exact fillWidthChild_wellBehaved
  · rcases List.mem_singleton.mp hc' with rfl
    exact fillWidthChild_wellBehaved

theorem gridGreedyRows_wellBehaved : gridGreedyRows.AllWellBehaved := by
  intro r hr c hc
  rcases List.mem_cons.mp hr with rfl | hr'
  · rcases List.mem_singleton.mp hc with rfl
    exact greedyHeightChild_wellBehaved 10
  · rcases List.mem_singleton.mp hr' with rfl
    rcases List.mem_singleton.mp hc with rfl
    exact greedyHeightChild_wellBehaved 10

theorem defaultOracle_complete : OracleComplete defaultOracle := by
  intro s j hj
  unfold defaultOracle
  rw [List.mem_filter]
  refine ⟨List.mem_range.mpr ?_, by simpa using hj⟩
  have : j ≤ ∑ k ∈ s, k := Finset.single_le_sum (f := fun k => k)
    (fun i _ => Nat.zero_le i) hj
  omega

/-!
Claims C1 and C4.
-/

/-- C1: for a grid whose main length is not `Shrink`, every resolved
secondary track size is at least that track's intrinsic minimum computed in
the first sizing pass, whatever the children's fill factors are. -/
theorem secMain_ge_min (g : GridW) (limits : Limits) (oracle : Finset ℕ → List ℕ)
    (j : ℕ) (hs : g.mainLength ≠ Length.shrink) (hj : j < g.nbSec) :
    (g.secMainMin limits).getD j 0 ≤ (g.secMain limits oracle).getD j 0 := by
  unfold GridW.secMain
  rw [if_pos hs]
  exact redistOut_min_le _ _ _ _ hj

/-- Witness for C1: a fill-width grid with two fixed children. -/
theorem secMain_ge_min_witness :
    gridFillRow.mainLength ≠ Length.shrink ∧ 0 < gridFillRow.nbSec ∧
    (gridFillRow.secMainMin limitsEx).getD 0 0 ≤
      (gridFillRow.secMain limitsEx defaultOracle).getD 0 0 :=
  ⟨by decide, by decide,
    secMain_ge_min gridFillRow limitsEx defaultOracle 0 (by decide) (by decide)⟩

/-- C4: for every grid, every limits and every sweep order — including all
degenerate geometries: negative available space, zero columns, empty grids,
zero fill factors — the available extents are clamped to be non-negative
and no resolved main or cross track size is ever negative (the embedding is
a total function, matching the absence of panics). -/
theorem layout_tracks_nonneg (g : GridW) (limits : Limits)
    (oracle : Finset ℕ → List ℕ) (j : ℕ) :
    0 ≤ g.maxMain limits ∧ 0 ≤ g.maxCross limits ∧
    0 ≤ (g.secMain limits oracle).getD j 0 ∧
    0 ≤ (g.primCross limits oracle).getD j 0 := by
  refine ⟨?_, ?_, ?_, ?_⟩
  · unfold GridW.maxMain GridW.shrunkLimits Limits.shrinkP
    cases g.axis <;> simp [Axis.pack]
  · unfold GridW.maxCross GridW.shrunkLimits Limits.shrinkP
    cases g.axis <;> simp [Axis.pack]
  · unfold GridW.secMain
    split
    · exact redistOut_nonneg _ _ _ _ fun k =>
        phase1_secMain_nonneg g _ _ _ _ k
    · exact phase1_secMain_nonneg g _ _ _ _ j
  · unfold GridW.primCross
    split
    · exact redistOut_nonneg _ _ _ _ fun k =>
        phaseCross_primCross_nonneg g _ _ _ _ k
    · exact phaseCross_primCross_nonneg g _ _ _ _ j

/-!
Claim C3: main-axis space conservation.
-/

/-- C3 (amended): for well-behaved children, non-Shrink main sizing, a
complete sweep oracle and a non-negative available budget, the resolved
main track sizes plus total spacing never exceed the available main space;
and when additionally the grid has at least one secondary track, every
track's fill factor is non-zero and no track clamps during redistribution,
the sum equals the available space exactly. -/
theorem space_conservation (g : GridW) (limits : Limits)
    (oracle : Finset ℕ → List ℕ) (hor : OracleComplete oracle)
    (hs : g.mainLength ≠ Length.shrink) (hwb : g.AllWellBehaved)
    (hm : 0 ≤ g.mainAvail limits) :
    (g.secMain limits oracle).sum + g.mainTotalSpacing ≤ g.maxMain limits ∧
    (g.NoClampMain limits oracle → 0 < g.nbSec →
      (∀ j, j < g.nbSec → (g.secMainFactorL limits).getD j 0 ≠ 0) →
      (g.secMain limits oracle).sum + g.mainTotalSpacing = g.maxMain limits) := by
  obtain ⟨nc, hR0, _, hT⟩ := redistState_spec oracle hor (g.mainAvail limits)
    (g.secMainFactorL limits) (g.secMainMin limits) g.nbSec
    (phase1_secMainFactor_length g _ _ _ _)
  have hR : Realizes (g.secMainFactorL limits) (g.secMainMin limits) (g.mainAvail limits)
      g.nbSec (g.mainRState limits oracle) nc := hR0
  have hsec : g.secMain limits oracle =
      redistOut (g.mainRState limits oracle) (g.secMainMin limits) g.nbSec := by
    unfold GridW.secMain
    rw [if_pos hs]
  have hmins : ∀ k, 0 ≤ (g.secMainMin limits).getD k 0 := fun k =>
    phase1_secMain_nonneg g _ _ _ _ k
  have hminsum : ∑ j ∈ Finset.range g.nbSec, (g.secMainMin limits).getD j 0 ≤
      g.mainAvail limits := by
    rw [sum_getD_of_length _ _
      (show (g.secMainMin limits).length = g.nbSec from phase1_secMain_length g _ _ _ _)]
    exact secMainMin_sum_le g limits hwb hm
  obtain ⟨hle, heq⟩ := redistOut_sum_spec (g.secMainFactorL limits)
    (g.secMainMin limits) (g.mainAvail limits) g.nbSec
    (g.mainRState limits oracle) nc hR hT hmins hminsum
  constructor
  · rw [hsec]
    unfold GridW.mainAvail at hle
    linarith
  · intro hnc hpos hfz
    have hncr : nc = Finset.range g.nbSec := by
      rw [← hR.1]
      exact hnc
    have hfs : 0 < (g.mainRState limits oracle).fillSum := by
      rcases Nat.eq_zero_or_pos (g.mainRState limits oracle).fillSum with hz | hp
      · exfalso
        rw [hR.2.2.2.2.1, hncr] at hz
        unfold fillOf at hz
        exact hfz 0 hpos (Finset.sum_eq_zero_iff.mp hz 0 (Finset.mem_range.mpr hpos))
      · exact hp
    rw [hsec, heq hfs]
    unfold GridW.mainAvail
    ring

/-- Witness for C3 at a fill × fill grid: both columns fill, nothing clamps,
and the tracks exactly exhaust the 100 px budget. -/
theorem space_conservation_witness :
    gridTwoFill.NoClampMain limitsEx defaultOracle ∧ 0 < gridTwoFill.nbSec ∧
    (∀ j, j < gridTwoFill.nbSec →
      (gridTwoFill.secMainFactorL limitsEx).getD j 0 ≠ 0) ∧
    (gridTwoFill.secMain limitsEx defaultOracle).sum + gridTwoFill.mainTotalSpacing =
      gridTwoFill.maxMain limitsEx :=
  ⟨by rfl, by decide, by decide,
    (space_conservation gridTwoFill limitsEx defaultOracle defaultOracle_complete
      (by decide) gridTwoFill_wellBehaved (by decide)).2 (by rfl) (by decide)
      (by decide)⟩

/-- Counterexample to C3 as stated: the empty fill-width grid has non-Shrink
main sizing, every track vacuously has a non-zero fill factor and no track
clamps, yet the sum of track sizes plus spacing is 0 while the available
main space is 100. -/
theorem space_conservation_counterexample :
    gridEmptyFill.mainLength ≠ Length.shrink ∧
    gridEmptyFill.NoClampMain limitsEx defaultOracle ∧
    (∀ j, j < gridEmptyFill.nbSec →
      (gridEmptyFill.secMainFactorL limitsEx).getD j 0 ≠ 0) ∧
    (gridEmptyFill.secMain limitsEx defaultOracle).sum +
        gridEmptyFill.mainTotalSpacing ≠ gridEmptyFill.maxMain limitsEx := by
  refine ⟨by decide, by rfl, by decide, by decide⟩

/-!
Claim C5: empty grids.
-/

theorem nbColumns_empty (g : GridW) (hempty : ∀ r ∈ g.rows, r.length = 0) :
    g.nbColumns = 0 := by
  unfold GridW.nbColumns
  have key : ∀ (l : List (List Child)), (∀ r ∈ l, r.length = 0) →
      l.foldl (fun len r => max len r.length) 0 = 0 := by
    intro l
    induction l with
    | nil => intro _; rfl
    | cons r t ih =>
      intro h
      rw [List.foldl_cons, h r (List.mem_cons_self r t)]
      exact ih fun s hs => h s (List.mem_cons_of_mem r hs)
  exact key g.rows hempty

theorem phase1_secMain_nbPrim_zero (g : GridW) (ma ca : ℚ) (ns : ℕ) :
    (phase1 g ma ca 0 ns).secMain = List.replicate ns 0 := by
  unfold phase1
  exact foldl_invariant (fun s : Phase1State => s.secMain = List.replicate ns 0)
    (phase1Col g ca 0) (fun s j hs => hs) (List.range ns) _ rfl

theorem phaseCross_primCross_nbSec_zero (g : GridW) (sm : List ℚ) (mc : ℚ) (np : ℕ) :
    (phaseCross g sm mc np 0).primCross = List.replicate np 0 := by
  unfold phaseCross
  exact foldl_invariant (fun s : CrossState => s.primCross = List.replicate np 0)
    (crossRow g sm 0) (fun s i hs => hs) (List.range np) _ rfl

/-- C5 (amended): an empty grid — no rows, or all rows empty — with Shrink
sizing on both axes, zero-minimum limits, non-negative padding that fits in
the limits, and (at most one row, or zero row spacing) resolves to exactly
the padding-only size, for every column spacing and every padding. -/
theorem empty_grid_padding_size (g : GridW) (limits : Limits)
    (oracle : Finset ℕ → List ℕ)
    (hempty : ∀ r ∈ g.rows, r.length = 0)
    (hrs : g.rows.length ≤ 1 ∨ g.rowSpacing = 0)
    (hw : g.width = Length.shrink) (hh : g.height = Length.shrink)
    (hminW : limits.minWidth = 0) (hminH : limits.minHeight = 0)
    (hpw : 0 ≤ g.padding.horizontal) (hph : 0 ≤ g.padding.vertical)
    (hmw : g.padding.horizontal ≤ limits.maxWidth)
    (hmh : g.padding.vertical ≤ limits.maxHeight) :
    g.totalSize limits oracle = ⟨g.padding.horizontal, g.padding.vertical⟩ := by
  have hcol : g.nbColumns = 0 := nbColumns_empty g hempty
  have hrows0 : g.rowSpacing * ((g.rows.length - 1 : ℕ) : ℚ) = 0 := by
    rcases hrs with h | h
    · have h0 : g.rows.length - 1 = 0 := by omega
      rw [h0]
      simp
    · rw [h, zero_mul]
  have hml : g.mainLength = Length.shrink := by
    unfold GridW.mainLength
    cases g.axis <;> simp [Axis.pack, hw, hh]
  have hcl : g.crossLength = Length.shrink := by
    unfold GridW.crossLength
    cases g.axis <;> simp [Axis.pack, hw, hh]
  have hsm : (g.secMain limits oracle).sum = 0 := by
    unfold GridW.secMain
    rw [if_neg (by rw [hml]; exact fun h => h rfl)]
    unfold GridW.secMainMin GridW.phase1Data
    cases hax : g.axis with
    | horizontal =>
      have hns : g.nbSec = 0 := by
        unfold GridW.nbSec
        rw [hax]
        simpa [Axis.pack] using hcol
      rw [hns]
      unfold phase1
      simp
    | vertical =>
      have hnp : g.nbPrim = 0 := by
        unfold GridW.nbPrim
        rw [hax]
        simpa [Axis.pack] using hcol
      rw [hnp, phase1_secMain_nbPrim_zero]
      simp
  have hpc : (g.primCross limits oracle).sum = 0 := by
    unfold GridW.primCross
    rw [if_neg (by rw [hcl]; exact fun h => h rfl)]
    unfold GridW.primCrossMin GridW.crossData
    cases hax : g.axis with
    | horizontal =>
      have hns : g.nbSec = 0 := by
        unfold GridW.nbSec
        rw [hax]
        simpa [Axis.pack] using hcol
      rw [hns, phaseCross_primCross_nbSec_zero]
      simp
    | vertical =>
      have hnp : g.nbPrim = 0 := by
        unfold GridW.nbPrim
        rw [hax]
        simpa [Axis.pack] using hcol
      rw [hnp]
      unfold phaseCross
      simp
  have hm0 : g.mainTotalSpacing = 0 := by
    unfold GridW.mainTotalSpacing GridW.mainSpacing GridW.nbSec GridW.nbRows
    cases hax : g.axis
    · simp only [Axis.pack]
      rw [hcol]
      simp
    · simp only [Axis.pack]
      exact hrows0
  have hc0 : g.crossTotalSpacing = 0 := by
    unfold GridW.crossTotalSpacing GridW.crossSpacing GridW.nbPrim GridW.nbRows
    cases hax : g.axis
    · simp only [Axis.pack]
      exact hrows0
    · simp only [Axis.pack]
      rw [hcol]
      simp
  have hiw : g.intrinsicWidth limits oracle = 0 := by
    unfold GridW.intrinsicWidth
    cases hax : g.axis <;> simp [Axis.pack, hsm, hpc, hm0, hc0]
  have hih : g.intrinsicHeight limits oracle = 0 := by
    unfold GridW.intrinsicHeight
    cases hax : g.axis <;> simp [Axis.pack, hsm, hpc, hm0, hc0]
  unfold GridW.totalSize
  rw [hiw, hih, hw, hh]
  unfold Limits.resolve
  simp only [zero_add]
  rw [hminW, hminH, min_eq_left hmw, min_eq_left hmh, max_eq_left hpw, max_eq_left hph]

/-- Witness for the amended C5: a padded grid with no rows resolves to its
padding-only size 6 × 4. -/
theorem empty_grid_padding_size_witness :
    (∀ r ∈ gridEmptyPadded.rows, r.length = 0) ∧
    gridEmptyPadded.totalSize limitsEx defaultOracle =
      ⟨gridEmptyPadded.padding.horizontal, gridEmptyPadded.padding.vertical⟩ :=
  ⟨by decide,
    empty_grid_padding_size gridEmptyPadded limitsEx defaultOracle (by decide)
      (by decide) (by decide) (by decide) (by decide) (by decide) (by decide)
      (by decide) (by decide) (by decide)⟩

/-- Counterexample to C5 as stated: a shrink-sized grid of two empty rows
with row spacing 5 resolves to a total size of 0 × 5 — the spacing between
the two empty rows is kept — instead of the padding-only size 0 × 0. -/
theorem empty_grid_counterexample :
    (∀ r ∈ gridTwoEmptyRows.rows, r.length = 0) ∧
    (gridTwoEmptyRows.layout limitsEx).size ≠
      ⟨gridTwoEmptyRows.padding.horizontal, gridTwoEmptyRows.padding.vertical⟩ := by
  refine ⟨by decide, by decide⟩

/-!
Sweep-order independence of the clamping loop (claim C8).  The loop state
is abstracted to the unclamped set; the final track sizes are `aout` of the
terminal set it reaches.  The key facts are that the per-track clamp
condition persists across any single clamp of a different track (the
remaining budget-to-fill ratio only shrinks), and that once the fill sum
hits zero every terminal set produces the same output, namely the clamped
minima.  Together they give a diamond property, and Newman-style induction
on the pool size shows every maximal clamping sequence yields the same
sizes.
-/

theorem fillOf_erase_add (f₀ : List ℕ) (nc : Finset ℕ) (j : ℕ) (hj : j ∈ nc) :
    f₀.getD j 0 + fillOf f₀ (nc.erase j) = fillOf f₀ nc :=
  Finset.add_sum_erase nc (fun k => f₀.getD k 0) hj

theorem fillOf_single_le (f₀ : List ℕ) (nc : Finset ℕ) (j : ℕ) (hj : j ∈ nc) :
    f₀.getD j 0 ≤ fillOf f₀ nc := by
  unfold fillOf
  exact Finset.single_le_sum (f := fun k => f₀.getD k 0) (fun i _ => Nat.zero_le _) hj

theorem mainOf_erase (mins : List ℚ) (budget : ℚ) (n : ℕ) (nc : Finset ℕ) (j : ℕ)
    (hsub : nc ⊆ Finset.range n) (hj : j ∈ nc) :
    mainOf mins budget n (nc.erase j) = mainOf mins budget n nc - mins.getD j 0 := by
  unfold mainOf
  rw [Finset.sdiff_erase (hsub hj), Finset.sum_insert (by simp [hj])]
  ring

theorem rtg_fillOf_le (f₀ : List ℕ) (mins : List ℚ) (budget : ℚ) (n : ℕ)
    (nc nc' : Finset ℕ)
    (h : Relation.ReflTransGen (AStep f₀ mins budget n) nc nc') :
    fillOf f₀ nc' ≤ fillOf f₀ nc :=
  Finset.sum_le_sum_of_subset (rtg_subset f₀ mins budget n nc nc' h)

/-- A terminal (no track clampable) set admits no further step, so any
chain out of it is trivial. -/
theorem rtg_terminal_eq (f₀ : List ℕ) (mins : List ℚ) (budget : ℚ) (n : ℕ)
    (nc T : Finset ℕ) (hT : ∀ j, ¬ CondOf f₀ mins budget n nc j)
    (h : Relation.ReflTransGen (AStep f₀ mins budget n) nc T) : T = nc := by
  rcases Relation.ReflTransGen.cases_head h with heq | ⟨c, hstep, _⟩
  · exact heq.symm
  · obtain ⟨j, hc, _⟩ := hstep
    exact absurd hc (hT j)

/-- A concrete terminal loop state's output is the abstract output of the
set it realizes. -/
theorem redistOut_eq_aout (f₀ : List ℕ) (mins : List ℚ) (budget : ℚ) (n : ℕ)
    (st : RState) (nc : Finset ℕ) (hR : Realizes f₀ mins budget n st nc) :
    redistOut st mins n = aout f₀ mins budget n nc := by
  obtain ⟨h1, h2, h3, h4, h5, h6⟩ := hR
  unfold redistOut aout
  refine List.map_congr_left fun j _ => ?_
  rw [h4 j, h5, h6]

/-- When the fill sum is exhausted the output degenerates to the clamped
minima, whatever the remaining set is. -/
theorem aout_fill_zero (f₀ : List ℕ) (mins : List ℚ) (budget : ℚ) (n : ℕ)
    (nc nc' : Finset ℕ) (hz : fillOf f₀ nc = 0) (hz' : fillOf f₀ nc' = 0) :
    aout f₀ mins budget n nc = aout f₀ mins budget n nc' := by
  unfold aout
  refine List.map_congr_left fun j _ => ?_
  rw [if_neg (by omega), if_neg (by omega)]

/-- Persistence: clamping track `k` cannot unclamp track `j` — removing a
below-share track only lowers the budget-to-fill ratio. -/
theorem condOf_persist (f₀ : List ℕ) (mins : List ℚ) (budget : ℚ) (n : ℕ)
    (nc : Finset ℕ) (j k : ℕ) (hsub : nc ⊆ Finset.range n)
    (hj : CondOf f₀ mins budget n nc j) (hk : CondOf f₀ mins budget n nc k)
    (hjk : j ≠ k) (hf : fillOf f₀ (nc.erase k) ≠ 0) :
    CondOf f₀ mins budget n (nc.erase k) j := by
  obtain ⟨hjm, hF0, hjlt⟩ := hj
  obtain ⟨hkm, -, hklt⟩ := hk
  refine ⟨Finset.mem_erase.mpr ⟨hjk, hjm⟩, hf, ?_⟩
  have hFpos : (0:ℚ) < (fillOf f₀ nc : ℚ) := by
    exact_mod_cast Nat.pos_of_ne_zero hF0
  have hFpos' : (0:ℚ) < (fillOf f₀ (nc.erase k) : ℚ) := by
    exact_mod_cast Nat.pos_of_ne_zero hf
  have hfj : (0:ℚ) ≤ (f₀.getD j 0 : ℚ) := Nat.cast_nonneg _
  have hFk : (fillOf f₀ (nc.erase k) : ℚ)
      = (fillOf f₀ nc : ℚ) - (f₀.getD k 0 : ℚ) := by
    have h := fillOf_erase_add f₀ nc k hkm
    push_cast [← h]
    ring
  have hM' : mainOf mins budget n (nc.erase k)
      = mainOf mins budget n nc - mins.getD k 0 :=
    mainOf_erase mins budget n nc k hsub hkm
  rw [div_mul_eq_mul_div, div_lt_iff₀ hFpos] at hjlt hklt
  rw [hM', div_mul_eq_mul_div, div_lt_iff₀ hFpos', hFk]
  have ht1 : (0:ℚ) < ((fillOf f₀ nc : ℚ) - (f₀.getD k 0 : ℚ)) *
      (mins.getD j 0 * (fillOf f₀ nc : ℚ)
        - (f₀.getD j 0 : ℚ) * mainOf mins budget n nc) := by
    apply mul_pos
    · rw [← hFk]
      exact hFpos'
    · linarith
  have ht2 : (0:ℚ) ≤ (f₀.getD j 0 : ℚ) *
      (mins.getD k 0 * (fillOf f₀ nc : ℚ)
        - (f₀.getD k 0 : ℚ) * mainOf mins budget n nc) := by
    apply mul_nonneg hfj
    linarith
  have hid : (fillOf f₀ nc : ℚ) *
      (mins.getD j 0 * ((fillOf f₀ nc : ℚ) - (f₀.getD k 0 : ℚ))
        - (f₀.getD j 0 : ℚ) * (mainOf mins budget n nc - mins.getD k 0)) =
      ((fillOf f₀ nc : ℚ) - (f₀.getD k 0 : ℚ)) *
        (mins.getD j 0 * (fillOf f₀ nc : ℚ)
          - (f₀.getD j 0 : ℚ) * mainOf mins budget n nc) +
      (f₀.getD j 0 : ℚ) *
        (mins.getD k 0 * (fillOf f₀ nc : ℚ)
          - (f₀.getD k 0 : ℚ) * mainOf mins budget n nc) := by
    ring
  nlinarith [hid, ht1, ht2, hFpos]

/-- Every pool reaches some terminal set by clamping. -/
theorem exists_terminal (f₀ : List ℕ) (mins : List ℚ) (budget : ℚ) (n : ℕ) :
    ∀ (N : ℕ) (nc : Finset ℕ), nc.card ≤ N →
      ∃ T, Relation.ReflTransGen (AStep f₀ mins budget n) nc T ∧
        ∀ j, ¬ CondOf f₀ mins budget n T j
  | 0, nc, hcard => by
    refine ⟨nc, Relation.ReflTransGen.refl, ?_⟩
    intro j hc
    have hmem : j ∈ nc := hc.1
    have hpos : 0 < nc.card := Finset.card_pos.mpr ⟨j, hmem⟩
    omega
  | N + 1, nc, hcard => by
    by_cases h : ∃ j, CondOf f₀ mins budget n nc j
    · obtain ⟨j, hj⟩ := h
      have hstep : AStep f₀ mins budget n nc (nc.erase j) := ⟨j, hj, rfl⟩
      have hlt : (nc.erase j).card < nc.card := Finset.card_erase_lt_of_mem hj.1
      obtain ⟨T, hrtg, hT⟩ :=
        exists_terminal f₀ mins budget n N (nc.erase j) (by omega)
      exact ⟨T, Relation.ReflTransGen.head hstep hrtg, hT⟩
    · push_neg at h
      exact ⟨nc, Relation.ReflTransGen.refl, h⟩

/-- Confluence: any two maximal clamping sequences out of the same pool end
in sets with the same output sizes. -/
theorem terminal_aout_unique (f₀ : List ℕ) (mins : List ℚ) (budget : ℚ) (n : ℕ) :
    ∀ (N : ℕ) (nc : Finset ℕ), nc.card ≤ N → nc ⊆ Finset.range n →
      ∀ T1 T2,
        Relation.ReflTransGen (AStep f₀ mins budget n) nc T1 →
        (∀ j, ¬ CondOf f₀ mins budget n T1 j) →
        Relation.ReflTransGen (AStep f₀ mins budget n) nc T2 →
        (∀ j, ¬ CondOf f₀ mins budget n T2 j) →
        aout f₀ mins budget n T1 = aout f₀ mins budget n T2
  | 0, nc, hcard, _, T1, T2, hc1, _, hc2, _ => by
    have hterm : ∀ j, ¬ CondOf f₀ mins budget n nc j := by
      intro j hc
      have hpos : 0 < nc.card := Finset.card_pos.mpr ⟨j, hc.1⟩
      omega
    rw [rtg_terminal_eq f₀ mins budget n nc T1 hterm hc1,
      rtg_terminal_eq f₀ mins budget n nc T2 hterm hc2]
  | N + 1, nc, hcard, hsub, T1, T2, hc1, hT1, hc2, hT2 => by
    by_cases hterm : ∀ j, ¬ CondOf f₀ mins budget n nc j
    · rw [rtg_terminal_eq f₀ mins budget n nc T1 hterm hc1,
        rtg_terminal_eq f₀ mins budget n nc T2 hterm hc2]
    · have hstep1 : ∃ c, AStep f₀ mins budget n nc c ∧
          Relation.ReflTransGen (AStep f₀ mins budget n) c T1 := by
        rcases Relation.ReflTransGen.cases_head hc1 with heq | h
        · subst heq
          exact absurd hT1 hterm
        · exact h
      have hstep2 : ∃ c, AStep f₀ mins budget n nc c ∧
          Relation.ReflTransGen (AStep f₀ mins budget n) c T2 := by
        rcases Relation.ReflTransGen.cases_head hc2 with heq | h
        · subst heq
          exact absurd hT2 hterm
        · exact h
      obtain ⟨c1, hA1, hc1'⟩ := hstep1
      obtain ⟨j, hcj, rfl⟩ := hA1
      obtain ⟨c2, hA2, hc2'⟩ := hstep2
      obtain ⟨k, hck, rfl⟩ := hA2
      have hjm : j ∈ nc := hcj.1
      have hkm : k ∈ nc := hck.1
      have hcard' : ∀ x ∈ nc, (nc.erase x).card ≤ N := by
        intro x hx
        rw [Finset.card_erase_of_mem hx]
        have hpos : 0 < nc.card := Finset.card_pos.mpr ⟨x, hx⟩
        omega
      have hsub' : ∀ x : ℕ, nc.erase x ⊆ Finset.range n :=
        fun x => subset_trans (Finset.erase_subset x nc) hsub
      by_cases hjk : j = k
      · subst hjk
        exact terminal_aout_unique f₀ mins budget n N (nc.erase j) (hcard' j hjm)
          (hsub' j) T1 T2 hc1' hT1 hc2' hT2
      · have hjmk : j ∈ nc.erase k := Finset.mem_erase.mpr ⟨hjk, hjm⟩
        have hkmj : k ∈ nc.erase j := Finset.mem_erase.mpr ⟨fun e => hjk e.symm, hkm⟩
        have eJ : f₀.getD j 0 + fillOf f₀ (nc.erase j) = fillOf f₀ nc :=
          fillOf_erase_add f₀ nc j hjm
        have eK : f₀.getD k 0 + fillOf f₀ (nc.erase k) = fillOf f₀ nc :=
          fillOf_erase_add f₀ nc k hkm
        have hFne : fillOf f₀ nc ≠ 0 := hcj.2.1
        by_cases hFj : fillOf f₀ (nc.erase j) = 0
        · have hk0 : f₀.getD k 0 = 0 := by
            have hle := fillOf_single_le f₀ (nc.erase j) k hkmj
            omega
          have hFk : fillOf f₀ (nc.erase k) ≠ 0 := by omega
          have hcj' : CondOf f₀ mins budget n (nc.erase k) j :=
            condOf_persist f₀ mins budget n nc j k hsub hcj hck hjk hFk
          obtain ⟨T3, hrtg3, hT3⟩ :=
            exists_terminal f₀ mins budget n N ((nc.erase k).erase j)
              (le_trans (Finset.card_le_card (Finset.erase_subset j (nc.erase k)))
                (hcard' k hkm))
          have h23 : aout f₀ mins budget n T2 = aout f₀ mins budget n T3 :=
            terminal_aout_unique f₀ mins budget n N (nc.erase k) (hcard' k hkm)
              (hsub' k) T2 T3 hc2' hT2
              (Relation.ReflTransGen.head ⟨j, hcj', rfl⟩ hrtg3) hT3
          have hT1z : fillOf f₀ T1 = 0 := by
            have hle := rtg_fillOf_le f₀ mins budget n (nc.erase j) T1 hc1'
            omega
          have eJK : f₀.getD j 0 + fillOf f₀ ((nc.erase k).erase j)
              = fillOf f₀ (nc.erase k) := fillOf_erase_add f₀ (nc.erase k) j hjmk
          have hT3z : fillOf f₀ T3 = 0 := by
            have hle := rtg_fillOf_le f₀ mins budget n ((nc.erase k).erase j) T3 hrtg3
            omega
          exact (aout_fill_zero f₀ mins budget n T1 T3 hT1z hT3z).trans h23.symm
        · by_cases hFk : fillOf f₀ (nc.erase k) = 0
          · have hj0 : f₀.getD j 0 = 0 := by
              have hle := fillOf_single_le f₀ (nc.erase k) j hjmk
              omega
            have hck' : CondOf f₀ mins budget n (nc.erase j) k :=
              condOf_persist f₀ mins budget n nc k j hsub hck hcj
                (fun e => hjk e.symm) hFj
            obtain ⟨T3, hrtg3, hT3⟩ :=
              exists_terminal f₀ mins budget n N ((nc.erase j).erase k)
                (le_trans (Finset.card_le_card (Finset.erase_subset k (nc.erase j)))
                  (hcard' j hjm))
            have h13 : aout f₀ mins budget n T1 = aout f₀ mins budget n T3 :=
              terminal_aout_unique f₀ mins budget n N (nc.erase j) (hcard' j hjm)
                (hsub' j) T1 T3 hc1' hT1
                (Relation.ReflTransGen.head ⟨k, hck', rfl⟩ hrtg3) hT3
            have hT2z : fillOf f₀ T2 = 0 := by
              have hle := rtg_fillOf_le f₀ mins budget n (nc.erase k) T2 hc2'
              omega
            have eKJ : f₀.getD k 0 + fillOf f₀ ((nc.erase j).erase k)
                = fillOf f₀ (nc.erase j) := fillOf_erase_add f₀ (nc.erase j) k hkmj
            have hT3z : fillOf f₀ T3 = 0 := by
              have hle := rtg_fillOf_le f₀ mins budget n ((nc.erase j).erase k) T3 hrtg3
              omega
            exact h13.trans (aout_fill_zero f₀ mins budget n T3 T2 hT3z hT2z)
          · have hcj' : CondOf f₀ mins budget n (nc.erase k) j :=
              condOf_persist f₀ mins budget n nc j k hsub hcj hck hjk hFk
            have hck' : CondOf f₀ mins budget n (nc.erase j) k :=
              condOf_persist f₀ mins budget n nc k j hsub hck hcj
                (fun e => hjk e.symm) hFj
            obtain ⟨T3, hrtg3, hT3⟩ :=
              exists_terminal f₀ mins budget n N ((nc.erase j).erase k)
                (le_trans (Finset.card_le_card (Finset.erase_subset k (nc.erase j)))
                  (hcard' j hjm))
            have h13 : aout f₀ mins budget n T1 = aout f₀ mins budget n T3 :=
              terminal_aout_unique f₀ mins budget n N (nc.erase j) (hcard' j hjm)
                (hsub' j) T1 T3 hc1' hT1
                (Relation.ReflTransGen.head ⟨k, hck', rfl⟩ hrtg3) hT3
            have hrtg3' : Relation.ReflTransGen (AStep f₀ mins budget n)
                ((nc.erase k).erase j) T3 := by
              rw [Finset.erase_right_comm]
              exact hrtg3
            have h23 : aout f₀ mins budget n T2 = aout f₀ mins budget n T3 :=
              terminal_aout_unique f₀ mins budget n N (nc.erase k) (hcard' k hkm)
                (hsub' k) T2 T3 hc2' hT2
                (Relation.ReflTransGen.head ⟨j, hcj', rfl⟩ hrtg3') hT3
            exact h13.trans h23.symm

/-- The whole redistribution is sweep-order independent. -/
theorem redistribute_indep (o1 o2 : Finset ℕ → List ℕ)
    (h1 : OracleComplete o1) (h2 : OracleComplete o2)
    (budget : ℚ) (f₀ : List ℕ) (mins : List ℚ) (n : ℕ) (hn : f₀.length = n) :
    redistribute o1 budget f₀ mins n = redistribute o2 budget f₀ mins n := by
  obtain ⟨nc1, hR1, hch1, hT1⟩ := redistState_spec o1 h1 budget f₀ mins n hn
  obtain ⟨nc2, hR2, hch2, hT2⟩ := redistState_spec o2 h2 budget f₀ mins n hn
  unfold redistribute
  rw [redistOut_eq_aout f₀ mins budget n _ nc1 hR1,
    redistOut_eq_aout f₀ mins budget n _ nc2 hR2]
  exact terminal_aout_unique f₀ mins budget n n (Finset.range n) (by simp)
    subset_rfl nc1 nc2 hch1 hT1 hch2 hT2

/-- The resolved main track sizes do not depend on the sweep order. -/
theorem secMain_indep (g : GridW) (limits : Limits) (o1 o2 : Finset ℕ → List ℕ)
    (h1 : OracleComplete o1) (h2 : OracleComplete o2) :
    g.secMain limits o1 = g.secMain limits o2 := by
  unfold GridW.secMain
  by_cases hm : g.mainLength ≠ Length.shrink
  · rw [if_pos hm, if_pos hm]
    unfold GridW.mainRState
    exact redistribute_indep o1 o2 h1 h2 (g.mainAvail limits)
      (g.secMainFactorL limits) (g.secMainMin limits) g.nbSec
      (phase1_secMainFactor_length g (g.mainAvail limits) (g.crossAvail limits)
        g.nbPrim g.nbSec)
  · rw [if_neg hm, if_neg hm]

/-- The intrinsic cross minima do not depend on the sweep order. -/
theorem primCrossMin_indep (g : GridW) (limits : Limits)
    (o1 o2 : Finset ℕ → List ℕ)
    (h1 : OracleComplete o1) (h2 : OracleComplete o2) :
    g.primCrossMin limits o1 = g.primCrossMin limits o2 := by
  unfold GridW.primCrossMin GridW.crossData
  rw [secMain_indep g limits o1 o2 h1 h2]

/-- The resolved cross track sizes do not depend on the sweep order. -/
theorem primCross_indep (g : GridW) (limits : Limits) (o1 o2 : Finset ℕ → List ℕ)
    (h1 : OracleComplete o1) (h2 : OracleComplete o2) :
    g.primCross limits o1 = g.primCross limits o2 := by
  unfold GridW.primCross
  by_cases hc : g.crossLength ≠ Length.shrink
  · rw [if_pos hc, if_pos hc]
    unfold GridW.crossRState
    rw [primCrossMin_indep g limits o1 o2 h1 h2]
    exact redistribute_indep o1 o2 h1 h2 (g.crossAvail limits)
      (g.primCrossFactorL limits) (g.primCrossMin limits o2) g.nbPrim
      (phase1_primCrossFactor_length g (g.mainAvail limits) (g.crossAvail limits)
        g.nbPrim g.nbSec)
  · rw [if_neg hc, if_neg hc]
    exact primCrossMin_indep g limits o1 o2 h1 h2

/-- C8: `Grid::layout` is deterministic — for identical inputs the layout
is the same whatever iteration orders the `HashSet` sweeps of the two
clamped-redistribution loops use, as long as each sweep visits every
element of the pool.  Hence two calls with identical inputs produce
identical output sizes and rectangles. -/
theorem layout_deterministic (g : GridW) (limits : Limits)
    (o1 o2 : Finset ℕ → List ℕ)
    (h1 : OracleComplete o1) (h2 : OracleComplete o2) :
    g.layoutWith limits o1 = g.layoutWith limits o2 := by
  have hsm := secMain_indep g limits o1 o2 h1 h2
  have hpc := primCross_indep g limits o1 o2 h1 h2
  have hcd : g.crossData limits o1 = g.crossData limits o2 := by
    unfold GridW.crossData
    rw [hsm]
  have hns : g.nodeSizes limits o1 = g.nodeSizes limits o2 := by
    unfold GridW.nodeSizes
    rw [hsm, hpc, hcd]
  have hcells : g.cells limits o1 = g.cells limits o2 := by
    unfold GridW.cells
    rw [hsm, hpc, hns]
  have hiw : g.intrinsicWidth limits o1 = g.intrinsicWidth limits o2 := by
    unfold GridW.intrinsicWidth
    rw [hsm, hpc]
  have hih : g.intrinsicHeight limits o1 = g.intrinsicHeight limits o2 := by
    unfold GridW.intrinsicHeight
    rw [hsm, hpc]
  have hts : g.totalSize limits o1 = g.totalSize limits o2 := by
    unfold GridW.totalSize
    rw [hiw, hih]
  unfold GridW.layoutWith
  rw [hcells, hts]

theorem revOracle_complete : OracleComplete revOracle := by
  intro s j hj
  unfold revOracle
  exact List.mem_reverse.mpr (defaultOracle_complete s j hj)

/-- Witness for C8: a grid with two fill tracks laid out with the
ascending and the descending sweep orders yields the same layout. -/
theorem layout_deterministic_witness :
    gridTwoFill.layoutWith limitsEx defaultOracle =
      gridTwoFill.layoutWith limitsEx revOracle :=
  layout_deterministic gridTwoFill limitsEx defaultOracle revOracle
    defaultOracle_complete revOracle_complete

/-!
Geometry of the positioned cells (claim C2): bounds on the stored node
sizes, closed forms for the positioning cursors, and the resulting
containment, uniformity and disjointness facts.
-/

theorem Axis.pack_pack {α : Type} (ax : Axis) (x y : α) :
    ax.pack (ax.pack x y).1 (ax.pack x y).2 = (x, y) := by
  cases ax <;> rfl

theorem setCell_length {α : Type} (nss : List (List α)) (a b : ℕ) (v : α) :
    (setCell nss a b v).length = nss.length := by
  unfold setCell
  exact List.length_set nss a _

theorem setCell_row_length {α : Type} (nss : List (List α)) (a b k : ℕ) (v : α) :
    ((setCell nss a b v).getD k []).length = (nss.getD k []).length := by
  unfold setCell
  rcases getD_set_cases nss a k ((nss.getD a []).set b v) [] with ⟨he, hak, _⟩ | he
  · subst hak
    rw [he]
    exact List.length_set _ b _
  · rw [he]

theorem setCell_getD_cases {α : Type} (nss : List (List α)) (a b a' b' : ℕ)
    (v d : α) :
    (a = a' ∧ b = b' ∧ a < nss.length ∧ b < (nss.getD a []).length ∧
      ((setCell nss a b v).getD a' []).getD b' d = v) ∨
    ((setCell nss a b v).getD a' []).getD b' d = (nss.getD a' []).getD b' d := by
  unfold setCell
  rcases getD_set_cases nss a a' ((nss.getD a []).set b v) [] with ⟨he, haa, halen⟩ | he
  · rcases getD_set_cases (nss.getD a []) b b' v d with ⟨he2, hbb, hblen⟩ | he2
    · subst haa
      rw [he, he2]
      exact .inl ⟨rfl, hbb, halen, hblen, rfl⟩
    · subst haa
      rw [he, he2]
      exact .inr rfl
  · rw [he]
    exact .inr rfl

theorem getD_map_const {α β : Type} (v : β) :
    ∀ (l : List α) (b : ℕ), ((l.map fun _ => v).getD b v) = v
  | [], _ => rfl
  | _ :: _, 0 => rfl
  | _ :: t, b + 1 => getD_map_const v t b

theorem init_nodes_getD :
    ∀ (rows : List (List Child)) (a b : ℕ),
      (((rows.map fun r => r.map fun _ => (⟨0, 0⟩ : Size ℚ))).getD a []).getD b
        ⟨0, 0⟩ = ⟨0, 0⟩
  | [], _, _ => rfl
  | r :: _, 0, b => getD_map_const _ r b
  | _ :: t, a + 1, b => init_nodes_getD t a b

theorem init_nodes_length (rows : List (List Child)) :
    ((rows.map fun r => r.map fun _ => (⟨0, 0⟩ : Size ℚ))).length = rows.length := by
  simp

theorem init_nodes_row_length :
    ∀ (rows : List (List Child)) (a : ℕ),
      (((rows.map fun r => r.map fun _ => (⟨0, 0⟩ : Size ℚ))).getD a []).length =
        (rows.getD a []).length
  | [], _ => rfl
  | _ :: _, 0 => by simp
  | _ :: t, a + 1 => init_nodes_row_length t a

theorem cellAt_lt (g : GridW) (a b : ℕ) (c : Child) (hc : g.cellAt a b = some c) :
    a < g.rows.length ∧ b < (g.rows.getD a []).length := by
  unfold GridW.cellAt at hc
  cases ho : g.rows.get? a with
  | none =>
    rw [ho] at hc
    cases hc
  | some r =>
    rw [ho] at hc
    simp only [Option.some_bind] at hc
    have ha : a < g.rows.length := by
      by_contra h
      rw [List.get?_eq_none.mpr (le_of_not_lt h)] at ho
      cases ho
    have hr : g.rows.getD a [] = r := by
      rw [List.getD_eq_getElem?_getD, ← List.get?_eq_getElem?, ho]
      rfl
    have hb : b < r.length := by
      by_contra h
      rw [List.get?_eq_none.mpr (le_of_not_lt h)] at hc
      cases hc
    rw [hr]
    exact ⟨ha, hb⟩

theorem foldl_max_acc_le {α : Type} :
    ∀ (l : List (List α)) (acc : ℕ),
      acc ≤ l.foldl (fun len r => max len r.length) acc
  | [], _ => le_refl _
  | _ :: rest, a => le_trans (le_max_left a _) (foldl_max_acc_le rest _)

theorem foldl_max_mem_le {α : Type} :
    ∀ (l : List (List α)) (acc : ℕ), ∀ r ∈ l,
      r.length ≤ l.foldl (fun len r => max len r.length) acc
  | r' :: rest, _acc, r, hr => by
    rcases List.mem_cons.mp hr with rfl | h
    · exact le_trans (le_max_right _ _) (foldl_max_acc_le rest _)
    · exact foldl_max_mem_le rest _ r h

theorem nbColumns_ge (g : GridW) (a : ℕ) :
    (g.rows.getD a []).length ≤ g.nbColumns := by
  rcases lt_or_ge a g.rows.length with ha | ha
  · have hmem : g.rows.getD a [] ∈ g.rows := by
      rw [List.getD_eq_getElem?_getD, List.getElem?_eq_getElem ha]
      exact List.getElem_mem _
    exact foldl_max_mem_le g.rows 0 _ hmem
  · rw [getD_oob g.rows a [] ha]
    exact Nat.zero_le _

theorem secMain_nonneg (g : GridW) (limits : Limits) (oracle : Finset ℕ → List ℕ)
    (j : ℕ) : 0 ≤ (g.secMain limits oracle).getD j 0 := by
  unfold GridW.secMain
  split
  · exact redistOut_nonneg _ _ _ _ fun k => phase1_secMain_nonneg g _ _ _ _ k
  · exact phase1_secMain_nonneg g _ _ _ _ j

theorem primCross_nonneg (g : GridW) (limits : Limits) (oracle : Finset ℕ → List ℕ)
    (j : ℕ) : 0 ≤ (g.primCross limits oracle).getD j 0 := by
  unfold GridW.primCross
  split
  · exact redistOut_nonneg _ _ _ _ fun k => phaseCross_primCross_nonneg g _ _ _ _ k
  · exact phaseCross_primCross_nonneg g _ _ _ _ j

theorem secMain_length (g : GridW) (limits : Limits) (oracle : Finset ℕ → List ℕ) :
    (g.secMain limits oracle).length = g.nbSec := by
  unfold GridW.secMain
  split
  · exact redistOut_length _ _ _
  · exact phase1_secMain_length g _ _ _ _

theorem primCross_length (g : GridW) (limits : Limits) (oracle : Finset ℕ → List ℕ) :
    (g.primCross limits oracle).length = g.nbPrim := by
  unfold GridW.primCross
  split
  · exact redistOut_length _ _ _
  · exact phaseCross_primCross_length g _ _ _ _

theorem colWidths_nonneg (g : GridW) (limits : Limits) (oracle : Finset ℕ → List ℕ)
    (b : ℕ) : 0 ≤ (g.colWidths limits oracle).getD b 0 := by
  unfold GridW.colWidths
  cases hax : g.axis
  · exact secMain_nonneg g limits oracle b
  · exact primCross_nonneg g limits oracle b

theorem rowHeights_nonneg (g : GridW) (limits : Limits) (oracle : Finset ℕ → List ℕ)
    (a : ℕ) : 0 ≤ (g.rowHeights limits oracle).getD a 0 := by
  unfold GridW.rowHeights
  cases hax : g.axis
  · exact primCross_nonneg g limits oracle a
  · exact secMain_nonneg g limits oracle a

theorem colWidths_length (g : GridW) (limits : Limits) (oracle : Finset ℕ → List ℕ) :
    (g.colWidths limits oracle).length = g.nbColumns := by
  unfold GridW.colWidths
  cases hax : g.axis
  · rw [secMain_length]
    unfold GridW.nbSec
    rw [hax]
    rfl
  · rw [primCross_length]
    unfold GridW.nbPrim
    rw [hax]
    rfl

theorem rowHeights_length (g : GridW) (limits : Limits) (oracle : Finset ℕ → List ℕ) :
    (g.rowHeights limits oracle).length = g.nbRows := by
  unfold GridW.rowHeights
  cases hax : g.axis
  · rw [primCross_length]
    unfold GridW.nbPrim
    rw [hax]
    rfl
  · rw [secMain_length]
    unfold GridW.nbSec
    rw [hax]
    rfl

theorem alignOffset_bounds (al : Alignment) (d : ℚ) (hd : 0 ≤ d) :
    0 ≤ alignOffset al d ∧ alignOffset al d ≤ d := by
  cases al <;> unfold alignOffset <;> constructor <;> linarith

theorem trackOffset_nonneg (sizes : List ℚ) (sp : ℚ) (k : ℕ)
    (hsz : ∀ t, 0 ≤ sizes.getD t 0) (hsp : 0 ≤ sp) : 0 ≤ trackOffset sizes sp k := by
  unfold trackOffset
  exact Finset.sum_nonneg fun t _ => add_nonneg (hsz t) hsp

theorem trackOffset_succ_le (sizes : List ℚ) (sp : ℚ)
    (hsz : ∀ t, 0 ≤ sizes.getD t 0) (hsp : 0 ≤ sp) (b b' : ℕ) (h : b < b') :
    trackOffset sizes sp b + sizes.getD b 0 ≤ trackOffset sizes sp b' := by
  unfold trackOffset
  have hle : ∑ t ∈ Finset.range (b + 1), (sizes.getD t 0 + sp)
      ≤ ∑ t ∈ Finset.range b', (sizes.getD t 0 + sp) :=
    Finset.sum_le_sum_of_subset_of_nonneg (Finset.range_subset.mpr h)
      fun t _ _ => add_nonneg (hsz t) hsp
  rw [Finset.sum_range_succ] at hle
  linarith

theorem crossCell_bounds (g : GridW) (hwb : g.AllWellBehaved) (sm : List ℚ)
    (np : ℕ) (i : ℕ) (hi : i < np) (st : CrossState) (j : ℕ)
    (hlen : st.primCross.length = np)
    (hb : NodesBounded g sm st.primCross st.nodes) :
    (crossCell g sm i st j).primCross.length = np ∧
      NodesBounded g sm (crossCell g sm i st j).primCross
        (crossCell g sm i st j).nodes := by
  unfold crossCell
  cases hc : g.cellAt (g.axis.pack i j).1 (g.axis.pack i j).2 with
  | none => exact ⟨hlen, hb⟩
  | some elt =>
    dsimp only
    split
    · refine ⟨by rw [List.length_set]; exact hlen, ?_⟩
      intro a b
      have hwbc := cellAt_wellBehaved g hwb _ _ elt hc
      have hmono : ∀ k, st.primCross.getD k 0 ≤
          (st.primCross.set i
            (max (st.primCross.getD i 0)
              (g.axis.cross (elt.layoutFn (g.axis.pack (sm.getD j 0) st.cross).1
                (g.axis.pack (sm.getD j 0) st.cross).2)))).getD k 0 := by
        intro k
        rcases getD_set_cases st.primCross i k
          (max (st.primCross.getD i 0)
            (g.axis.cross (elt.layoutFn (g.axis.pack (sm.getD j 0) st.cross).1
              (g.axis.pack (sm.getD j 0) st.cross).2))) 0 with ⟨he, hik, _⟩ | he
        · rw [he, ← hik]
          exact le_max_left _ _
        · rw [he]
      rcases setCell_getD_cases st.nodes (g.axis.pack i j).1 (g.axis.pack i j).2 a b
        (elt.layoutFn (g.axis.pack (sm.getD j 0) st.cross).1
          (g.axis.pack (sm.getD j 0) st.cross).2) ⟨0, 0⟩ with
        ⟨ha, hb', _, _, he⟩ | he
      · rw [he]
        subst ha
        subst hb'
        rw [Axis.pack_pack g.axis i j]
        refine ⟨(wellBehaved_main_bounds g.axis elt hwbc (sm.getD j 0) st.cross).1,
          (wellBehaved_cross_bounds g.axis elt hwbc (sm.getD j 0) st.cross).1,
          (wellBehaved_main_bounds g.axis elt hwbc (sm.getD j 0) st.cross).2, ?_⟩
        have hself : (st.primCross.set i
            (max (st.primCross.getD i 0)
              (g.axis.cross (elt.layoutFn (g.axis.pack (sm.getD j 0) st.cross).1
                (g.axis.pack (sm.getD j 0) st.cross).2)))).getD i 0 =
            max (st.primCross.getD i 0)
              (g.axis.cross (elt.layoutFn (g.axis.pack (sm.getD j 0) st.cross).1
                (g.axis.pack (sm.getD j 0) st.cross).2)) :=
          getD_set_self _ i _ 0 (by rw [hlen]; exact hi)
        rw [hself]
        exact le_trans (le_max_right _ _) (le_max_left _ _)
      · rw [he]
        obtain ⟨h1, h2, h3, h4⟩ := hb a b
        exact ⟨h1, h2, h3, le_trans h4 (max_le_max (hmono _) le_rfl)⟩
    · exact ⟨hlen, hb⟩

theorem crossRow_bounds (g : GridW) (hwb : g.AllWellBehaved) (sm : List ℚ)
    (ns np : ℕ) (i : ℕ) (hi : i < np) (st : CrossState)
    (hq : st.primCross.length = np ∧ NodesBounded g sm st.primCross st.nodes) :
    (crossRow g sm ns st i).primCross.length = np ∧
      NodesBounded g sm (crossRow g sm ns st i).primCross
        (crossRow g sm ns st i).nodes := by
  unfold crossRow
  dsimp only
  exact foldl_invariant
    (fun s : CrossState =>
      s.primCross.length = np ∧ NodesBounded g sm s.primCross s.nodes)
    (crossCell g sm i)
    (fun s j hs => crossCell_bounds g hwb sm np i hi s j hs.1 hs.2)
    (List.range ns) st hq

theorem nodesBounded_init (g : GridW) (sm pc : List ℚ) :
    NodesBounded g sm pc (g.rows.map fun r => r.map fun _ => (⟨0, 0⟩ : Size ℚ)) := by
  intro a b
  rw [init_nodes_getD]
  have hm : g.axis.main (⟨0, 0⟩ : Size ℚ) = 0 := by cases g.axis <;> rfl
  have hcr : g.axis.cross (⟨0, 0⟩ : Size ℚ) = 0 := by cases g.axis <;> rfl
  rw [hm, hcr]
  exact ⟨le_refl 0, le_refl 0, le_max_right _ 0, le_max_right _ 0⟩

theorem phaseCross_fold_bounds (g : GridW) (hwb : g.AllWellBehaved) (sm : List ℚ)
    (mc : ℚ) (ns : ℕ) :
    ((List.range g.nbPrim).foldl (crossRow g sm ns)
      (CrossState.mk mc (List.replicate g.nbPrim 0)
        (g.rows.map fun r => r.map fun _ => (⟨0, 0⟩ : Size ℚ)))).primCross.length
          = g.nbPrim ∧
    NodesBounded g sm
      ((List.range g.nbPrim).foldl (crossRow g sm ns)
        (CrossState.mk mc (List.replicate g.nbPrim 0)
          (g.rows.map fun r => r.map fun _ => (⟨0, 0⟩ : Size ℚ)))).primCross
      ((List.range g.nbPrim).foldl (crossRow g sm ns)
        (CrossState.mk mc (List.replicate g.nbPrim 0)
          (g.rows.map fun r => r.map fun _ => (⟨0, 0⟩ : Size ℚ)))).nodes := by
  have hbase := nodesBounded_init g sm (List.replicate g.nbPrim 0)
  generalize hM : (g.rows.map fun r => r.map fun _ => (⟨0, 0⟩ : Size ℚ)) = M
  rw [hM] at hbase
  exact foldl_invariant_mem
    (fun s : CrossState =>
      s.primCross.length = g.nbPrim ∧ NodesBounded g sm s.primCross s.nodes)
    (crossRow g sm ns) (List.range g.nbPrim)
    (fun s i hi hs => crossRow_bounds g hwb sm ns g.nbPrim i (List.mem_range.mp hi) s hs)
    (CrossState.mk mc (List.replicate g.nbPrim 0) M) ⟨by simp, hbase⟩

theorem phaseCross_bounds (g : GridW) (hwb : g.AllWellBehaved) (sm : List ℚ)
    (mc : ℚ) (ns : ℕ) :
    NodesBounded g sm (phaseCross g sm mc g.nbPrim ns).primCross
      (phaseCross g sm mc g.nbPrim ns).nodes := by
  have heq : phaseCross g sm mc g.nbPrim ns =
      (List.range g.nbPrim).foldl (crossRow g sm ns)
        (CrossState.mk mc (List.replicate g.nbPrim 0)
          (g.rows.map fun r => r.map fun _ => (⟨0, 0⟩ : Size ℚ))) := rfl
  rw [heq]
  exact (phaseCross_fold_bounds g hwb sm mc ns).2

theorem nodesBounded_mono (g : GridW) (sm pc pc' : List ℚ)
    (nodes : List (List (Size ℚ))) (h : ∀ k, pc.getD k 0 ≤ pc'.getD k 0)
    (hb : NodesBounded g sm pc nodes) : NodesBounded g sm pc' nodes := by
  intro a b
  obtain ⟨h1, h2, h3, h4⟩ := hb a b
  exact ⟨h1, h2, h3, le_trans h4 (max_le_max (h _) le_rfl)⟩

theorem primCrossMin_le_primCross (g : GridW) (limits : Limits)
    (oracle : Finset ℕ → List ℕ) (k : ℕ) :
    (g.primCrossMin limits oracle).getD k 0 ≤
      (g.primCross limits oracle).getD k 0 := by
  unfold GridW.primCross
  split
  · rcases lt_or_ge k g.nbPrim with h | h
    · exact redistOut_min_le _ _ _ k h
    · have hlen : (g.primCrossMin limits oracle).length = g.nbPrim :=
        phaseCross_primCross_length g _ _ _ _
      rw [getD_oob (g.primCrossMin limits oracle) k 0 (by rw [hlen]; exact h)]
      exact redistOut_nonneg _ _ _ _ fun t => phaseCross_primCross_nonneg g _ _ _ _ t
  · exact le_rfl

theorem fillCell_bounds (g : GridW) (hwb : g.AllWellBehaved) (sm pc : List ℚ)
    (i : ℕ) (nodes : List (List (Size ℚ))) (j : ℕ)
    (hb : NodesBounded g sm pc nodes) :
    NodesBounded g sm pc (fillCell g sm pc i nodes j) := by
  unfold fillCell
  cases hc : g.cellAt (g.axis.pack i j).1 (g.axis.pack i j).2 with
  | none => exact hb
  | some elt =>
    dsimp only
    split
    · intro a b
      have hwbc := cellAt_wellBehaved g hwb _ _ elt hc
      rcases setCell_getD_cases nodes (g.axis.pack i j).1 (g.axis.pack i j).2 a b
        (elt.layoutFn (g.axis.pack (sm.getD j 0) (pc.getD i 0)).1
          (g.axis.pack (sm.getD j 0) (pc.getD i 0)).2) ⟨0, 0⟩ with
        ⟨ha, hb', _, _, he⟩ | he
      · rw [he]
        subst ha
        subst hb'
        rw [Axis.pack_pack g.axis i j]
        exact ⟨(wellBehaved_main_bounds g.axis elt hwbc (sm.getD j 0) (pc.getD i 0)).1,
          (wellBehaved_cross_bounds g.axis elt hwbc (sm.getD j 0) (pc.getD i 0)).1,
          (wellBehaved_main_bounds g.axis elt hwbc (sm.getD j 0) (pc.getD i 0)).2,
          (wellBehaved_cross_bounds g.axis elt hwbc (sm.getD j 0) (pc.getD i 0)).2⟩
      · rw [he]
        exact hb a b
    · exact hb

theorem phaseFill_bounds (g : GridW) (hwb : g.AllWellBehaved) (sm pc : List ℚ)
    (np ns : ℕ) (nodes : List (List (Size ℚ))) (hb : NodesBounded g sm pc nodes) :
    NodesBounded g sm pc (phaseFill g sm pc np ns nodes) := by
  unfold phaseFill
  exact foldl_invariant (NodesBounded g sm pc)
    (fun nds i => (List.range ns).foldl (fillCell g sm pc i) nds)
    (fun nds i h => foldl_invariant (NodesBounded g sm pc) (fillCell g sm pc i)
      (fun nds' j h' => fillCell_bounds g hwb sm pc i nds' j h') (List.range ns) nds h)
    (List.range np) nodes hb

theorem nodeSizes_bounds (g : GridW) (limits : Limits) (oracle : Finset ℕ → List ℕ)
    (hwb : g.AllWellBehaved) :
    NodesBounded g (g.secMain limits oracle) (g.primCross limits oracle)
      (g.nodeSizes limits oracle) := by
  unfold GridW.nodeSizes
  apply phaseFill_bounds g hwb _ _ _ _
  have h1 : NodesBounded g (g.secMain limits oracle)
      (g.crossData limits oracle).primCross (g.crossData limits oracle).nodes := by
    unfold GridW.crossData
    exact phaseCross_bounds g hwb _ _ _
  exact nodesBounded_mono g _ _ _ _
    (fun k => primCrossMin_le_primCross g limits oracle k) h1

theorem crossCell_nodes_shape (g : GridW) (sm : List ℚ) (i : ℕ) (st : CrossState)
    (j : ℕ) :
    (crossCell g sm i st j).nodes.length = st.nodes.length ∧
      ∀ k, ((crossCell g sm i st j).nodes.getD k []).length =
        (st.nodes.getD k []).length := by
  unfold crossCell
  cases hc : g.cellAt (g.axis.pack i j).1 (g.axis.pack i j).2 with
  | none => exact ⟨rfl, fun _ => rfl⟩
  | some elt =>
    dsimp only
    split
    · exact ⟨setCell_length _ _ _ _, fun k => setCell_row_length _ _ _ k _⟩
    · exact ⟨rfl, fun _ => rfl⟩

theorem fillCell_nodes_shape (g : GridW) (sm pc : List ℚ) (i : ℕ)
    (nodes : List (List (Size ℚ))) (j : ℕ) :
    (fillCell g sm pc i nodes j).length = nodes.length ∧
      ∀ k, ((fillCell g sm pc i nodes j).getD k []).length =
        (nodes.getD k []).length := by
  unfold fillCell
  cases hc : g.cellAt (g.axis.pack i j).1 (g.axis.pack i j).2 with
  | none => exact ⟨rfl, fun _ => rfl⟩
  | some elt =>
    dsimp only
    split
    · exact ⟨setCell_length _ _ _ _, fun k => setCell_row_length _ _ _ k _⟩
    · exact ⟨rfl, fun _ => rfl⟩

theorem phaseCross_nodes_shape (g : GridW) (sm : List ℚ) (mc : ℚ) (np ns : ℕ) :
    (phaseCross g sm mc np ns).nodes.length = g.rows.length ∧
      ∀ a, ((phaseCross g sm mc np ns).nodes.getD a []).length =
        (g.rows.getD a []).length := by
  unfold phaseCross
  exact foldl_invariant
    (fun s : CrossState => s.nodes.length = g.rows.length ∧
      ∀ a, (s.nodes.getD a []).length = (g.rows.getD a []).length)
    (crossRow g sm ns)
    (fun s i hs => by
      unfold crossRow
      dsimp only
      exact foldl_invariant
        (fun s2 : CrossState => s2.nodes.length = g.rows.length ∧
          ∀ a, (s2.nodes.getD a []).length = (g.rows.getD a []).length)
        (crossCell g sm i)
        (fun s2 j hs2 =>
          ⟨(crossCell_nodes_shape g sm i s2 j).1.trans hs2.1,
            fun a => ((crossCell_nodes_shape g sm i s2 j).2 a).trans (hs2.2 a)⟩)
        (List.range ns) s hs)
    (List.range np) _ ⟨init_nodes_length g.rows, init_nodes_row_length g.rows⟩

theorem nodeSizes_shape (g : GridW) (limits : Limits) (oracle : Finset ℕ → List ℕ) :
    (g.nodeSizes limits oracle).length = g.rows.length ∧
      ∀ a, ((g.nodeSizes limits oracle).getD a []).length =
        (g.rows.getD a []).length := by
  unfold GridW.nodeSizes
  have hcs : (g.crossData limits oracle).nodes.length = g.rows.length ∧
      ∀ a, ((g.crossData limits oracle).nodes.getD a []).length =
        (g.rows.getD a []).length := by
    unfold GridW.crossData
    exact phaseCross_nodes_shape g _ _ _ _
  unfold phaseFill
  exact foldl_invariant
    (fun nds : List (List (Size ℚ)) => nds.length = g.rows.length ∧
      ∀ a, (nds.getD a []).length = (g.rows.getD a []).length)
    (fun nds i => (List.range g.nbSec).foldl
      (fillCell g (g.secMain limits oracle) (g.primCross limits oracle) i) nds)
    (fun nds i h => foldl_invariant
      (fun nds2 : List (List (Size ℚ)) => nds2.length = g.rows.length ∧
        ∀ a, (nds2.getD a []).length = (g.rows.getD a []).length)
      (fillCell g (g.secMain limits oracle) (g.primCross limits oracle) i)
      (fun nds2 j h2 =>
        ⟨(fillCell_nodes_shape g _ _ i nds2 j).1.trans h2.1,
          fun a => ((fillCell_nodes_shape g _ _ i nds2 j).2 a).trans (h2.2 a)⟩)
      (List.range g.nbSec) nds h)
    (List.range g.nbPrim) _ hcs

theorem trackOffset_add_le_sum (sizes : List ℚ) (sp : ℚ)
    (hsz : ∀ t, 0 ≤ sizes.getD t 0) (hsp : 0 ≤ sp) (b n : ℕ) (hb : b < n)
    (hlen : sizes.length = n) :
    trackOffset sizes sp b + sizes.getD b 0 ≤ sizes.sum + sp * ((n - 1 : ℕ) : ℚ) := by
  unfold trackOffset
  rw [Finset.sum_add_distrib, Finset.sum_const, nsmul_eq_mul, Finset.card_range]
  have h1 : ∑ t ∈ Finset.range b, sizes.getD t 0 + sizes.getD b 0
      ≤ ∑ t ∈ Finset.range n, sizes.getD t 0 := by
    have hs := Finset.sum_le_sum_of_subset_of_nonneg
      (Finset.range_subset.mpr (show b + 1 ≤ n from hb)) fun t _ _ => hsz t
    rw [Finset.sum_range_succ] at hs
    linarith
  have h2 : (b : ℚ) * sp ≤ ((n - 1 : ℕ) : ℚ) * sp := by
    apply mul_le_mul_of_nonneg_right _ hsp
    exact_mod_cast (show b ≤ n - 1 by omega)
  rw [sum_getD_of_length sizes n hlen] at h1
  rw [mul_comm sp (((n - 1 : ℕ) : ℚ))]
  linarith

theorem placeCells_getD (g : GridW) (sm pc : List ℚ) (a : ℕ) (y : ℚ) :
    ∀ (szs : List (Size ℚ)) (b : ℕ) (x : ℚ) (k : ℕ), k < szs.length →
      (placeCells g sm pc a y b x szs).getD k ⟨0, 0, 0, 0⟩ =
        { x := x + (∑ t ∈ Finset.range k, (cellBoxW g sm pc a (b + t) + g.columnSpacing))
              + alignOffset g.horizontalAlign
                  (cellBoxW g sm pc a (b + k) - (szs.getD k ⟨0, 0⟩).width)
          y := y + alignOffset g.verticalAlign
                  (cellBoxH g sm pc a (b + k) - (szs.getD k ⟨0, 0⟩).height)
          width := (szs.getD k ⟨0, 0⟩).width
          height := (szs.getD k ⟨0, 0⟩).height }
  | [], _, _, k, hk => absurd hk (by simp)
  | sz :: rest, b, x, 0, _ => by
    simp only [List.getD_cons_zero, Finset.range_zero, Finset.sum_empty, Nat.add_zero,
      add_zero]
    rfl
  | sz :: rest, b, x, k + 1, hk => by
    have hrec := placeCells_getD g sm pc a y rest (b + 1)
      (x + cellBoxW g sm pc a b + g.columnSpacing) k (by simpa using hk)
    have hstep : (placeCells g sm pc a y b x (sz :: rest)).getD (k + 1) ⟨0, 0, 0, 0⟩ =
        (placeCells g sm pc a y (b + 1) (x + cellBoxW g sm pc a b + g.columnSpacing)
          rest).getD k ⟨0, 0, 0, 0⟩ := by
      simp only [placeCells, List.getD_cons_succ]
      rfl
    rw [hstep, hrec, List.getD_cons_succ, Rect.mk.injEq]
    refine ⟨?_, ?_, rfl, rfl⟩
    · rw [Finset.sum_range_succ']
      simp only [show ∀ t, b + 1 + t = b + (t + 1) from fun t => by omega, Nat.add_zero]
      ring
    · rw [show b + 1 + k = b + (k + 1) from by omega]

theorem placeRows_getD (g : GridW) (sm pc : List ℚ) :
    ∀ (nds : List (List (Size ℚ))) (a0 : ℕ) (y : ℚ) (k : ℕ), k < nds.length →
      (placeRows g sm pc a0 y nds).getD k [] =
        placeCells g sm pc (a0 + k)
          (y + ∑ t ∈ Finset.range k, (rowExtent g sm pc (a0 + t) + g.rowSpacing))
          0 g.padding.left (nds.getD k [])
  | [], _, _, k, hk => absurd hk (by simp)
  | row :: rest, a0, y, 0, _ => by
    simp only [List.getD_cons_zero, Finset.range_zero, Finset.sum_empty, Nat.add_zero,
      add_zero]
    rfl
  | row :: rest, a0, y, k + 1, hk => by
    have hrec := placeRows_getD g sm pc rest (a0 + 1)
      (y + rowExtent g sm pc a0 + g.rowSpacing) k (by simpa using hk)
    have hstep : (placeRows g sm pc a0 y (row :: rest)).getD (k + 1) [] =
        (placeRows g sm pc (a0 + 1) (y + rowExtent g sm pc a0 + g.rowSpacing)
          rest).getD k [] := by
      simp only [placeRows, List.getD_cons_succ]
      rfl
    rw [hstep, hrec, List.getD_cons_succ]
    rw [show a0 + 1 + k = a0 + (k + 1) from by omega]
    congr 1
    rw [Finset.sum_range_succ']
    simp only [show ∀ t, a0 + 1 + t = a0 + (t + 1) from fun t => by omega, Nat.add_zero]
    ring

theorem cellBoxW_eq (g : GridW) (limits : Limits) (oracle : Finset ℕ → List ℕ) :
    ∀ a b : ℕ, cellBoxW g (g.secMain limits oracle) (g.primCross limits oracle) a b
      = (g.colWidths limits oracle).getD b 0 := by
  intro a b
  unfold cellBoxW GridW.colWidths
  cases hax : g.axis <;> simp [Axis.pack]

theorem cellBoxH_eq (g : GridW) (limits : Limits) (oracle : Finset ℕ → List ℕ) :
    ∀ a b : ℕ, cellBoxH g (g.secMain limits oracle) (g.primCross limits oracle) a b
      = (g.rowHeights limits oracle).getD a 0 := by
  intro a b
  unfold cellBoxH GridW.rowHeights
  cases hax : g.axis <;> simp [Axis.pack]

theorem rowExtent_eq (g : GridW) (limits : Limits) (oracle : Finset ℕ → List ℕ) :
    ∀ t : ℕ, rowExtent g (g.secMain limits oracle) (g.primCross limits oracle) t
      = (g.rowHeights limits oracle).getD t 0 := by
  intro t
  unfold rowExtent GridW.rowHeights
  cases hax : g.axis <;> rfl

theorem rectAt_eq (g : GridW) (limits : Limits) (oracle : Finset ℕ → List ℕ)
    (a b : ℕ) (ha : a < g.rows.length) (hb : b < (g.rows.getD a []).length) :
    g.rectAt limits oracle a b =
      { x := g.padding.left + trackOffset (g.colWidths limits oracle) g.columnSpacing b
            + alignOffset g.horizontalAlign
                ((g.colWidths limits oracle).getD b 0
                  - (((g.nodeSizes limits oracle).getD a []).getD b ⟨0, 0⟩).width)
        y := g.padding.top + trackOffset (g.rowHeights limits oracle) g.rowSpacing a
            + alignOffset g.verticalAlign
                ((g.rowHeights limits oracle).getD a 0
                  - (((g.nodeSizes limits oracle).getD a []).getD b ⟨0, 0⟩).height)
        width := (((g.nodeSizes limits oracle).getD a []).getD b ⟨0, 0⟩).width
        height := (((g.nodeSizes limits oracle).getD a []).getD b ⟨0, 0⟩).height } := by
  obtain ⟨hlen, hrow⟩ := nodeSizes_shape g limits oracle
  have ha' : a < (g.nodeSizes limits oracle).length := by
    rw [hlen]
    exact ha
  have hb' : b < ((g.nodeSizes limits oracle).getD a []).length := by
    rw [hrow a]
    exact hb
  unfold GridW.rectAt GridW.cells
  rw [placeRows_getD g (g.secMain limits oracle) (g.primCross limits oracle)
    (g.nodeSizes limits oracle) 0 g.padding.top a ha']
  rw [placeCells_getD g (g.secMain limits oracle) (g.primCross limits oracle) (0 + a)
    (g.padding.top + ∑ t ∈ Finset.range a,
      (rowExtent g (g.secMain limits oracle) (g.primCross limits oracle) (0 + t)
        + g.rowSpacing))
    ((g.nodeSizes limits oracle).getD a []) 0 g.padding.left b hb']
  simp only [Nat.zero_add]
  rw [Rect.mk.injEq]
  refine ⟨?_, ?_, rfl, rfl⟩
  · simp only [cellBoxW_eq g limits oracle]
    unfold trackOffset
    ring
  · simp only [cellBoxH_eq g limits oracle, rowExtent_eq g limits oracle]
    unfold trackOffset
    ring

theorem nodeSizes_wh_bounds (g : GridW) (limits : Limits)
    (oracle : Finset ℕ → List ℕ) (hwb : g.AllWellBehaved) (a b : ℕ) :
    0 ≤ (((g.nodeSizes limits oracle).getD a []).getD b ⟨0, 0⟩).width ∧
    0 ≤ (((g.nodeSizes limits oracle).getD a []).getD b ⟨0, 0⟩).height ∧
    (((g.nodeSizes limits oracle).getD a []).getD b ⟨0, 0⟩).width
      ≤ (g.colWidths limits oracle).getD b 0 ∧
    (((g.nodeSizes limits oracle).getD a []).getD b ⟨0, 0⟩).height
      ≤ (g.rowHeights limits oracle).getD a 0 := by
  have h := nodeSizes_bounds g limits oracle hwb a b
  cases hax : g.axis
  case horizontal =>
    rw [hax] at h
    simp only [Axis.main, Axis.cross, Axis.pack] at h
    have hcw : (g.colWidths limits oracle).getD b 0
        = (g.secMain limits oracle).getD b 0 := by
      unfold GridW.colWidths
      rw [hax]
    have hrh : (g.rowHeights limits oracle).getD a 0
        = (g.primCross limits oracle).getD a 0 := by
      unfold GridW.rowHeights
      rw [hax]
    refine ⟨h.1, h.2.1, ?_, ?_⟩
    · rw [hcw]
      exact le_trans h.2.2.1 (le_of_eq (max_eq_left (secMain_nonneg g limits oracle b)))
    · rw [hrh]
      exact le_trans h.2.2.2 (le_of_eq (max_eq_left (primCross_nonneg g limits oracle a)))
  case vertical =>
    rw [hax] at h
    simp only [Axis.main, Axis.cross, Axis.pack] at h
    have hcw : (g.colWidths limits oracle).getD b 0
        = (g.primCross limits oracle).getD b 0 := by
      unfold GridW.colWidths
      rw [hax]
    have hrh : (g.rowHeights limits oracle).getD a 0
        = (g.secMain limits oracle).getD a 0 := by
      unfold GridW.rowHeights
      rw [hax]
    refine ⟨h.2.1, h.1, ?_, ?_⟩
    · rw [hcw]
      exact le_trans h.2.2.2 (le_of_eq (max_eq_left (primCross_nonneg g limits oracle b)))
    · rw [hrh]
      exact le_trans h.2.2.1 (le_of_eq (max_eq_left (secMain_nonneg g limits oracle a)))

theorem rectAt_in_cellBox (g : GridW) (limits : Limits) (oracle : Finset ℕ → List ℕ)
    (hwb : g.AllWellBehaved) (a b : ℕ) (c : Child) (hc : g.cellAt a b = some c) :
    Rect.ContainedIn (g.rectAt limits oracle a b) (g.cellBox limits oracle a b) := by
  obtain ⟨ha, hb⟩ := cellAt_lt g a b c hc
  rw [rectAt_eq g limits oracle a b ha hb]
  obtain ⟨hw0, hh0, hwle, hhle⟩ := nodeSizes_wh_bounds g limits oracle hwb a b
  obtain ⟨hoh0, hohle⟩ := alignOffset_bounds g.horizontalAlign
    ((g.colWidths limits oracle).getD b 0
      - (((g.nodeSizes limits oracle).getD a []).getD b ⟨0, 0⟩).width) (by linarith)
  obtain ⟨hov0, hovle⟩ := alignOffset_bounds g.verticalAlign
    ((g.rowHeights limits oracle).getD a 0
      - (((g.nodeSizes limits oracle).getD a []).getD b ⟨0, 0⟩).height) (by linarith)
  unfold Rect.ContainedIn GridW.cellBox
  dsimp only
  exact ⟨by linarith, by linarith, by linarith, by linarith⟩

theorem intrinsicWidth_eq (g : GridW) (limits : Limits)
    (oracle : Finset ℕ → List ℕ) :
    g.intrinsicWidth limits oracle = (g.colWidths limits oracle).sum
      + g.columnSpacing * ((g.nbColumns - 1 : ℕ) : ℚ) := by
  unfold GridW.intrinsicWidth GridW.colWidths GridW.mainTotalSpacing
    GridW.crossTotalSpacing GridW.mainSpacing GridW.crossSpacing GridW.nbSec
    GridW.nbPrim
  cases hax : g.axis <;> simp [Axis.pack]

theorem intrinsicHeight_eq (g : GridW) (limits : Limits)
    (oracle : Finset ℕ → List ℕ) :
    g.intrinsicHeight limits oracle = (g.rowHeights limits oracle).sum
      + g.rowSpacing * ((g.nbRows - 1 : ℕ) : ℚ) := by
  unfold GridW.intrinsicHeight GridW.rowHeights GridW.mainTotalSpacing
    GridW.crossTotalSpacing GridW.mainSpacing GridW.crossSpacing GridW.nbSec
    GridW.nbPrim
  cases hax : g.axis <;> simp [Axis.pack]

theorem rectAt_in_paddedBox (g : GridW) (limits : Limits)
    (oracle : Finset ℕ → List ℕ) (hwb : g.AllWellBehaved)
    (hcs : 0 ≤ g.columnSpacing) (hrs : 0 ≤ g.rowSpacing)
    (hfw : g.intrinsicWidth limits oracle + g.padding.horizontal
      ≤ (g.totalSize limits oracle).width)
    (hfh : g.intrinsicHeight limits oracle + g.padding.vertical
      ≤ (g.totalSize limits oracle).height)
    (a b : ℕ) (c : Child) (hc : g.cellAt a b = some c) :
    Rect.ContainedIn (g.rectAt limits oracle a b) (g.paddedBox limits oracle) := by
  obtain ⟨ha, hb⟩ := cellAt_lt g a b c hc
  obtain ⟨hx1, hy1, hx2, hy2⟩ := rectAt_in_cellBox g limits oracle hwb a b c hc
  unfold GridW.cellBox at hx1 hy1 hx2 hy2
  dsimp only at hx1 hy1 hx2 hy2
  have hbcol : b < g.nbColumns := lt_of_lt_of_le hb (nbColumns_ge g a)
  have harow : a < g.nbRows := ha
  have htoW := trackOffset_add_le_sum (g.colWidths limits oracle) g.columnSpacing
    (fun t => colWidths_nonneg g limits oracle t) hcs b g.nbColumns hbcol
    (colWidths_length g limits oracle)
  have htoH := trackOffset_add_le_sum (g.rowHeights limits oracle) g.rowSpacing
    (fun t => rowHeights_nonneg g limits oracle t) hrs a g.nbRows harow
    (rowHeights_length g limits oracle)
  have ht0W := trackOffset_nonneg (g.colWidths limits oracle) g.columnSpacing b
    (fun t => colWidths_nonneg g limits oracle t) hcs
  have ht0H := trackOffset_nonneg (g.rowHeights limits oracle) g.rowSpacing a
    (fun t => rowHeights_nonneg g limits oracle t) hrs
  rw [intrinsicWidth_eq g limits oracle] at hfw
  rw [intrinsicHeight_eq g limits oracle] at hfh
  unfold Rect.ContainedIn GridW.paddedBox
  dsimp only
  refine ⟨by linarith, by linarith, by linarith, by linarith⟩

theorem rect_disjoint_comm (r s : Rect) (h : Rect.Disjoint r s) : Rect.Disjoint s r := by
  unfold Rect.Disjoint at h ⊢
  tauto

theorem rectAt_disjoint_col (g : GridW) (limits : Limits)
    (oracle : Finset ℕ → List ℕ) (hwb : g.AllWellBehaved)
    (hcs : 0 ≤ g.columnSpacing) (a b a' b' : ℕ) (c c' : Child)
    (hc : g.cellAt a b = some c) (hc' : g.cellAt a' b' = some c') (hlt : b < b') :
    Rect.Disjoint (g.rectAt limits oracle a b) (g.rectAt limits oracle a' b') := by
  obtain ⟨hx1, _, hx2, _⟩ := rectAt_in_cellBox g limits oracle hwb a b c hc
  obtain ⟨hx1', _, _, _⟩ := rectAt_in_cellBox g limits oracle hwb a' b' c' hc'
  unfold GridW.cellBox at hx1 hx2 hx1'
  dsimp only at hx1 hx2 hx1'
  have hsep := trackOffset_succ_le (g.colWidths limits oracle) g.columnSpacing
    (fun t => colWidths_nonneg g limits oracle t) hcs b b' hlt
  left
  linarith

theorem rectAt_disjoint_row (g : GridW) (limits : Limits)
    (oracle : Finset ℕ → List ℕ) (hwb : g.AllWellBehaved)
    (hrs : 0 ≤ g.rowSpacing) (a b a' b' : ℕ) (c c' : Child)
    (hc : g.cellAt a b = some c) (hc' : g.cellAt a' b' = some c') (hlt : a < a') :
    Rect.Disjoint (g.rectAt limits oracle a b) (g.rectAt limits oracle a' b') := by
  obtain ⟨_, hy1, _, hy2⟩ := rectAt_in_cellBox g limits oracle hwb a b c hc
  obtain ⟨_, hy1', _, _⟩ := rectAt_in_cellBox g limits oracle hwb a' b' c' hc'
  unfold GridW.cellBox at hy1 hy2 hy1'
  dsimp only at hy1 hy2 hy1'
  have hsep := trackOffset_succ_le (g.rowHeights limits oracle) g.rowSpacing
    (fun t => rowHeights_nonneg g limits oracle t) hrs a a' hlt
  right
  right
  left
  linarith

/-- C2 (amended): for a grid of well-behaved children with non-negative
spacings whose intrinsic content (plus padding) fits inside the resolved
total size, the positioning pass yields rectangles that (a) stay within the
uniform per-column/per-row cell boxes — all cells of a column share that
column's box width and all cells of a row share that row's box height —,
(b) stay within the grid's padded content box, and (c) are pairwise
non-intersecting for distinct cells. -/
theorem cells_geometry (g : GridW) (limits : Limits) (oracle : Finset ℕ → List ℕ)
    (hwb : g.AllWellBehaved) (hcs : 0 ≤ g.columnSpacing) (hrs : 0 ≤ g.rowSpacing)
    (hfw : g.intrinsicWidth limits oracle + g.padding.horizontal
      ≤ (g.totalSize limits oracle).width)
    (hfh : g.intrinsicHeight limits oracle + g.padding.vertical
      ≤ (g.totalSize limits oracle).height) :
    (∀ a b : ℕ, (g.cellBox limits oracle a b).width
        = (g.colWidths limits oracle).getD b 0 ∧
      (g.cellBox limits oracle a b).height
        = (g.rowHeights limits oracle).getD a 0) ∧
    (∀ a b c, g.cellAt a b = some c →
      Rect.ContainedIn (g.rectAt limits oracle a b) (g.cellBox limits oracle a b)) ∧
    (∀ a b c, g.cellAt a b = some c →
      Rect.ContainedIn (g.rectAt limits oracle a b) (g.paddedBox limits oracle)) ∧
    (∀ a b a' b' c c', g.cellAt a b = some c → g.cellAt a' b' = some c' →
      ¬(a = a' ∧ b = b') →
      Rect.Disjoint (g.rectAt limits oracle a b) (g.rectAt limits oracle a' b')) := by
  refine ⟨fun a b => ⟨rfl, rfl⟩,
    fun a b c hc => rectAt_in_cellBox g limits oracle hwb a b c hc,
    fun a b c hc => rectAt_in_paddedBox g limits oracle hwb hcs hrs hfw hfh a b c hc,
    fun a b a' b' c c' hc hc' hne => ?_⟩
  rcases Nat.lt_trichotomy b b' with hb | hb | hb
  · exact rectAt_disjoint_col g limits oracle hwb hcs a b a' b' c c' hc hc' hb
  · subst hb
    rcases Nat.lt_trichotomy a a' with ha | ha | ha
    · exact rectAt_disjoint_row g limits oracle hwb hrs a b a' b c c' hc hc' ha
    · exact absurd ⟨ha, rfl⟩ hne
    · exact rect_disjoint_comm _ _
        (rectAt_disjoint_row g limits oracle hwb hrs a' b a b c' c hc' hc ha)
  · exact rect_disjoint_comm _ _
      (rectAt_disjoint_col g limits oracle hwb hcs a' b' a b c' c hc' hc hb)

/-- Witness for the amended C2: the two cells of a fitting fill-width row
grid produce disjoint rectangles inside the padded box. -/
theorem cells_geometry_witness :
    0 ≤ gridFillRow.columnSpacing ∧
    gridFillRow.intrinsicWidth limitsEx defaultOracle
        + gridFillRow.padding.horizontal
      ≤ (gridFillRow.totalSize limitsEx defaultOracle).width ∧
    Rect.ContainedIn (gridFillRow.rectAt limitsEx defaultOracle 0 0)
      (gridFillRow.paddedBox limitsEx defaultOracle) ∧
    Rect.Disjoint (gridFillRow.rectAt limitsEx defaultOracle 0 0)
      (gridFillRow.rectAt limitsEx defaultOracle 0 1) :=
  have h := cells_geometry gridFillRow limitsEx defaultOracle gridFillRow_wellBehaved
    (by decide) (by decide) (by decide) (by decide)
  ⟨by decide, by decide,
    h.2.2.1 0 0 (clampedChild 30 10) rfl,
    h.2.2.2 0 0 0 1 (clampedChild 30 10) (clampedChild 20 10) rfl rfl (by decide)⟩

/-- Counterexample to C2 as stated: for the shrink-sized grid of two
greedy-height rows, the rectangle of the cell in row 1 lies below the
grid's padded content box — the cross budget of the measuring pass starts
at the raw `max_cross` and ignores the inter-row spacing, while the total
size is clamped into the limits — so unconditional containment fails even
for well-behaved children and non-negative spacings. -/
theorem cells_geometry_counterexample :
    gridGreedyRows.AllWellBehaved ∧
    0 ≤ gridGreedyRows.columnSpacing ∧ 0 ≤ gridGreedyRows.rowSpacing ∧
    gridGreedyRows.cellAt 1 0 = some (greedyHeightChild 10) ∧
    ¬ Rect.ContainedIn (gridGreedyRows.rectAt limitsEx defaultOracle 1 0)
        (gridGreedyRows.paddedBox limitsEx defaultOracle) :=
  ⟨gridGreedyRows_wellBehaved, by decide, by decide, rfl, by
    unfold Rect.ContainedIn
    decide⟩

/-!
Axis equivalence for limit-independent children (claim C9): generic
fold-tracking machinery, closed forms of the per-track folds, and the
symmetric correspondence between the horizontal and the vertical pipeline.
-/

theorem foldl_track {α β γ : Type} (step : α → β → α) (f : α → γ) (stepV : γ → β → γ)
    (P : α → Prop) (hP : ∀ s x, P s → P (step s x)) :
    ∀ (l : List β), (∀ s x, x ∈ l → P s → f (step s x) = stepV (f s) x) →
      ∀ s, P s → f (l.foldl step s) = l.foldl stepV (f s)
  | [], _, _, _ => rfl
  | x :: t, hf, s, hs => by
    rw [List.foldl_cons, List.foldl_cons, ← hf s x (List.mem_cons_self x t) hs]
    exact foldl_track step f stepV P hP t
      (fun s' y hy hs' => hf s' y (List.mem_cons_of_mem x hy) hs') (step s x)
      (hP s x hs)

theorem foldl_f_const {α β γ : Type} (step : α → β → α) (f : α → γ) (P : α → Prop)
    (hP : ∀ s x, P s → P (step s x)) :
    ∀ (l : List β), (∀ s x, x ∈ l → P s → f (step s x) = f s) →
      ∀ s, P s → f (l.foldl step s) = f s
  | [], _, _, _ => rfl
  | x :: t, hconst, s, hs => by
    rw [List.foldl_cons,
      foldl_f_const step f P hP t
        (fun s' y hy hs' => hconst s' y (List.mem_cons_of_mem x hy) hs') (step s x)
        (hP s x hs)]
    exact hconst s x (List.mem_cons_self x t) hs

theorem foldl_f_once {α β γ : Type} (step : α → β → α) (f : α → γ) (P : α → Prop)
    (hP : ∀ s x, P s → P (step s x)) (x0 : β) (v : γ → γ) :
    ∀ (l : List β), l.Nodup → x0 ∈ l →
      (∀ s x, x ∈ l → x ≠ x0 → P s → f (step s x) = f s) →
      (∀ s, P s → f (step s x0) = v (f s)) →
      ∀ s, P s → f (l.foldl step s) = v (f s)
  | [], _, hmem, _, _, _, _ => absurd hmem (List.not_mem_nil x0)
  | x :: t, hnd, hmem, hother, hat, s, hs => by
    rw [List.foldl_cons]
    rcases List.mem_cons.mp hmem with heq | hx0t
    · subst heq
      have hnx : x0 ∉ t := (List.nodup_cons.mp hnd).1
      rw [foldl_f_const step f P hP t
        (fun s' y hy hs' => hother s' y (List.mem_cons_of_mem x0 hy)
          (fun e => hnx (e ▸ hy)) hs') (step s x0) (hP s x0 hs)]
      exact hat s hs
    · have hxx0 : x ≠ x0 := fun e => (List.nodup_cons.mp hnd).1 (by rw [e]; exact hx0t)
      rw [foldl_f_once step f P hP x0 v t (List.nodup_cons.mp hnd).2 hx0t
        (fun s' y hy => hother s' y (List.mem_cons_of_mem x hy)) hat (step s x)
        (hP s x hs)]
      rw [hother s x (List.mem_cons_self x t) hxx0 hs]

theorem pack_lt (ax : Axis) (a b nr nc : ℕ) (ha : a < nr) (hb : b < nc) :
    (ax.pack a b).1 < (ax.pack nr nc).1 ∧ (ax.pack a b).2 < (ax.pack nr nc).2 := by
  cases ax
  · exact ⟨ha, hb⟩
  · exact ⟨hb, ha⟩

theorem pack_eq_of_proj {α : Type} (ax : Axis) (i j a b : α)
    (h1 : (ax.pack i j).1 = a) (h2 : (ax.pack i j).2 = b) :
    (i, j) = ax.pack a b := by
  have hpk : ax.pack i j = (a, b) := Prod.ext h1 h2
  calc (i, j) = ax.pack (ax.pack i j).1 (ax.pack i j).2 := (Axis.pack_pack ax i j).symm
    _ = ax.pack a b := by rw [hpk]

theorem phase1Cell_secMainFactor_other (g : GridW) (ca : ℚ) (j : ℕ)
    (st : Phase1State) (i : ℕ) (k : ℕ) (hk : k ≠ j) :
    (phase1Cell g ca j st i).secMainFactor.getD k 0 = st.secMainFactor.getD k 0 := by
  unfold phase1Cell
  cases hc : g.cellAt (g.axis.pack i j).1 (g.axis.pack i j).2 with
  | none => rfl
  | some elt =>
    dsimp only
    split
    · exact getD_set_ne _ _ _ _ _ fun e => hk e.symm
    · exact getD_set_ne _ _ _ _ _ fun e => hk e.symm

theorem phase1Cell_primCrossFactor_other (g : GridW) (ca : ℚ) (j : ℕ)
    (st : Phase1State) (i : ℕ) (k : ℕ) (hk : k ≠ i) :
    (phase1Cell g ca j st i).primCrossFactor.getD k 0 =
      st.primCrossFactor.getD k 0 := by
  unfold phase1Cell
  cases hc : g.cellAt (g.axis.pack i j).1 (g.axis.pack i j).2 with
  | none => rfl
  | some elt =>
    dsimp only
    split
    · exact getD_set_ne _ _ _ _ _ fun e => hk e.symm
    · exact getD_set_ne _ _ _ _ _ fun e => hk e.symm

theorem phase1Cell_secMain_at (g : GridW) (hconst : g.AllConst) (ca : ℚ) (j : ℕ)
    (st : Phase1State) (i : ℕ) (hj : j < st.secMain.length) :
    (phase1Cell g ca j st i).secMain.getD j 0 =
      mainMinStep g j (st.secMain.getD j 0) i := by
  unfold phase1Cell mainMinStep
  cases hc : g.cellAt (g.axis.pack i j).1 (g.axis.pack i j).2 with
  | none => rfl
  | some elt =>
    dsimp only
    have hcc : ConstChild elt := by
      obtain ⟨r, hr, hcr⟩ := cellAt_mem g _ _ elt hc
      exact hconst r hr elt hcr
    split
    case isTrue h =>
      dsimp only
      rw [getD_set_self _ _ _ _ hj, hcc _ _]
    case isFalse h =>
      dsimp only

theorem phase1Cell_secMainFactor_at (g : GridW) (ca : ℚ) (j : ℕ)
    (st : Phase1State) (i : ℕ) (hj : j < st.secMainFactor.length) :
    (phase1Cell g ca j st i).secMainFactor.getD j 0 =
      mainFacStep g j (st.secMainFactor.getD j 0) i := by
  unfold phase1Cell mainFacStep
  cases hc : g.cellAt (g.axis.pack i j).1 (g.axis.pack i j).2 with
  | none => rfl
  | some elt =>
    dsimp only
    split
    · dsimp only
      exact getD_set_self _ _ _ _ hj
    · dsimp only
      exact getD_set_self _ _ _ _ hj

theorem phase1Cell_primCrossFactor_at (g : GridW) (ca : ℚ) (j : ℕ)
    (st : Phase1State) (i : ℕ) (hi : i < st.primCrossFactor.length) :
    (phase1Cell g ca j st i).primCrossFactor.getD i 0 =
      crossFacStep g i (st.primCrossFactor.getD i 0) j := by
  unfold phase1Cell crossFacStep
  cases hc : g.cellAt (g.axis.pack i j).1 (g.axis.pack i j).2 with
  | none => rfl
  | some elt =>
    dsimp only
    split
    · dsimp only
      exact getD_set_self _ _ _ _ hi
    · dsimp only
      exact getD_set_self _ _ _ _ hi

theorem crossCell_primCross_other (g : GridW) (sm : List ℚ) (i : ℕ)
    (st : CrossState) (j : ℕ) (k : ℕ) (hk : k ≠ i) :
    (crossCell g sm i st j).primCross.getD k 0 = st.primCross.getD k 0 := by
  unfold crossCell
  cases hc : g.cellAt (g.axis.pack i j).1 (g.axis.pack i j).2 with
  | none => rfl
  | some elt =>
    dsimp only
    split
    · exact getD_set_ne _ _ _ _ _ fun e => hk e.symm
    · rfl

theorem crossCell_primCross_at (g : GridW) (hconst : g.AllConst) (sm : List ℚ)
    (i : ℕ) (st : CrossState) (j : ℕ) (hi : i < st.primCross.length) :
    (crossCell g sm i st j).primCross.getD i 0 =
      crossMinStep g i (st.primCross.getD i 0) j := by
  unfold crossCell crossMinStep
  cases hc : g.cellAt (g.axis.pack i j).1 (g.axis.pack i j).2 with
  | none => rfl
  | some elt =>
    dsimp only
    have hcc : ConstChild elt := by
      obtain ⟨r, hr, hcr⟩ := cellAt_mem g _ _ elt hc
      exact hconst r hr elt hcr
    split
    case isTrue h =>
      dsimp only
      rw [getD_set_self _ _ _ _ hi, hcc _ _]
    case isFalse h =>
      dsimp only

theorem phase1_secMain_value (g : GridW) (hconst : g.AllConst) (ma ca : ℚ)
    (np ns : ℕ) (j : ℕ) (hj : j < ns) :
    (phase1 g ma ca np ns).secMain.getD j 0 =
      (List.range np).foldl (mainMinStep g j) 0 := by
  unfold phase1
  have hcol_at : ∀ st : Phase1State, st.secMain.length = ns →
      (phase1Col g ca np st j).secMain.getD j 0 =
        (List.range np).foldl (mainMinStep g j) (st.secMain.getD j 0) := by
    intro st hlen
    unfold phase1Col
    dsimp only
    exact foldl_track (phase1Cell g ca j) (fun s => s.secMain.getD j 0)
      (mainMinStep g j) (fun s : Phase1State => s.secMain.length = ns)
      (fun s i hs => (phase1Cell_secMain_length g ca j s i).trans hs)
      (List.range np)
      (fun s i _ hs => phase1Cell_secMain_at g hconst ca j s i (by rw [hs]; exact hj))
      st hlen
  rw [foldl_f_once (phase1Col g ca np) (fun s : Phase1State => s.secMain.getD j 0)
    (fun s : Phase1State => s.secMain.length = ns)
    (fun s j' hs => (phase1Col_secMain_length g ca np s j').trans hs)
    j (fun m => (List.range np).foldl (mainMinStep g j) m)
    (List.range ns) (List.nodup_range ns) (List.mem_range.mpr hj)
    (fun s j' _ hne hs => phase1Col_secMain_other g ca np s j' j (fun e => hne e.symm))
    (fun s hs => hcol_at s hs) _ (by simp)]
  rw [getD_replicate]

theorem phase1_secMainFactor_value (g : GridW) (ma ca : ℚ) (np ns : ℕ) (j : ℕ)
    (hj : j < ns) :
    (phase1 g ma ca np ns).secMainFactor.getD j 0 =
      (List.range np).foldl (mainFacStep g j) 0 := by
  unfold phase1
  have hcol_at : ∀ st : Phase1State, st.secMainFactor.length = ns →
      (phase1Col g ca np st j).secMainFactor.getD j 0 =
        (List.range np).foldl (mainFacStep g j) (st.secMainFactor.getD j 0) := by
    intro st hlen
    unfold phase1Col
    dsimp only
    exact foldl_track (phase1Cell g ca j) (fun s => s.secMainFactor.getD j 0)
      (mainFacStep g j) (fun s : Phase1State => s.secMainFactor.length = ns)
      (fun s i hs => (phase1Cell_secMainFactor_length g ca j s i).trans hs)
      (List.range np)
      (fun s i _ hs => phase1Cell_secMainFactor_at g ca j s i (by rw [hs]; exact hj))
      st hlen
  have hcol_other : ∀ (st : Phase1State) (j' : ℕ), j' ≠ j →
      st.secMainFactor.length = ns →
      (phase1Col g ca np st j').secMainFactor.getD j 0 =
        st.secMainFactor.getD j 0 := by
    intro st j' hne hlen
    unfold phase1Col
    dsimp only
    exact foldl_f_const (phase1Cell g ca j')
      (fun s : Phase1State => s.secMainFactor.getD j 0)
      (fun s : Phase1State => s.secMainFactor.length = ns)
      (fun s i hs => (phase1Cell_secMainFactor_length g ca j' s i).trans hs)
      (List.range np)
      (fun s i _ hs => phase1Cell_secMainFactor_other g ca j' s i j
        (fun e => hne e.symm))
      st hlen
  rw [foldl_f_once (phase1Col g ca np)
    (fun s : Phase1State => s.secMainFactor.getD j 0)
    (fun s : Phase1State => s.secMainFactor.length = ns)
    (fun s j' hs => (phase1Col_secMainFactor_length g ca np s j').trans hs)
    j (fun m => (List.range np).foldl (mainFacStep g j) m)
    (List.range ns) (List.nodup_range ns) (List.mem_range.mpr hj)
    (fun s j' _ hne hs => hcol_other s j' hne hs)
    (fun s hs => hcol_at s hs) _ (by simp)]
  rw [getD_replicate]

theorem phase1_primCrossFactor_value (g : GridW) (ma ca : ℚ) (np ns : ℕ) (i : ℕ)
    (hi : i < np) :
    (phase1 g ma ca np ns).primCrossFactor.getD i 0 =
      (List.range ns).foldl (crossFacStep g i) 0 := by
  unfold phase1
  have hcol : ∀ (st : Phase1State) (j : ℕ), st.primCrossFactor.length = np →
      (phase1Col g ca np st j).primCrossFactor.getD i 0 =
        crossFacStep g i (st.primCrossFactor.getD i 0) j := by
    intro st j hlen
    unfold phase1Col
    dsimp only
    exact foldl_f_once (phase1Cell g ca j)
      (fun s : Phase1State => s.primCrossFactor.getD i 0)
      (fun s : Phase1State => s.primCrossFactor.length = np)
      (fun s i' hs => (phase1Cell_primCrossFactor_length g ca j s i').trans hs)
      i (fun m => crossFacStep g i m j)
      (List.range np) (List.nodup_range np) (List.mem_range.mpr hi)
      (fun s i' _ hne hs => phase1Cell_primCrossFactor_other g ca j s i' i
        (fun e => hne e.symm))
      (fun s hs => phase1Cell_primCrossFactor_at g ca j s i (by rw [hs]; exact hi))
      st hlen
  rw [foldl_track (phase1Col g ca np)
    (fun s : Phase1State => s.primCrossFactor.getD i 0) (crossFacStep g i)
    (fun s : Phase1State => s.primCrossFactor.length = np)
    (fun s j hs => (phase1Col_primCrossFactor_length g ca np s j).trans hs)
    (List.range ns) (fun s j _ hs => hcol s j hs) _ (by simp)]
  rw [getD_replicate]

theorem phaseCross_primCross_value (g : GridW) (hconst : g.AllConst) (sm : List ℚ)
    (mc : ℚ) (np ns : ℕ) (i : ℕ) (hi : i < np) :
    (phaseCross g sm mc np ns).primCross.getD i 0 =
      (List.range ns).foldl (crossMinStep g i) 0 := by
  unfold phaseCross
  have hrow_at : ∀ st : CrossState, st.primCross.length = np →
      (crossRow g sm ns st i).primCross.getD i 0 =
        (List.range ns).foldl (crossMinStep g i) (st.primCross.getD i 0) := by
    intro st hlen
    unfold crossRow
    dsimp only
    exact foldl_track (crossCell g sm i) (fun s : CrossState => s.primCross.getD i 0)
      (crossMinStep g i) (fun s : CrossState => s.primCross.length = np)
      (fun s j hs => (crossCell_primCross_length g sm i s j).trans hs)
      (List.range ns)
      (fun s j _ hs => crossCell_primCross_at g hconst sm i s j (by rw [hs]; exact hi))
      st hlen
  have hrow_other : ∀ (st : CrossState) (i' : ℕ), i' ≠ i →
      st.primCross.length = np →
      (crossRow g sm ns st i').primCross.getD i 0 = st.primCross.getD i 0 := by
    intro st i' hne hlen
    unfold crossRow
    dsimp only
    exact foldl_f_const (crossCell g sm i')
      (fun s : CrossState => s.primCross.getD i 0)
      (fun s : CrossState => s.primCross.length = np)
      (fun s j hs => (crossCell_primCross_length g sm i' s j).trans hs)
      (List.range ns)
      (fun s j _ hs => crossCell_primCross_other g sm i' s j i (fun e => hne e.symm))
      st hlen
  rw [foldl_f_once (crossRow g sm ns) (fun s : CrossState => s.primCross.getD i 0)
    (fun s : CrossState => s.primCross.length = np)
    (fun s i' hs => (crossRow_primCross_length g sm ns s i').trans hs)
    i (fun m => (List.range ns).foldl (crossMinStep g i) m)
    (List.range np) (List.nodup_range np) (List.mem_range.mpr hi)
    (fun s i' _ hne hs => hrow_other s i' hne hs)
    (fun s hs => hrow_at s hs) _ (by simp)]
  rw [getD_replicate]

theorem getD_eq_getElem {α : Type} (l : List α) (d : α) (i : ℕ) (h : i < l.length) :
    l.getD i d = l[i] := by
  rw [List.getD_eq_getElem?_getD, List.getElem?_eq_getElem h]
  rfl

theorem list_eq_of_getD {α : Type} (l1 l2 : List α) (d : α)
    (hlen : l1.length = l2.length)
    (h : ∀ k, k < l1.length → l1.getD k d = l2.getD k d) : l1 = l2 := by
  apply List.ext_getElem hlen
  intro i h1 h2
  rw [← getD_eq_getElem l1 d i h1, ← getD_eq_getElem l2 d i h2]
  exact h i h1

theorem minW_bridge (g : GridW) (b : ℕ) :
    mainMinStep (g.withAxis Axis.horizontal) b =
      crossMinStep (g.withAxis Axis.vertical) b := by
  funext m t
  unfold mainMinStep crossMinStep
  rfl

theorem minH_bridge (g : GridW) (a : ℕ) :
    mainMinStep (g.withAxis Axis.vertical) a =
      crossMinStep (g.withAxis Axis.horizontal) a := by
  funext m t
  unfold mainMinStep crossMinStep
  rfl

theorem facW_bridge (g : GridW) (b : ℕ) :
    mainFacStep (g.withAxis Axis.horizontal) b =
      crossFacStep (g.withAxis Axis.vertical) b := by
  funext m t
  unfold mainFacStep crossFacStep
  rfl

theorem facH_bridge (g : GridW) (a : ℕ) :
    mainFacStep (g.withAxis Axis.vertical) a =
      crossFacStep (g.withAxis Axis.horizontal) a := by
  funext m t
  unfold mainFacStep crossFacStep
  rfl

theorem width_mins_eq (g : GridW) (hconst : g.AllConst) (limits : Limits)
    (oracle : Finset ℕ → List ℕ) :
    (g.withAxis Axis.horizontal).secMainMin limits =
      (g.withAxis Axis.vertical).primCrossMin limits oracle := by
  have hlen1 : ((g.withAxis Axis.horizontal).secMainMin limits).length
      = g.nbColumns := phase1_secMain_length _ _ _ _ _
  have hlen2 : ((g.withAxis Axis.vertical).primCrossMin limits oracle).length
      = g.nbColumns := phaseCross_primCross_length _ _ _ _ _
  apply list_eq_of_getD _ _ 0 (hlen1.trans hlen2.symm)
  intro k hk
  rw [hlen1] at hk
  unfold GridW.secMainMin GridW.phase1Data GridW.primCrossMin GridW.crossData
  rw [phase1_secMain_value (g.withAxis Axis.horizontal) hconst
      ((g.withAxis Axis.horizontal).mainAvail limits)
      ((g.withAxis Axis.horizontal).crossAvail limits)
      (g.withAxis Axis.horizontal).nbPrim (g.withAxis Axis.horizontal).nbSec k hk,
    phaseCross_primCross_value (g.withAxis Axis.vertical) hconst
      ((g.withAxis Axis.vertical).secMain limits oracle)
      ((g.withAxis Axis.vertical).maxCross limits)
      (g.withAxis Axis.vertical).nbPrim (g.withAxis Axis.vertical).nbSec k hk,
    minW_bridge g k]
  rfl

theorem height_mins_eq (g : GridW) (hconst : g.AllConst) (limits : Limits)
    (oracle : Finset ℕ → List ℕ) :
    (g.withAxis Axis.vertical).secMainMin limits =
      (g.withAxis Axis.horizontal).primCrossMin limits oracle := by
  have hlen1 : ((g.withAxis Axis.vertical).secMainMin limits).length
      = g.nbRows := phase1_secMain_length _ _ _ _ _
  have hlen2 : ((g.withAxis Axis.horizontal).primCrossMin limits oracle).length
      = g.nbRows := phaseCross_primCross_length _ _ _ _ _
  apply list_eq_of_getD _ _ 0 (hlen1.trans hlen2.symm)
  intro k hk
  rw [hlen1] at hk
  unfold GridW.secMainMin GridW.phase1Data GridW.primCrossMin GridW.crossData
  rw [phase1_secMain_value (g.withAxis Axis.vertical) hconst
      ((g.withAxis Axis.vertical).mainAvail limits)
      ((g.withAxis Axis.vertical).crossAvail limits)
      (g.withAxis Axis.vertical).nbPrim (g.withAxis Axis.vertical).nbSec k hk,
    phaseCross_primCross_value (g.withAxis Axis.horizontal) hconst
      ((g.withAxis Axis.horizontal).secMain limits oracle)
      ((g.withAxis Axis.horizontal).maxCross limits)
      (g.withAxis Axis.horizontal).nbPrim (g.withAxis Axis.horizontal).nbSec k hk,
    minH_bridge g k]
  rfl

theorem width_facs_eq (g : GridW) (limits : Limits) :
    (g.withAxis Axis.horizontal).secMainFactorL limits =
      (g.withAxis Axis.vertical).primCrossFactorL limits := by
  have hlen1 : ((g.withAxis Axis.horizontal).secMainFactorL limits).length
      = g.nbColumns := phase1_secMainFactor_length _ _ _ _ _
  have hlen2 : ((g.withAxis Axis.vertical).primCrossFactorL limits).length
      = g.nbColumns := phase1_primCrossFactor_length _ _ _ _ _
  apply list_eq_of_getD _ _ 0 (hlen1.trans hlen2.symm)
  intro k hk
  rw [hlen1] at hk
  unfold GridW.secMainFactorL GridW.primCrossFactorL GridW.phase1Data
  rw [phase1_secMainFactor_value (g.withAxis Axis.horizontal)
      ((g.withAxis Axis.horizontal).mainAvail limits)
      ((g.withAxis Axis.horizontal).crossAvail limits)
      (g.withAxis Axis.horizontal).nbPrim (g.withAxis Axis.horizontal).nbSec k hk,
    phase1_primCrossFactor_value (g.withAxis Axis.vertical)
      ((g.withAxis Axis.vertical).mainAvail limits)
      ((g.withAxis Axis.vertical).crossAvail limits)
      (g.withAxis Axis.vertical).nbPrim (g.withAxis Axis.vertical).nbSec k hk,
    facW_bridge g k]
  rfl

theorem height_facs_eq (g : GridW) (limits : Limits) :
    (g.withAxis Axis.vertical).secMainFactorL limits =
      (g.withAxis Axis.horizontal).primCrossFactorL limits := by
  have hlen1 : ((g.withAxis Axis.vertical).secMainFactorL limits).length
      = g.nbRows := phase1_secMainFactor_length _ _ _ _ _
  have hlen2 : ((g.withAxis Axis.horizontal).primCrossFactorL limits).length
      = g.nbRows := phase1_primCrossFactor_length _ _ _ _ _
  apply list_eq_of_getD _ _ 0 (hlen1.trans hlen2.symm)
  intro k hk
  rw [hlen1] at hk
  unfold GridW.secMainFactorL GridW.primCrossFactorL GridW.phase1Data
  rw [phase1_secMainFactor_value (g.withAxis Axis.vertical)
      ((g.withAxis Axis.vertical).mainAvail limits)
      ((g.withAxis Axis.vertical).crossAvail limits)
      (g.withAxis Axis.vertical).nbPrim (g.withAxis Axis.vertical).nbSec k hk,
    phase1_primCrossFactor_value (g.withAxis Axis.horizontal)
      ((g.withAxis Axis.horizontal).mainAvail limits)
      ((g.withAxis Axis.horizontal).crossAvail limits)
      (g.withAxis Axis.horizontal).nbPrim (g.withAxis Axis.horizontal).nbSec k hk,
    facH_bridge g k]
  rfl

theorem width_tracks_eq (g : GridW) (hconst : g.AllConst) (limits : Limits)
    (oracle : Finset ℕ → List ℕ) :
    (g.withAxis Axis.horizontal).secMain limits oracle
      = (g.withAxis Axis.vertical).primCross limits oracle := by
  have hmins := width_mins_eq g hconst limits oracle
  have hfacs := width_facs_eq g limits
  unfold GridW.secMain GridW.primCross
  by_cases hw : g.width = Length.shrink
  · rw [if_neg (fun hne => hne
        (show (g.withAxis Axis.horizontal).mainLength = Length.shrink from hw)),
      if_neg (fun hne => hne
        (show (g.withAxis Axis.vertical).crossLength = Length.shrink from hw))]
    exact hmins
  · rw [if_pos (show (g.withAxis Axis.horizontal).mainLength ≠ Length.shrink from
        fun e => hw e),
      if_pos (show (g.withAxis Axis.vertical).crossLength ≠ Length.shrink from
        fun e => hw e)]
    unfold GridW.mainRState GridW.crossRState
    rw [hmins, hfacs]
    rfl

theorem height_tracks_eq (g : GridW) (hconst : g.AllConst) (limits : Limits)
    (oracle : Finset ℕ → List ℕ) :
    (g.withAxis Axis.vertical).secMain limits oracle
      = (g.withAxis Axis.horizontal).primCross limits oracle := by
  have hmins := height_mins_eq g hconst limits oracle
  have hfacs := height_facs_eq g limits
  unfold GridW.secMain GridW.primCross
  by_cases hh : g.height = Length.shrink
  · rw [if_neg (fun hne => hne
        (show (g.withAxis Axis.vertical).mainLength = Length.shrink from hh)),
      if_neg (fun hne => hne
        (show (g.withAxis Axis.horizontal).crossLength = Length.shrink from hh))]
    exact hmins
  · rw [if_pos (show (g.withAxis Axis.vertical).mainLength ≠ Length.shrink from
        fun e => hh e),
      if_pos (show (g.withAxis Axis.horizontal).crossLength ≠ Length.shrink from
        fun e => hh e)]
    unfold GridW.mainRState GridW.crossRState
    rw [hmins, hfacs]
    rfl

theorem colWidths_axis (g : GridW) (hconst : g.AllConst) (limits : Limits)
    (oracle : Finset ℕ → List ℕ) :
    (g.withAxis Axis.horizontal).colWidths limits oracle
      = (g.withAxis Axis.vertical).colWidths limits oracle := by
  show (g.withAxis Axis.horizontal).secMain limits oracle
      = (g.withAxis Axis.vertical).primCross limits oracle
  exact width_tracks_eq g hconst limits oracle

theorem rowHeights_axis (g : GridW) (hconst : g.AllConst) (limits : Limits)
    (oracle : Finset ℕ → List ℕ) :
    (g.withAxis Axis.horizontal).rowHeights limits oracle
      = (g.withAxis Axis.vertical).rowHeights limits oracle := by
  show (g.withAxis Axis.horizontal).primCross limits oracle
      = (g.withAxis Axis.vertical).secMain limits oracle
  exact (height_tracks_eq g hconst limits oracle).symm

theorem setCell_getD_self {α : Type} (nss : List (List α)) (a b : ℕ) (v d : α)
    (ha : a < nss.length) (hb : b < (nss.getD a []).length) :
    ((setCell nss a b v).getD a []).getD b d = v := by
  unfold setCell
  rw [getD_set_self _ _ _ _ ha, getD_set_self _ _ _ _ hb]

theorem crossCell_node_other (g : GridW) (sm : List ℚ) (i : ℕ) (st : CrossState)
    (j : ℕ) (a b : ℕ) (hne : (i, j) ≠ g.axis.pack a b) :
    ((crossCell g sm i st j).nodes.getD a []).getD b ⟨0, 0⟩ =
      (st.nodes.getD a []).getD b ⟨0, 0⟩ := by
  unfold crossCell
  cases hc : g.cellAt (g.axis.pack i j).1 (g.axis.pack i j).2 with
  | none => rfl
  | some elt =>
    dsimp only
    split
    · rcases setCell_getD_cases st.nodes (g.axis.pack i j).1 (g.axis.pack i j).2 a b
        (elt.layoutFn (g.axis.pack (sm.getD j 0) st.cross).1
          (g.axis.pack (sm.getD j 0) st.cross).2) ⟨0, 0⟩ with
        ⟨h1, h2, _, _, _⟩ | he
      · exact absurd (pack_eq_of_proj g.axis i j a b h1 h2) hne
      · exact he
    · rfl

theorem crossCell_node_at (g : GridW) (hconst : g.AllConst) (sm : List ℚ)
    (st : CrossState) (a b : ℕ) (c0 : Child) (hcell : g.cellAt a b = some c0)
    (hlen : st.nodes.length = g.rows.length)
    (hrow : ∀ k, (st.nodes.getD k []).length = (g.rows.getD k []).length) :
    ((crossCell g sm (g.axis.pack a b).1 st (g.axis.pack a b).2).nodes.getD
        a []).getD b ⟨0, 0⟩ =
      if (g.axis.cross c0.sizeLen).fillFactor = 0 then c0.layoutFn 0 0
      else (st.nodes.getD a []).getD b ⟨0, 0⟩ := by
  obtain ⟨ha, hb⟩ := cellAt_lt g a b c0 hcell
  have hcc : ConstChild c0 := by
    obtain ⟨r, hr, hcr⟩ := cellAt_mem g a b c0 hcell
    exact hconst r hr c0 hcr
  have hsc : g.cellAt (g.axis.pack (g.axis.pack a b).1 (g.axis.pack a b).2).1
      (g.axis.pack (g.axis.pack a b).1 (g.axis.pack a b).2).2 = some c0 := by
    rw [Axis.pack_pack g.axis a b]
    exact hcell
  unfold crossCell
  rw [hsc]
  dsimp only
  split
  case isTrue h =>
    rw [Axis.pack_pack g.axis a b]
    rw [setCell_getD_self st.nodes a b _ ⟨0, 0⟩ (by rw [hlen]; exact ha)
      (by rw [hrow a]; exact hb)]
    exact hcc _ _
  case isFalse h => rfl

theorem crossRow_node_other (g : GridW) (sm : List ℚ) (ns : ℕ) (st : CrossState)
    (i : ℕ) (a b : ℕ) (hne : i ≠ (g.axis.pack a b).1) :
    ((crossRow g sm ns st i).nodes.getD a []).getD b ⟨0, 0⟩ =
      (st.nodes.getD a []).getD b ⟨0, 0⟩ := by
  unfold crossRow
  dsimp only
  exact foldl_f_const (crossCell g sm i)
    (fun s : CrossState => (s.nodes.getD a []).getD b ⟨0, 0⟩)
    (fun _ : CrossState => True) (fun _ _ _ => trivial)
    (List.range ns)
    (fun s j _ _ => crossCell_node_other g sm i s j a b
      (fun e => hne (congrArg Prod.fst e)))
    st trivial

theorem crossRow_node_at (g : GridW) (hconst : g.AllConst) (sm : List ℚ) (ns : ℕ)
    (st : CrossState) (a b : ℕ) (c0 : Child) (hcell : g.cellAt a b = some c0)
    (hjns : (g.axis.pack a b).2 < ns)
    (hsh : st.nodes.length = g.rows.length ∧
      ∀ k, (st.nodes.getD k []).length = (g.rows.getD k []).length) :
    ((crossRow g sm ns st (g.axis.pack a b).1).nodes.getD a []).getD b ⟨0, 0⟩ =
      if (g.axis.cross c0.sizeLen).fillFactor = 0 then c0.layoutFn 0 0
      else (st.nodes.getD a []).getD b ⟨0, 0⟩ := by
  unfold crossRow
  dsimp only
  exact foldl_f_once (crossCell g sm (g.axis.pack a b).1)
    (fun s : CrossState => (s.nodes.getD a []).getD b ⟨0, 0⟩)
    (fun s : CrossState => s.nodes.length = g.rows.length ∧
      ∀ k, (s.nodes.getD k []).length = (g.rows.getD k []).length)
    (fun s j hs => ⟨(crossCell_nodes_shape g sm _ s j).1.trans hs.1,
      fun k => ((crossCell_nodes_shape g sm _ s j).2 k).trans (hs.2 k)⟩)
    (g.axis.pack a b).2
    (fun m => if (g.axis.cross c0.sizeLen).fillFactor = 0 then c0.layoutFn 0 0 else m)
    (List.range ns) (List.nodup_range ns) (List.mem_range.mpr hjns)
    (fun s j _ hne _ => crossCell_node_other g sm (g.axis.pack a b).1 s j a b
      (fun e => hne (congrArg Prod.snd e)))
    (fun s hs => crossCell_node_at g hconst sm s a b c0 hcell hs.1 hs.2)
    st hsh

theorem phaseCross_node_value (g : GridW) (hconst : g.AllConst) (sm : List ℚ)
    (mc : ℚ) (np ns : ℕ) (a b : ℕ) (c0 : Child) (hcell : g.cellAt a b = some c0)
    (hinp : (g.axis.pack a b).1 < np) (hjns : (g.axis.pack a b).2 < ns) :
    (((phaseCross g sm mc np ns).nodes.getD a []).getD b ⟨0, 0⟩) =
      if (g.axis.cross c0.sizeLen).fillFactor = 0 then c0.layoutFn 0 0
      else ⟨0, 0⟩ := by
  unfold phaseCross
  rw [foldl_f_once (crossRow g sm ns)
    (fun s : CrossState => (s.nodes.getD a []).getD b ⟨0, 0⟩)
    (fun s : CrossState => s.nodes.length = g.rows.length ∧
      ∀ k, (s.nodes.getD k []).length = (g.rows.getD k []).length)
    (fun s i hs => by
      unfold crossRow
      dsimp only
      exact foldl_invariant
        (fun s2 : CrossState => s2.nodes.length = g.rows.length ∧
          ∀ k, (s2.nodes.getD k []).length = (g.rows.getD k []).length)
        (crossCell g sm i)
        (fun s2 j hs2 => ⟨(crossCell_nodes_shape g sm i s2 j).1.trans hs2.1,
          fun k => ((crossCell_nodes_shape g sm i s2 j).2 k).trans (hs2.2 k)⟩)
        (List.range ns) s hs)
    (g.axis.pack a b).1
    (fun m => if (g.axis.cross c0.sizeLen).fillFactor = 0 then c0.layoutFn 0 0 else m)
    (List.range np) (List.nodup_range np) (List.mem_range.mpr hinp)
    (fun s i _ hne _ => crossRow_node_other g sm ns s i a b hne)
    (fun s hs => crossRow_node_at g hconst sm ns s a b c0 hcell hjns hs)
    _ ⟨init_nodes_length g.rows, init_nodes_row_length g.rows⟩]
  rw [init_nodes_getD]

theorem fillCell_node_other (g : GridW) (sm pc : List ℚ) (i : ℕ)
    (nodes : List (List (Size ℚ))) (j : ℕ) (a b : ℕ)
    (hne : (i, j) ≠ g.axis.pack a b) :
    ((fillCell g sm pc i nodes j).getD a []).getD b ⟨0, 0⟩ =
      (nodes.getD a []).getD b ⟨0, 0⟩ := by
  unfold fillCell
  cases hc : g.cellAt (g.axis.pack i j).1 (g.axis.pack i j).2 with
  | none => rfl
  | some elt =>
    dsimp only
    split
    · rcases setCell_getD_cases nodes (g.axis.pack i j).1 (g.axis.pack i j).2 a b
        (elt.layoutFn (g.axis.pack (sm.getD j 0) (pc.getD i 0)).1
          (g.axis.pack (sm.getD j 0) (pc.getD i 0)).2) ⟨0, 0⟩ with
        ⟨h1, h2, _, _, _⟩ | he
      · exact absurd (pack_eq_of_proj g.axis i j a b h1 h2) hne
      · exact he
    · rfl

theorem fillCell_node_at (g : GridW) (hconst : g.AllConst) (sm pc : List ℚ)
    (nodes : List (List (Size ℚ))) (a b : ℕ) (c0 : Child)
    (hcell : g.cellAt a b = some c0)
    (hlen : nodes.length = g.rows.length)
    (hrow : ∀ k, (nodes.getD k []).length = (g.rows.getD k []).length) :
    ((fillCell g sm pc (g.axis.pack a b).1 nodes (g.axis.pack a b).2).getD
        a []).getD b ⟨0, 0⟩ =
      if (g.axis.cross c0.sizeLen).fillFactor ≠ 0 then c0.layoutFn 0 0
      else (nodes.getD a []).getD b ⟨0, 0⟩ := by
  obtain ⟨ha, hb⟩ := cellAt_lt g a b c0 hcell
  have hcc : ConstChild c0 := by
    obtain ⟨r, hr, hcr⟩ := cellAt_mem g a b c0 hcell
    exact hconst r hr c0 hcr
  have hsc : g.cellAt (g.axis.pack (g.axis.pack a b).1 (g.axis.pack a b).2).1
      (g.axis.pack (g.axis.pack a b).1 (g.axis.pack a b).2).2 = some c0 := by
    rw [Axis.pack_pack g.axis a b]
    exact hcell
  unfold fillCell
  rw [hsc]
  dsimp only
  split
  case isTrue h =>
    rw [Axis.pack_pack g.axis a b]
    rw [setCell_getD_self nodes a b _ ⟨0, 0⟩ (by rw [hlen]; exact ha)
      (by rw [hrow a]; exact hb)]
    exact hcc _ _
  case isFalse h => rfl

theorem phaseFill_node_value (g : GridW) (hconst : g.AllConst) (sm pc : List ℚ)
    (np ns : ℕ) (nodes : List (List (Size ℚ))) (a b : ℕ) (c0 : Child)
    (hcell : g.cellAt a b = some c0)
    (hinp : (g.axis.pack a b).1 < np) (hjns : (g.axis.pack a b).2 < ns)
    (hsh : nodes.length = g.rows.length ∧
      ∀ k, (nodes.getD k []).length = (g.rows.getD k []).length) :
    ((phaseFill g sm pc np ns nodes).getD a []).getD b ⟨0, 0⟩ =
      if (g.axis.cross c0.sizeLen).fillFactor ≠ 0 then c0.layoutFn 0 0
      else (nodes.getD a []).getD b ⟨0, 0⟩ := by
  unfold phaseFill
  exact foldl_f_once
    (fun nds i => (List.range ns).foldl (fillCell g sm pc i) nds)
    (fun nds : List (List (Size ℚ)) => (nds.getD a []).getD b ⟨0, 0⟩)
    (fun nds : List (List (Size ℚ)) => nds.length = g.rows.length ∧
      ∀ k, (nds.getD k []).length = (g.rows.getD k []).length)
    (fun nds i h => foldl_invariant
      (fun nds2 : List (List (Size ℚ)) => nds2.length = g.rows.length ∧
        ∀ k, (nds2.getD k []).length = (g.rows.getD k []).length)
      (fillCell g sm pc i)
      (fun nds2 j h2 => ⟨(fillCell_nodes_shape g sm pc i nds2 j).1.trans h2.1,
        fun k => ((fillCell_nodes_shape g sm pc i nds2 j).2 k).trans (h2.2 k)⟩)
      (List.range ns) nds h)
    (g.axis.pack a b).1
    (fun m => if (g.axis.cross c0.sizeLen).fillFactor ≠ 0 then c0.layoutFn 0 0 else m)
    (List.range np) (List.nodup_range np) (List.mem_range.mpr hinp)
    (fun nds i _ hne h => foldl_f_const (fillCell g sm pc i)
      (fun nds2 : List (List (Size ℚ)) => (nds2.getD a []).getD b ⟨0, 0⟩)
      (fun _ : List (List (Size ℚ)) => True) (fun _ _ _ => trivial)
      (List.range ns)
      (fun nds2 j _ _ => fillCell_node_other g sm pc i nds2 j a b
        (fun e => hne (congrArg Prod.fst e)))
      nds trivial)
    (fun nds h => by
      refine foldl_f_once (fillCell g sm pc (g.axis.pack a b).1)
        (fun nds2 : List (List (Size ℚ)) => (nds2.getD a []).getD b ⟨0, 0⟩)
        (fun nds2 : List (List (Size ℚ)) => nds2.length = g.rows.length ∧
          ∀ k, (nds2.getD k []).length = (g.rows.getD k []).length)
        (fun nds2 j h2 => ⟨(fillCell_nodes_shape g sm pc _ nds2 j).1.trans h2.1,
          fun k => ((fillCell_nodes_shape g sm pc _ nds2 j).2 k).trans (h2.2 k)⟩)
        (g.axis.pack a b).2
        (fun m => if (g.axis.cross c0.sizeLen).fillFactor ≠ 0 then c0.layoutFn 0 0
          else m)
        (List.range ns) (List.nodup_range ns) (List.mem_range.mpr hjns)
        (fun nds2 j _ hne h2 => fillCell_node_other g sm pc _ nds2 j a b
          (fun e => hne (congrArg Prod.snd e)))
        (fun nds2 h2 => fillCell_node_at g hconst sm pc nds2 a b c0 hcell h2.1 h2.2)
        nds h)
    nodes hsh

theorem nodeSizes_getD_const (g : GridW) (hconst : g.AllConst) (limits : Limits)
    (oracle : Finset ℕ → List ℕ) (a b : ℕ) (c0 : Child)
    (hcell : g.cellAt a b = some c0) :
    ((g.nodeSizes limits oracle).getD a []).getD b ⟨0, 0⟩ = c0.layoutFn 0 0 := by
  obtain ⟨ha, hb⟩ := cellAt_lt g a b c0 hcell
  have hbc : b < g.nbColumns := lt_of_lt_of_le hb (nbColumns_ge g a)
  have hlt := pack_lt g.axis a b g.nbRows g.nbColumns ha hbc
  have hshc : (g.crossData limits oracle).nodes.length = g.rows.length ∧
      ∀ k, ((g.crossData limits oracle).nodes.getD k []).length =
        (g.rows.getD k []).length := by
    unfold GridW.crossData
    exact phaseCross_nodes_shape g _ _ _ _
  unfold GridW.nodeSizes
  rw [phaseFill_node_value g hconst (g.secMain limits oracle)
    (g.primCross limits oracle) g.nbPrim g.nbSec ((g.crossData limits oracle).nodes)
    a b c0 hcell (show (g.axis.pack a b).1 < g.nbPrim from hlt.1)
    (show (g.axis.pack a b).2 < g.nbSec from hlt.2) hshc]
  have hcv : ((g.crossData limits oracle).nodes.getD a []).getD b ⟨0, 0⟩ =
      if (g.axis.cross c0.sizeLen).fillFactor = 0 then c0.layoutFn 0 0
      else ⟨0, 0⟩ := by
    unfold GridW.crossData
    exact phaseCross_node_value g hconst _ _ _ _ a b c0 hcell hlt.1 hlt.2
  rw [hcv]
  by_cases hf : (g.axis.cross c0.sizeLen).fillFactor = 0
  · rw [if_neg (fun hne => hne hf), if_pos hf]
  · rw [if_pos hf]

theorem map_rows_row_length {α β : Type} (f : α → β) :
    ∀ (rows : List (List α)) (a : ℕ),
      ((rows.map fun r => r.map f).getD a []).length = (rows.getD a []).length
  | [], _ => rfl
  | _ :: _, 0 => by simp
  | _ :: t, a + 1 => map_rows_row_length f t a

theorem rows_getD_cellAt (g : GridW) (a b : ℕ) (ha : a < g.rows.length)
    (hb : b < (g.rows.getD a []).length) :
    ∃ c : Child, g.cellAt a b = some c ∧
      ∀ (f : Child → Size ℚ) (d : Size ℚ),
        ((g.rows.map fun r => r.map f).getD a []).getD b d = f c := by
  cases ho : g.rows.get? a with
  | none =>
    rw [List.get?_eq_none] at ho
    omega
  | some r =>
    have hra : g.rows.getD a [] = r := by
      rw [List.getD_eq_getElem?_getD, ← List.get?_eq_getElem?, ho]
      rfl
    rw [hra] at hb
    cases hcb : r.get? b with
    | none =>
      rw [List.get?_eq_none] at hcb
      omega
    | some c =>
      refine ⟨c, ?_, ?_⟩
      · unfold GridW.cellAt
        rw [ho]
        simpa using hcb
      · intro f d
        have h1 : (g.rows.map fun r => r.map f).getD a [] = r.map f := by
          rw [List.getD_eq_getElem?_getD, List.getElem?_map, ← List.get?_eq_getElem?,
            ho]
          rfl
        rw [h1, List.getD_eq_getElem?_getD, List.getElem?_map,
          ← List.get?_eq_getElem?, hcb]
        rfl

theorem nodeSizes_const (g : GridW) (hconst : g.AllConst) (limits : Limits)
    (oracle : Finset ℕ → List ℕ) :
    g.nodeSizes limits oracle = g.rows.map fun r => r.map fun c => c.layoutFn 0 0 := by
  obtain ⟨hlen, hrow⟩ := nodeSizes_shape g limits oracle
  apply list_eq_of_getD _ _ []
  · rw [hlen]
    simp
  · intro a ha'
    have ha : a < g.rows.length := by
      rw [hlen] at ha'
      exact ha'
    apply list_eq_of_getD _ _ ⟨0, 0⟩
    · rw [hrow a, map_rows_row_length]
    · intro bb hbb
      have hbb' : bb < (g.rows.getD a []).length := by
        rw [hrow a] at hbb
        exact hbb
      obtain ⟨c, hcell, hmap⟩ := rows_getD_cellAt g a bb ha hbb'
      rw [hmap (fun c => c.layoutFn 0 0) ⟨0, 0⟩]
      exact nodeSizes_getD_const g hconst limits oracle a bb c hcell

theorem placeCells_length (g : GridW) (sm pc : List ℚ) (a : ℕ) (y : ℚ) :
    ∀ (b : ℕ) (x : ℚ) (szs : List (Size ℚ)),
      (placeCells g sm pc a y b x szs).length = szs.length
  | _, _, [] => rfl
  | b, x, sz :: rest => by
    simp only [placeCells, List.length_cons]
    exact congrArg (· + 1) (placeCells_length g sm pc a y (b + 1) _ rest)

theorem placeRows_length (g : GridW) (sm pc : List ℚ) :
    ∀ (nds : List (List (Size ℚ))) (a0 : ℕ) (y : ℚ),
      (placeRows g sm pc a0 y nds).length = nds.length
  | [], _, _ => rfl
  | row :: rest, a0, y => by
    simp only [placeRows, List.length_cons]
    exact congrArg (· + 1) (placeRows_length g sm pc rest (a0 + 1) _)

theorem cells_shape (g : GridW) (limits : Limits) (oracle : Finset ℕ → List ℕ) :
    (g.cells limits oracle).length = g.rows.length ∧
      ∀ a, ((g.cells limits oracle).getD a []).length = (g.rows.getD a []).length := by
  obtain ⟨hlen, hrow⟩ := nodeSizes_shape g limits oracle
  constructor
  · unfold GridW.cells
    rw [placeRows_length]
    exact hlen
  · intro a
    unfold GridW.cells
    rcases lt_or_ge a g.rows.length with ha | ha
    · rw [placeRows_getD g _ _ (g.nodeSizes limits oracle) 0 g.padding.top a
        (by rw [hlen]; exact ha), placeCells_length]
      exact hrow a
    · rw [getD_oob _ a [] (by rw [placeRows_length, hlen]; exact ha),
        getD_oob g.rows a [] ha]
      rfl

theorem cells_axis_eq (g : GridW) (hconst : g.AllConst) (limits : Limits)
    (oracle : Finset ℕ → List ℕ) :
    (g.withAxis Axis.horizontal).cells limits oracle
      = (g.withAxis Axis.vertical).cells limits oracle := by
  have hsh1 := cells_shape (g.withAxis Axis.horizontal) limits oracle
  have hsh2 := cells_shape (g.withAxis Axis.vertical) limits oracle
  apply list_eq_of_getD _ _ []
  · rw [hsh1.1]
    exact (hsh2.1).symm
  · intro a ha'
    have ha : a < g.rows.length := by
      rw [hsh1.1] at ha'
      exact ha'
    apply list_eq_of_getD _ _ ⟨0, 0, 0, 0⟩
    · rw [hsh1.2 a]
      exact (hsh2.2 a).symm
    · intro b hb'
      have hb : b < (g.rows.getD a []).length := by
        rw [hsh1.2 a] at hb'
        exact hb'
      show (g.withAxis Axis.horizontal).rectAt limits oracle a b
          = (g.withAxis Axis.vertical).rectAt limits oracle a b
      rw [rectAt_eq (g.withAxis Axis.horizontal) limits oracle a b ha hb,
        rectAt_eq (g.withAxis Axis.vertical) limits oracle a b ha hb,
        colWidths_axis g hconst limits oracle, rowHeights_axis g hconst limits oracle,
        nodeSizes_const (g.withAxis Axis.horizontal) hconst limits oracle,
        nodeSizes_const (g.withAxis Axis.vertical) hconst limits oracle]
      rfl

theorem totalSize_axis_eq (g : GridW) (hconst : g.AllConst) (limits : Limits)
    (oracle : Finset ℕ → List ℕ) :
    (g.withAxis Axis.horizontal).totalSize limits oracle
      = (g.withAxis Axis.vertical).totalSize limits oracle := by
  unfold GridW.totalSize
  rw [intrinsicWidth_eq, intrinsicWidth_eq, intrinsicHeight_eq, intrinsicHeight_eq,
    colWidths_axis g hconst limits oracle, rowHeights_axis g hconst limits oracle]
  rfl

/-- C9 (amended): for a grid whose children's layout responses do not
depend on the limits they are offered, the axis setting only changes which
phase resolves which dimension: the horizontal and the vertical grid
produce identical total sizes and identical cell rectangles, for every
limits and sweep order. -/
theorem axis_layout_eq (g : GridW) (hconst : g.AllConst) (limits : Limits)
    (oracle : Finset ℕ → List ℕ) :
    (g.withAxis Axis.horizontal).layoutWith limits oracle
      = (g.withAxis Axis.vertical).layoutWith limits oracle := by
  unfold GridW.layoutWith
  rw [cells_axis_eq g hconst limits oracle, totalSize_axis_eq g hconst limits oracle]

theorem constChild_const (wl hl : Length) (w h : ℚ) :
    ConstChild (constChild wl hl w h) := fun _ _ => rfl

theorem gridConstCells_allConst : gridConstCells.AllConst := by
  intro r hr c hc
  unfold gridConstCells at hr
  simp only [List.mem_cons, List.not_mem_nil, or_false] at hr
  rcases hr with rfl | rfl
  · simp only [List.mem_cons, List.not_mem_nil, or_false] at hc
    rcases hc with rfl | rfl <;> exact constChild_const _ _ _ _
  · simp only [List.mem_cons, List.not_mem_nil, or_false] at hc
    rcases hc with rfl
    exact constChild_const _ _ _ _

/-- Witness for the amended C9: a ragged grid of constant-size children
with mixed fill factors lays out identically under both axes. -/
theorem axis_layout_eq_witness :
    (gridConstCells.withAxis Axis.horizontal).layoutWith limitsEx defaultOracle
      = (gridConstCells.withAxis Axis.vertical).layoutWith limitsEx defaultOracle :=
  axis_layout_eq gridConstCells gridConstCells_allConst limitsEx defaultOracle

/-- Counterexample to C9 as stated: for the (well-behaved) greedy-height
grid, whose children size themselves against the limits they are offered,
the horizontal and vertical layouts differ — the two phases offer the
children different budgets — so the axis is not visually irrelevant in
general. -/
theorem axis_layout_counterexample :
    gridGreedyRows.AllWellBehaved ∧
    (gridGreedyRows.withAxis Axis.horizontal).layout limitsEx
      ≠ (gridGreedyRows.withAxis Axis.vertical).layout limitsEx :=
  ⟨gridGreedyRows_wellBehaved, by decide⟩

end MoreIcedAw